import Mathlib

/-!
# ChatProtocol: the HF chat engine over 13-character FT8 free-text frames

A shallow embedding of `ChatProtocol.cpp` / `ChatProtocol.h`.

* A `QChar` is one UTF-16 code unit, held as its numeric value (a `Nat`); a
  `QString` is the list of its code units, so `size()` is `List.length`.
* The `QString` members the engine calls (`left`, `mid`, `trimmed`,
  `endsWith`, `chop`, `leftJustified`, `toUpper`, ...) are modelled by the list
  functions of the first section.
* The engine object is the structure `ChatProtocol`; every member function is a
  function on it.  The Qt signals an operation emits are appended to the ghost
  field `emitted` (oldest first); the three `QTimer` members are held as their
  `isActive()` flag and the `QTimer::singleShot` auto-returns as a counter of
  pending shots.
-/

/-- A Qt string: its UTF-16 code units (`QChar`), each held as its numeric
value, in order. -/
abbrev QString := List Nat

/-- A Qt string list. -/
abbrev QStringList := List QString

/-- The QString written as a literal (characters of the Basic Multilingual Plane). -/
def qs (s : String) : QString := s.toList.map Char.toNat

namespace QString

/-- Model of `QChar::isSpace()`: U+0020, U+0009..U+000D, U+0085, U+00A0 and the
Unicode separators (categories Zs, Zl, Zp). -/
def isSpace (c : Nat) : Bool :=
  c == 0x20 || (0x09 ≤ c && c ≤ 0x0D) || c == 0x85 || c == 0xA0 || c == 0x1680 ||
  (0x2000 ≤ c && c ≤ 0x200A) || c == 0x2028 || c == 0x2029 || c == 0x202F ||
  c == 0x205F || c == 0x3000

/-- First code unit of each block of ten decimal digits (category Nd) of the
Basic Multilingual Plane; the ASCII digits are the block starting at U+0030. -/
def digitBlocks : List Nat :=
  [0x30, 0x660, 0x6F0, 0x7C0, 0x966, 0x9E6, 0xA66, 0xAE6, 0xB66, 0xBE6, 0xC66, 0xCE6,
   0xD66, 0xDE6, 0xE50, 0xED0, 0xF20, 0x1040, 0x1090, 0x17E0, 0x1810, 0x1946, 0x19D0,
   0x1A80, 0x1A90, 0x1B50, 0x1BB0, 0x1C40, 0x1C50, 0xA620, 0xA8D0, 0xA900, 0xA9D0,
   0xA9F0, 0xAA50, 0xABF0, 0xFF10]

/-- Model of `QChar::isDigit()`: the code unit is a decimal digit (category Nd). -/
def isDigit (c : Nat) : Bool :=
  digitBlocks.any (fun lo => lo ≤ c && c ≤ lo + 9)

/-- Upper-case form of one code unit, as `QString::toUpper()` produces it.
The letters a-z go to A-Z.  The non-ASCII characters whose Unicode upper-case
form holds an ASCII letter are mapped to that form (it can be longer than one
code unit).  Every other code unit is kept: Qt maps it to a non-ASCII character
again, and which one plays no part in the engine. -/
def upperCaseOf (c : Nat) : QString :=
  if 'a'.toNat ≤ c && c ≤ 'z'.toNat then [c - 32]
  else if c == 0xDF then qs "SS"
  else if c == 0x131 then qs "I"
  else if c == 0x17F then qs "S"
  else if c == 0x149 then [0x2BC, 'N'.toNat]
  else if c == 0x1F0 then ['J'.toNat, 0x30C]
  else if c == 0x1E96 then ['H'.toNat, 0x331]
  else if c == 0x1E97 then ['T'.toNat, 0x308]
  else if c == 0x1E98 then ['W'.toNat, 0x30A]
  else if c == 0x1E99 then ['Y'.toNat, 0x30A]
  else if c == 0x1E9A then ['A'.toNat, 0x2BE]
  else if c == 0xFB00 then qs "FF"
  else if c == 0xFB01 then qs "FI"
  else if c == 0xFB02 then qs "FL"
  else if c == 0xFB03 then qs "FFI"
  else if c == 0xFB04 then qs "FFL"
  else if c == 0xFB05 then qs "ST"
  else if c == 0xFB06 then qs "ST"
  else [c]

/-- Model of `QString::toUpper()`. -/
def toUpper (s : QString) : QString :=
  (s.map upperCaseOf).flatten

/-- Models `QString::left(n)` for `n ≥ 0`: the first `n` code units (all of them when
the string is shorter). -/
def left (s : QString) (n : Nat) : QString := s.take n

/-- Models `QString::mid(pos, n)` for `pos, n ≥ 0`: at most `n` code units from
position `pos` on. -/
def mid (s : QString) (pos n : Nat) : QString := (s.drop pos).take n

/-- Models `QString::mid(pos)`: everything from position `pos` on. -/
def midFrom (s : QString) (pos : Nat) : QString := s.drop pos

/-- Models `QString::trimmed()`: whitespace (`QChar::isSpace`) removed from both ends. -/
def trimmed (s : QString) : QString :=
  (s.dropWhile isSpace).rdropWhile isSpace

/-- Models `QString::endsWith(suffix)`. -/
def endsWith (s suffix : QString) : Bool :=
  suffix.length ≤ s.length && s.drop (s.length - suffix.length) == suffix

/-- Models `QString::endsWith(QChar)`. -/
def endsWithChar (s : QString) (c : Nat) : Bool := s.getLast? == some c

/-- Models `QString::startsWith(QChar)`. -/
def startsWithChar (s : QString) (c : Nat) : Bool := s.head? == some c

/-- Models `QString::chop(n)`: the last `n` code units removed. -/
def chop (s : QString) (n : Nat) : QString := s.take (s.length - n)

/-- Models `QString::leftJustified(width, fill)`: padded on the right with `fill` up to
`width` code units; a longer string is returned as it is. -/
def leftJustified (s : QString) (width : Nat) (fill : Nat) : QString :=
  s ++ List.replicate (width - s.length) fill

end QString

open QString

namespace ChatProtocol

/-! ## Constants of `ChatProtocol.h` -/

def SLOT_SIZE : Nat := 13
def HEADER_SIZE : Nat := 5
def FIRST_PAYLOAD : Nat := SLOT_SIZE - HEADER_SIZE
def MAX_MESSAGE_LEN : Nat := 99
def MAX_RETRIES : Nat := 5
def FT8_NSYM : Int := 79
def FT8_NSPS : Int := 4 * 1920
def SAMPLES_PER_PERIOD : Int := 15 * 48000

/-! ## FT8 helpers -/

/-- Embeds `ChatProtocol::isValidFT8Char`. -/
def isValidFT8Char (c : Nat) : Bool :=
  if 'A'.toNat ≤ c && c ≤ 'Z'.toNat then true
  else if '0'.toNat ≤ c && c ≤ '9'.toNat then true
  else if c == ' '.toNat || c == '+'.toNat || c == '-'.toNat || c == '.'.toNat ||
      c == '/'.toNat || c == '?'.toNat then true
  else false

/-- The loop of `filterFT8Text`: `rest` is the part of `upper` from index `i` on.
The loop runs while `i < upper.size() && result.size() < maxLen`. -/
def filterLoop (maxLen : Int) : QString → QString → QString
  | [], result => result
  | c :: rest, result =>
    if (result.length : Int) < maxLen then
      filterLoop maxLen rest (if isValidFT8Char c then result ++ [c] else result)
    else result

/-- Embeds `ChatProtocol::filterFT8Text`. -/
def filterFT8Text (text : QString) (maxLen : Int) : QString :=
  let upper := toUpper text
  filterLoop maxLen upper []

/-! ## Header detection -/

/-- Embeds `ChatProtocol::isHeader`: at least `HEADER_SIZE` code units, the first four
are digits and the fifth is a space. -/
def isHeader (text : QString) : Bool :=
  if text.length < HEADER_SIZE then false
  else if (List.range 4).any (fun i => !isDigit (text.getD i 0)) then false
  else text.getD 4 0 == ' '.toNat

/-- Embeds `ChatProtocol::headerSender`. -/
def headerSender (text : QString) : QString :=
  if !isHeader text then [] else left text 2

/-- Embeds `ChatProtocol::headerTarget`. -/
def headerTarget (text : QString) : QString :=
  if !isHeader text then [] else mid text 2 2

/-- Embeds `ChatProtocol::headerPayload`. -/
def headerPayload (text : QString) : QString :=
  if !isHeader text then [] else midFrom text HEADER_SIZE

/-! ## /AR detection -/

/-- Embeds `ChatProtocol::endsWithAR`. -/
def endsWithAR (text : QString) : Bool :=
  let trimmed := trimmed text
  endsWith trimmed (qs "/AR")

/-- Embeds `ChatProtocol::stripAR`. -/
def stripAR (text : QString) : QString :=
  let trimmed := trimmed text
  let trimmed := if endsWith trimmed (qs "/AR") then chop trimmed 3 else trimmed
  QString.trimmed trimmed

/-! ## Fragmentation -/

/-- The `while (pos < clean.size())` loop of `fragmentMessage`, with its three
variables `pos`, `first` and `result`.  Every iteration advances `pos` by at
least `FIRST_PAYLOAD`, so `clean.size()` iterations are more than enough; the
first argument counts the iterations still allowed. -/
def fragmentMessageLoop (senderId targetId clean : QString) :
    Nat → Nat → Bool → QStringList → QStringList
  | 0, _, _, result => result
  | fuel + 1, pos, first, result =>
    if pos < clean.length then
      if first then
        let header := senderId ++ targetId ++ qs " "
        let payloadSize := FIRST_PAYLOAD
        let payload := mid clean pos payloadSize
        let frag := header ++ payload
        fragmentMessageLoop senderId targetId clean fuel (pos + payloadSize) false
          (result ++ [frag])
      else
        let payloadSize := SLOT_SIZE
        let frag := mid clean pos payloadSize
        fragmentMessageLoop senderId targetId clean fuel (pos + payloadSize) false
          (result ++ [frag])
    else result

/-- Embeds `ChatProtocol::fragmentMessage`. -/
def fragmentMessage (senderId targetId text : QString) : QStringList :=
  let clean := filterFT8Text text MAX_MESSAGE_LEN
  if clean.isEmpty then []
  else fragmentMessageLoop senderId targetId clean clean.length 0 true []

/-- The `while` loop of `fragmentBroadcast` (the source repeats the loop of
`fragmentMessage`; it is translated from its own lines). -/
def fragmentBroadcastLoop (senderId targetId clean : QString) :
    Nat → Nat → Bool → QStringList → QStringList
  | 0, _, _, result => result
  | fuel + 1, pos, first, result =>
    if pos < clean.length then
      if first then
        let header := senderId ++ targetId ++ qs " "
        let payloadSize := FIRST_PAYLOAD
        let payload := mid clean pos payloadSize
        let frag := header ++ payload
        fragmentBroadcastLoop senderId targetId clean fuel (pos + payloadSize) false
          (result ++ [frag])
      else
        let payloadSize := SLOT_SIZE
        let frag := mid clean pos payloadSize
        fragmentBroadcastLoop senderId targetId clean fuel (pos + payloadSize) false
          (result ++ [frag])
    else result

/-- The `/AR` step that ends `fragmentBroadcast`: pad the last fragment to
`SLOT_SIZE - 3` and add `/AR` when that fits one slot, else add a slot made of
ten spaces and `/AR`. -/
def appendAR (result : QStringList) : QStringList :=
  match result.getLast? with
  | none => result
  | some last =>
    if last.length + 3 ≤ SLOT_SIZE then
      result.dropLast ++ [leftJustified last (SLOT_SIZE - 3) ' '.toNat ++ qs "/AR"]
    else
      result ++ [qs "          /AR"]

/-- Embeds `ChatProtocol::fragmentBroadcast`. -/
def fragmentBroadcast (senderId targetId text : QString) : QStringList :=
  let clean := filterFT8Text text MAX_MESSAGE_LEN
  if clean.isEmpty then []
  else appendAR (fragmentBroadcastLoop senderId targetId clean clean.length 0 true [])

/-! ## The engine object -/

/-- Embeds `ChatProtocol::State`. -/
inductive State where
  | Idle
  | SendingFragment
  | WaitingEcho
  | Broadcasting
  | DirectTx
  | EchoReady
  | WaitingNext
  | Complete
  deriving DecidableEq

/-- The texts passed to `statusMessage`: one constructor per `tr(...)` template,
carrying the values of its `%n` arguments. -/
inductive Status where
  | envoiVers (targetId : QString) (fragments : Nat)
  | broadcastVers (targetId : QString) (fragments : Nat)
  | txFragment (current total : Nat)
  | cq (current total : Nat)
  | broadcastTermine (targetId : QString)
  | echoEnvoye
  | echoOk (current total : Nat)
  | messageEnvoye (targetId : QString)
  | tropDeRetransmissions
  | echoIncorrect (retry maxRetries : Nat)
  | recuDe (senderId : QString)
  | fragmentSuite (senderId : QString)
  | transmissionArretee
  | emissionDirecteTerminee (targetId : QString)
  | timeoutBroadcast
  | timeoutTransmission
  | messageComplet (senderId : QString)
  | erreurEncodage
  | emissionDirecte (targetId : QString) (fragments seconds : Nat)
  | txDirect (current total : Int) (secsRemaining : Int)
  deriving DecidableEq

/-- The signals of `ChatProtocol`. -/
inductive Signal where
  | messageReceived (senderId fullText : QString)
  | messageSentOk (targetId : QString)
  | stateChanged (newState : State)
  | statusMessage (text : Status)
  | fragmentProgress (current total : Int) (isEcho : Bool)
  | directTxReady (totalSymbols numFragments : Int)
  | directTxComplete
  | directFragmentStarted (current total : Int) (currentText nextText : QString)
  deriving DecidableEq

end ChatProtocol

/-- The member variables of a `ChatProtocol` object.  `emitted` is the ghost
record of the signals emitted so far, oldest first; `autoReturnShots` counts the
`QTimer::singleShot(2000, ...)` callbacks that are scheduled and have not fired. -/
structure ChatProtocol where
  m_myId : QString
  m_state : ChatProtocol.State
  m_targetId : QString
  m_fragments : QStringList
  m_fragIndex : Nat
  m_lastSent : QString
  m_retryCount : Nat
  m_broadcastMode : Bool
  m_rxSenderId : QString
  m_echoText : QString
  m_rxPayloads : QStringList
  m_timeoutTimer : Bool
  m_rxCompleteTimer : Bool
  m_directTxTracker : Bool
  m_directTxCurrentFrag : Int
  autoReturnShots : Nat
  emitted : List ChatProtocol.Signal
  deriving DecidableEq

namespace ChatProtocol

/-- The constructor `ChatProtocol::ChatProtocol`. -/
def init : ChatProtocol :=
  { m_myId := [], m_state := State.Idle, m_targetId := [], m_fragments := [],
    m_fragIndex := 0, m_lastSent := [], m_retryCount := 0, m_broadcastMode := false,
    m_rxSenderId := [], m_echoText := [], m_rxPayloads := [],
    m_timeoutTimer := false, m_rxCompleteTimer := false, m_directTxTracker := false,
    m_directTxCurrentFrag := -1, autoReturnShots := 0, emitted := [] }

/-- The statement `emit sig`. -/
def emit (p : ChatProtocol) (sig : Signal) : ChatProtocol :=
  { p with emitted := p.emitted ++ [sig] }

/-- Embeds `ChatProtocol::setMyId`. -/
def setMyId (p : ChatProtocol) (id : QString) : ChatProtocol :=
  { p with m_myId := left (leftJustified id 2 '0'.toNat) 2 }

/-- Embeds `ChatProtocol::setState`. -/
def setState (p : ChatProtocol) (s : State) : ChatProtocol :=
  if p.m_state ≠ s then emit { p with m_state := s } (Signal.stateChanged s)
  else p

/-- Embeds `ChatProtocol::reset`. -/
def reset (p : ChatProtocol) : ChatProtocol :=
  setState
    { p with
      m_fragments := [], m_fragIndex := 0, m_lastSent := [], m_retryCount := 0,
      m_broadcastMode := false, m_targetId := [], m_rxSenderId := [],
      m_echoText := [], m_rxPayloads := [], m_timeoutTimer := false,
      m_rxCompleteTimer := false, m_directTxTracker := false,
      m_directTxCurrentFrag := -1 }
    State.Idle

/-- The callback given to `QTimer::singleShot(2000, this, ...)`:
`if (m_state == Complete) setState(Idle);`. -/
def autoReturn (p : ChatProtocol) : ChatProtocol :=
  if p.m_state = State.Complete then setState p State.Idle else p

/-- The statement `QTimer::singleShot(2000, this, ...)`: one more shot pending. -/
def scheduleAutoReturn (p : ChatProtocol) : ChatProtocol :=
  { p with autoReturnShots := p.autoReturnShots + 1 }

/-- Embeds `ChatProtocol::sendMessage`. -/
def sendMessage (p : ChatProtocol) (targetId text : QString) : ChatProtocol :=
  let p := reset p
  let p := { p with m_targetId := left (leftJustified targetId 2 '0'.toNat) 2 }
  let p := { p with m_fragments := fragmentMessage p.m_myId p.m_targetId text }
  let p := { p with m_fragIndex := 0, m_retryCount := 0 }
  if p.m_fragments.isEmpty then p
  else
    let p := setState p State.SendingFragment
    let p := { p with m_timeoutTimer := true }
    emit p (Signal.statusMessage (Status.envoiVers p.m_targetId p.m_fragments.length))

/-- Embeds `ChatProtocol::sendBroadcast`. -/
def sendBroadcast (p : ChatProtocol) (targetId text : QString) : ChatProtocol :=
  let p := reset p
  let p := { p with m_broadcastMode := true }
  let p := { p with m_targetId := left (leftJustified targetId 2 '0'.toNat) 2 }
  let p := { p with m_fragments := fragmentBroadcast p.m_myId p.m_targetId text }
  let p := { p with m_fragIndex := 0 }
  if p.m_fragments.isEmpty then p
  else
    let p := setState p State.Broadcasting
    let p := { p with m_timeoutTimer := true }
    emit p (Signal.statusMessage (Status.broadcastVers p.m_targetId p.m_fragments.length))

/-- Embeds `ChatProtocol::hasDataToSend`. -/
def hasDataToSend (p : ChatProtocol) : Bool :=
  p.m_state == State.SendingFragment || p.m_state == State.EchoReady ||
    p.m_state == State.Broadcasting

/-- Embeds `ChatProtocol::nextTxText`: the returned text and the object afterwards. -/
def nextTxText (p : ChatProtocol) : QString × ChatProtocol :=
  if p.m_state = State.SendingFragment then
    if p.m_fragIndex ≥ p.m_fragments.length then
      ([], setState p State.Idle)
    else
      let p := { p with m_lastSent := p.m_fragments.getD p.m_fragIndex [] }
      let p := setState p State.WaitingEcho
      let p := emit p (Signal.fragmentProgress (p.m_fragIndex + 1) p.m_fragments.length false)
      let p := emit p (Signal.statusMessage
        (Status.txFragment (p.m_fragIndex + 1) p.m_fragments.length))
      (p.m_lastSent, p)
  else if p.m_state = State.Broadcasting then
    if p.m_fragIndex ≥ p.m_fragments.length then
      ([], setState p State.Idle)
    else
      let frag := p.m_fragments.getD p.m_fragIndex []
      let p := { p with m_fragIndex := p.m_fragIndex + 1 }
      let p := emit p (Signal.fragmentProgress p.m_fragIndex p.m_fragments.length false)
      let p := emit p (Signal.statusMessage (Status.cq p.m_fragIndex p.m_fragments.length))
      if p.m_fragIndex ≥ p.m_fragments.length then
        let p := { p with m_timeoutTimer := false }
        let p := setState p State.Complete
        let p := emit p (Signal.messageSentOk p.m_targetId)
        let p := emit p (Signal.statusMessage (Status.broadcastTermine p.m_targetId))
        let p := scheduleAutoReturn p
        (frag, p)
      else
        (frag, p)
  else if p.m_state = State.EchoReady then
    let echo := p.m_echoText
    let p := setState p State.WaitingNext
    let p := { p with m_rxCompleteTimer := true }
    let p := emit p (Signal.fragmentProgress p.m_rxPayloads.length 0 true)
    let p := emit p (Signal.statusMessage Status.echoEnvoye)
    (echo, p)
  else
    ([], p)

/-- The reassembly loop of `deliverReceivedMessage`: `fullMessage` after the
payloads of the list have been appended in order. -/
def joinPayloads : QStringList → QString → QString
  | [], fullMessage => fullMessage
  | payload :: rest, fullMessage =>
    let fullMessage :=
      if !fullMessage.isEmpty && !endsWithChar fullMessage ' '.toNat &&
          !startsWithChar payload ' '.toNat then
        fullMessage ++ qs " "
      else fullMessage
    joinPayloads rest (fullMessage ++ payload)

/-- Embeds `ChatProtocol::deliverReceivedMessage`. -/
def deliverReceivedMessage (p : ChatProtocol) : ChatProtocol :=
  if p.m_rxPayloads.isEmpty then p
  else
    let fullMessage := joinPayloads p.m_rxPayloads []
    let fullMessage := trimmed fullMessage
    let sender := p.m_rxSenderId
    let p := { p with m_rxSenderId := [], m_rxPayloads := [], m_echoText := [],
                      m_rxCompleteTimer := false }
    let p := setState p State.Idle
    let p := emit p (Signal.messageReceived sender fullMessage)
    emit p (Signal.statusMessage (Status.messageComplet sender))

/-- The echo comparison of `processIncoming` (state `WaitingEcho`): `expected`
and `received` trimmed and compared over the length of the shorter one. -/
def echoMatch (lastSent text : QString) : Bool :=
  let expected := trimmed lastSent
  let received := trimmed text
  let len := min expected.length received.length
  left expected len == left received len

/-- Embeds `ChatProtocol::processIncoming`. -/
def processIncoming (p : ChatProtocol) (freeText : QString) : ChatProtocol :=
  let text := trimmed freeText
  if text.isEmpty then p
  else if p.m_state = State.WaitingEcho then
    if echoMatch p.m_lastSent text then
      let p := emit p (Signal.statusMessage
        (Status.echoOk (p.m_fragIndex + 1) p.m_fragments.length))
      let p := { p with m_retryCount := 0 }
      let p := { p with m_fragIndex := p.m_fragIndex + 1 }
      if p.m_fragIndex ≥ p.m_fragments.length then
        let p := { p with m_timeoutTimer := false }
        let p := setState p State.Complete
        let p := emit p (Signal.messageSentOk p.m_targetId)
        let p := emit p (Signal.statusMessage (Status.messageEnvoye p.m_targetId))
        scheduleAutoReturn p
      else
        setState p State.SendingFragment
    else
      let p := { p with m_retryCount := p.m_retryCount + 1 }
      if p.m_retryCount ≥ MAX_RETRIES then
        let p := emit p (Signal.statusMessage Status.tropDeRetransmissions)
        reset p
      else
        let p := emit p (Signal.statusMessage
          (Status.echoIncorrect p.m_retryCount MAX_RETRIES))
        setState p State.SendingFragment
  else if isHeader text then
    let target := headerTarget text
    let sender := headerSender text
    if target = p.m_myId then
      let p := { p with m_rxSenderId := sender }
      let payload := headerPayload text
      let p := { p with m_rxPayloads := [] }
      if endsWithAR payload then
        let p := { p with m_rxPayloads := p.m_rxPayloads ++ [stripAR payload] }
        deliverReceivedMessage p
      else
        let p := { p with m_rxPayloads := p.m_rxPayloads ++ [payload] }
        let p := { p with m_echoText := text }
        let p := setState p State.EchoReady
        emit p (Signal.statusMessage (Status.recuDe sender))
    else p
  else if (p.m_state = State.WaitingNext ∨ p.m_state = State.EchoReady) ∧
      ¬ p.m_rxSenderId.isEmpty then
    let p := { p with m_rxCompleteTimer := false }
    if endsWithAR text then
      let p := { p with m_rxPayloads := p.m_rxPayloads ++ [stripAR text] }
      deliverReceivedMessage p
    else
      let p := { p with m_echoText := text }
      let p := { p with m_rxPayloads := p.m_rxPayloads ++ [text] }
      let p := setState p State.EchoReady
      emit p (Signal.statusMessage (Status.fragmentSuite p.m_rxSenderId))
  else p

/-- Embeds `ChatProtocol::haltTx`. -/
def haltTx (p : ChatProtocol) : ChatProtocol :=
  let p := reset p
  emit p (Signal.statusMessage Status.transmissionArretee)

/-- Embeds `ChatProtocol::notifyDirectTxComplete`. -/
def notifyDirectTxComplete (p : ChatProtocol) : ChatProtocol :=
  let p := { p with m_directTxTracker := false }
  let p :=
    if ¬ p.m_fragments.isEmpty then
      let total : Int := p.m_fragments.length
      let p := emit p (Signal.directFragmentStarted total total
        (p.m_fragments.getLastD []) [])
      emit p (Signal.fragmentProgress total total false)
    else p
  let p := setState p State.Complete
  let p := emit p (Signal.messageSentOk p.m_targetId)
  let p := emit p (Signal.statusMessage (Status.emissionDirecteTerminee p.m_targetId))
  let p := emit p Signal.directTxComplete
  scheduleAutoReturn p

/-- Embeds `ChatProtocol::onTimeout`, the slot of `m_timeoutTimer`. -/
def onTimeout (p : ChatProtocol) : ChatProtocol :=
  if p.m_state ≠ State.Idle ∧ p.m_state ≠ State.Complete then
    let p :=
      if p.m_state = State.Broadcasting then
        emit p (Signal.statusMessage Status.timeoutBroadcast)
      else
        emit p (Signal.statusMessage Status.timeoutTransmission)
    reset p
  else p

/-- Embeds `ChatProtocol::onRxComplete`, the slot of `m_rxCompleteTimer`. -/
def onRxComplete (p : ChatProtocol) : ChatProtocol :=
  if (p.m_state = State.WaitingNext ∨ p.m_state = State.Idle) ∧
      ¬ p.m_rxPayloads.isEmpty then
    deliverReceivedMessage p
  else p

/-! ## Direct emission -/

/-- A value stored in a 32-bit `int`. -/
def toInt32 (x : Int) : Int := (x + 2 ^ 31) % 2 ^ 32 - 2 ^ 31

/-- Embeds `ChatProtocol::prepareTxWaveform`: the value it returns.  The samples it
writes to `foxcom_.wave` through the Fortran routines `genft8_` and
`gen_ft8wave_`, and `txFreq` which only they use, are outside the embedding;
the returned symbol count depends on `fragments.size()` alone. -/
def prepareTxWaveform (fragments : QStringList) : Int :=
  let totalSamples := toInt32 ((fragments.length : Int) * SAMPLES_PER_PERIOD)
  let totalSymbols := Int.tdiv (toInt32 (totalSamples + 4 * 1920 - 1)) (4 * 1920)
  totalSymbols

/-- Embeds `ChatProtocol::sendDirect` (without the waveform, see `prepareTxWaveform`). -/
def sendDirect (p : ChatProtocol) (targetId text : QString) : ChatProtocol :=
  let p := reset p
  let p := { p with m_broadcastMode := true }
  let p := { p with m_targetId := left (leftJustified targetId 2 '0'.toNat) 2 }
  let p := { p with m_fragments := fragmentBroadcast p.m_myId p.m_targetId text }
  if p.m_fragments.isEmpty then p
  else
    let totalSymbols := prepareTxWaveform p.m_fragments
    if totalSymbols ≤ 0 then
      let p := emit p (Signal.statusMessage Status.erreurEncodage)
      reset p
    else
      let p := setState p State.DirectTx
      let p := emit p (Signal.statusMessage
        (Status.emissionDirecte p.m_targetId p.m_fragments.length (p.m_fragments.length * 15)))
      let p := emit p (Signal.fragmentProgress 0 p.m_fragments.length false)
      emit p (Signal.directTxReady totalSymbols p.m_fragments.length)

/-- Embeds `ChatProtocol::onDirectTxTick`, the slot of `m_directTxTracker`; `elapsedMs`
is the value `m_directTxElapsed.elapsed()` returns. -/
def onDirectTxTick (p : ChatProtocol) (elapsedMs : Int) : ChatProtocol :=
  if p.m_state ≠ State.DirectTx ∨ p.m_fragments.isEmpty then
    { p with m_directTxTracker := false }
  else
    let fragIndex : Int := toInt32 (Int.tdiv elapsedMs 15000)
    let fragIndex : Int :=
      if fragIndex ≥ p.m_fragments.length then (p.m_fragments.length : Int) - 1
      else fragIndex
    if fragIndex ≠ p.m_directTxCurrentFrag then
      let p := { p with m_directTxCurrentFrag := fragIndex }
      let current := fragIndex + 1
      let total : Int := p.m_fragments.length
      let currentText := p.m_fragments.getD fragIndex.toNat []
      let nextText :=
        if fragIndex + 1 < p.m_fragments.length then
          p.m_fragments.getD (fragIndex + 1).toNat []
        else []
      let p := emit p (Signal.directFragmentStarted current total currentText nextText)
      let p := emit p (Signal.fragmentProgress current total false)
      let secsRemaining :=
        (total - current) * 15 + 15 - toInt32 (Int.tdiv (Int.tmod elapsedMs 15000) 1000)
      emit p (Signal.statusMessage (Status.txDirect current total secsRemaining))
    else p

/-- Embeds `ChatProtocol::startDirectTxTracking`: the elapsed timer is restarted, so the
immediate tick reads an elapsed time of `0`. -/
def startDirectTxTracking (p : ChatProtocol) : ChatProtocol :=
  let p := { p with m_directTxCurrentFrag := -1 }
  let p := { p with m_directTxTracker := true }
  onDirectTxTick p 0

end ChatProtocol

/-! ## Definitions used to state the properties -/

namespace ChatProtocol

/-- The FT8 free-text alphabet as the specification spells it: `A-Z`, `0-9`,
space, `+`, `-`, `.`, `/`, `?`. -/
def ft8Alphabet : QString := qs "ABCDEFGHIJKLMNOPQRSTUVWXYZ0123456789 +-./?"

/-- The continuation slots the fragmentation loop produces from position `pos`
on: slot `k` is `clean.mid(pos + 13 k, 13)`, for `k` below
`ceil((clean.size() - pos) / 13)`. -/
def slotsFrom (clean : QString) (pos : Nat) : QStringList :=
  (List.range ((clean.length - pos + 12) / 13)).map (fun k => mid clean (pos + 13 * k) 13)


/-- One transmit slot of a sender followed by one decode: the engine is asked
for its slot text with `nextTxText()` and then receives `incoming` through
`processIncoming`. -/
def txThenIncoming (p : ChatProtocol) (incoming : QString) : ChatProtocol :=
  processIncoming (nextTxText p).2 incoming

/-- One echo round: `nextTxText()`, then `processIncoming` of the very string
`nextTxText()` returned. -/
def echoRound (p : ChatProtocol) : ChatProtocol :=
  txThenIncoming p (nextTxText p).1

/-- Recognises the signal `messageSentOk`. -/
def isMessageSentOk : Signal → Bool
  | Signal.messageSentOk _ => true
  | _ => false

/-- Recognises the signal `messageReceived`. -/
def isMessageReceived : Signal → Bool
  | Signal.messageReceived _ _ => true
  | _ => false

/-- The signals `q` has emitted beyond those `p` had emitted, `q` being a later
state of the engine `p`. -/
def emittedSince (p q : ChatProtocol) : List Signal :=
  q.emitted.drop p.emitted.length

/-- What holds of a sender after `k` successful echo rounds of the session that
`p0` starts: it is about to send fragment `k`. -/
structure EchoInv (p0 q : ChatProtocol) (k : Nat) : Prop where
  state : q.m_state = State.SendingFragment
  frags : q.m_fragments = p0.m_fragments
  index : q.m_fragIndex = k
  retry : q.m_retryCount = 0
  target : q.m_targetId = p0.m_targetId
  log : ∃ evs, q.emitted = p0.emitted ++ evs ∧ evs.filter isMessageSentOk = []


/-- The characters of a text that are not space characters (`QChar::isSpace`),
in order. -/
def nonSpace (s : QString) : QString := s.filter (fun c => !isSpace c)


/-- One transmit slot: `nextTxText()` is called and the engine it leaves is
kept. -/
def pullTx (p : ChatProtocol) : ChatProtocol := (nextTxText p).2

/-- The decodes of one receive period, given to `processIncoming` in order. -/
def listen (p : ChatProtocol) (texts : List QString) : ChatProtocol :=
  texts.foldl processIncoming p

/-- One receive period followed by one transmit slot. -/
def listenThenTx (p : ChatProtocol) (texts : List QString) : ChatProtocol :=
  pullTx (listen p texts)

/-- The engine `q` has the member variables of `p`; the record of emitted
signals is left out of the comparison. -/
def sameFields (p q : ChatProtocol) : Prop :=
  q = { p with emitted := q.emitted }


/-- What holds of a broadcasting sender after `k` transmit slots of the session
that `p0` starts: it is about to send fragment `k` and has not emitted
`messageSentOk`. -/
structure BroadcastInv (p0 q : ChatProtocol) (k : Nat) : Prop where
  state : q.m_state = State.Broadcasting
  frags : q.m_fragments = p0.m_fragments
  index : q.m_fragIndex = k
  target : q.m_targetId = p0.m_targetId
  myId : q.m_myId = p0.m_myId
  log : ∃ evs, q.emitted = p0.emitted ++ evs ∧ evs.filter isMessageSentOk = []

/-- The frame is, after trimming, a header frame whose target is `myId`. -/
def isHeaderFor (myId text : QString) : Bool :=
  isHeader (trimmed text) && decide (headerTarget (trimmed text) = myId)


/-- The fragment loop of `prepareTxWaveform` as far as its writes to `foxcom_.wave`
go: the value of `offset` after the loop.  For each fragment the generated wave
(`nwave = 606720` samples from `offset` on) and the silence (the indices
`offset + j` for `nwave ≤ j < SAMPLES_PER_PERIOD`) lie below
`offset + SAMPLES_PER_PERIOD`, which is the next value of `offset`. -/
def waveOffsetLoop : QStringList → Int → Int
  | [], offset => offset
  | _ :: rest, offset => waveOffsetLoop rest (toInt32 (offset + SAMPLES_PER_PERIOD))

/-- The number of samples of `foxcom_.wave` that `prepareTxWaveform` covers: the
final `offset` of its fragment loop, which starts at `0`. -/
def samplesWritten (fragments : QStringList) : Int :=
  waveOffsetLoop fragments 0

/-- One call from outside the engine: a public member function of `ChatProtocol`,
or the firing of one of its timers (`m_timeoutTimer`, `m_rxCompleteTimer`,
`m_directTxTracker`, the `QTimer::singleShot` auto-return). -/
inductive Op where
  | setMyId (id : QString)
  | sendMessage (targetId text : QString)
  | sendBroadcast (targetId text : QString)
  | sendDirect (targetId text : QString)
  | prepareTxWaveform (fragments : QStringList)
  | processIncoming (freeText : QString)
  | nextTxText
  | haltTx
  | notifyDirectTxComplete
  | startDirectTxTracking
  | timeout
  | rxComplete
  | directTxTick (elapsedMs : Nat)
  | autoReturn
  deriving DecidableEq

/-- The engine after one call.  A timer slot is allowed at any moment, whether or
not its timer is pending, so that every real run is among the runs considered;
`prepareTxWaveform` changes no member variable (it writes the waveform only); the
elapsed time a tracker tick reads is not negative. -/
def step (p : ChatProtocol) : Op → ChatProtocol
  | Op.setMyId id => setMyId p id
  | Op.sendMessage targetId text => sendMessage p targetId text
  | Op.sendBroadcast targetId text => sendBroadcast p targetId text
  | Op.sendDirect targetId text => sendDirect p targetId text
  | Op.prepareTxWaveform _ => p
  | Op.processIncoming freeText => processIncoming p freeText
  | Op.nextTxText => (nextTxText p).2
  | Op.haltTx => haltTx p
  | Op.notifyDirectTxComplete => notifyDirectTxComplete p
  | Op.startDirectTxTracking => startDirectTxTracking p
  | Op.timeout => onTimeout p
  | Op.rxComplete => onRxComplete p
  | Op.directTxTick elapsedMs => onDirectTxTick p elapsedMs
  | Op.autoReturn => autoReturn p

/-- The engine after a sequence of calls, the first of the list first. -/
def run (p : ChatProtocol) (ops : List Op) : ChatProtocol :=
  ops.foldl step p

/-- The arguments of the `stateChanged` signals of a log, in order. -/
def stateArgs : List Signal → List State
  | [] => []
  | Signal.stateChanged s :: rest => s :: stateArgs rest
  | _ :: rest => stateArgs rest

/-- Follows the `stateChanged` signals of a log from the state `s`: `none` when one
of them carries the state the engine was in already, else the state the last one
carries (`s` itself when the log has none). -/
def stateTrace : State → List Signal → Option State
  | s, [] => some s
  | s, Signal.stateChanged s' :: rest => if s = s' then none else stateTrace s' rest
  | s, _ :: rest => stateTrace s rest

/-- The engine `q` is a later state of the engine `p` and the `stateChanged`
signals emitted in between report the state faithfully: each carries a state
other than the one before it, and the last one carries the state of `q` (which
is the state of `p` when there is none). -/
def Faithful (p q : ChatProtocol) : Prop :=
  p.emitted <+: q.emitted ∧ stateTrace p.m_state (emittedSince p q) = some q.m_state

/-- What every sequence of calls keeps true of the engine: a sender that has a
fragment to send or to confirm points inside its fragment list, no fragment and
no buffered payload is the empty string, and a receiver that has an echo to send
holds a non-empty echo text. -/
def TxInv (p : ChatProtocol) : Prop :=
  ((p.m_state = State.SendingFragment ∨ p.m_state = State.WaitingEcho
      ∨ p.m_state = State.Broadcasting) → p.m_fragIndex < p.m_fragments.length)
    ∧ (∀ f ∈ p.m_fragments, f ≠ [])
    ∧ (p.m_state = State.EchoReady → p.m_echoText ≠ [])
    ∧ (∀ x ∈ p.m_rxPayloads, x ≠ [])

/-- The text of the blank-slot example: `"HELLO WO"`, 13 spaces, `"X"`. -/
def blankSlotText : QString :=
  qs "HELLO WO" ++ List.replicate 13 ' '.toNat ++ qs "X"

/-- The sender of the blank-slot example: the engine `"01"` after
`sendMessage("02", blankSlotText)`, one echo round (the header slot is echoed)
and the `nextTxText()` that returns the slot of 13 spaces. -/
def blankSlotSender : ChatProtocol :=
  (nextTxText (echoRound (sendMessage (setMyId init (qs "01")) (qs "02") blankSlotText))).2

/-- The reassembled text as the specification words it: the payloads in order,
with one space between two adjacent payloads when the left one does not end
with a space and the right one does not start with one. -/
def spacedConcat : QStringList → QString
  | [] => []
  | [p] => p
  | p :: q :: rest =>
    p ++ (if !endsWithChar p ' '.toNat && !startsWithChar q ' '.toNat then qs " " else [])
      ++ spacedConcat (q :: rest)

/-- The payloads the slots of a message carry: the first 8 characters of the
filtered text, then 13 characters at a time. -/
def slotPayloads (clean : QString) : QStringList :=
  left clean 8 :: slotsFrom clean 8

/-- The words of a list of payloads: each payload trimmed, the blank ones left
out. -/
def slotWords (payloads : QStringList) : QStringList :=
  (payloads.map trimmed).filter (fun w => !w.isEmpty)

/-- The words of a list joined by single spaces. -/
def spaceJoin : QStringList → QString
  | [] => []
  | [w] => w
  | w :: v :: rest => w ++ qs " " ++ spaceJoin (v :: rest)

end ChatProtocol

/-! # Properties -/

namespace ChatProtocol

theorem isValidFT8Char_lt {c : Nat} (h : isValidFT8Char c = true) : c < 91 := by
  by_contra hc
  have h1 : ¬ (c ≤ 90) := by omega
  have h2 : ¬ (c ≤ 57) := by omega
  have : isValidFT8Char c = false := by
    simp only [isValidFT8Char]
    simp [h1, h2]
    omega
  simp [this] at h

theorem isValidFT8Char_iff_mem (c : Nat) :
    isValidFT8Char c = true ↔ c ∈ ft8Alphabet := by
  by_cases hc : c < 91
  · have key : ∀ x : Nat, x < 91 → (isValidFT8Char x = true ↔ x ∈ ft8Alphabet) := by
      decide
    exact key c hc
  · constructor
    · intro h
      exact absurd (isValidFT8Char_lt h) hc
    · intro h
      exfalso
      have : ∀ x ∈ ft8Alphabet, x < 91 := by decide
      exact hc (this c h)

theorem filterLoop_eq (L : Nat) (rest : QString) :
    ∀ result : QString, result.length ≤ L →
      filterLoop (L : Int) rest result
        = result ++ (rest.filter isValidFT8Char).take (L - result.length) := by
  induction rest with
  | nil => intro result _; simp [filterLoop]
  | cons c rest ih =>
    intro result hlen
    rw [filterLoop]
    by_cases hlt : result.length < L
    · have hlt2 : ((result.length : Nat) : Int) < (L : Int) := by exact_mod_cast hlt
      rw [if_pos hlt2]
      by_cases hv : isValidFT8Char c = true
      · rw [if_pos hv, ih _ (by simp; omega)]
        simp only [List.filter_cons, hv, if_true, List.length_append, List.length_singleton]
        obtain ⟨k, hk⟩ : ∃ k, L - result.length = k + 1 := ⟨L - result.length - 1, by omega⟩
        rw [hk, List.take_succ_cons]
        have : L - (result.length + 1) = k := by omega
        rw [this]
        simp
      · rw [if_neg hv, ih _ hlen]
        simp [List.filter_cons, hv]
    · have hlt2 : ¬ ((result.length : Nat) : Int) < (L : Int) := by exact_mod_cast hlt
      rw [if_neg hlt2]
      have : L - result.length = 0 := by omega
      simp [this]

theorem filterFT8Text_eq (T : QString) (L : Nat) :
    filterFT8Text T (L : Int) = ((toUpper T).filter isValidFT8Char).take L := by
  unfold filterFT8Text
  simpa using filterLoop_eq L (toUpper T) [] (by simp)

theorem filterFT8Text_valid (T : QString) (L : Nat) :
    ∀ c ∈ filterFT8Text T (L : Int), isValidFT8Char c = true := by
  intro c hc
  rw [filterFT8Text_eq] at hc
  have := List.mem_of_mem_take hc
  exact (List.mem_filter.mp this).2

theorem filterFT8Text_length (T : QString) (L : Nat) :
    (filterFT8Text T (L : Int)).length ≤ L := by
  rw [filterFT8Text_eq]
  simp [List.length_take]

theorem upperCaseOf_valid {c : Nat} (h : isValidFT8Char c = true) : upperCaseOf c = [c] := by
  have key : ∀ x : Nat, x < 91 → isValidFT8Char x = true → upperCaseOf x = [x] := by
    decide
  exact key c (isValidFT8Char_lt h) h

theorem toUpper_valid (s : QString) (h : ∀ c ∈ s, isValidFT8Char c = true) : toUpper s = s := by
  induction s with
  | nil => rfl
  | cons c s ih =>
    have hc := upperCaseOf_valid (h c (by simp))
    have := ih (fun x hx => h x (by simp [hx]))
    unfold toUpper at *
    simp [hc, this]

theorem filterFT8Text_clean (C : QString) (L : Nat)
    (h : ∀ c ∈ C, isValidFT8Char c = true) (hlen : C.length ≤ L) :
    filterFT8Text C (L : Int) = C := by
  rw [filterFT8Text_eq, toUpper_valid C h]
  have : C.filter isValidFT8Char = C := List.filter_eq_self.mpr h
  rw [this]
  exact List.take_of_length_le hlen

/-- C7: for every text `T` and every `maxLen` `L ≥ 0`, `filterFT8Text(T, L)` is
the first `L` characters of the upper-cased `T` restricted, in order, to the
characters `A-Z`, `0-9`, space, `+`, `-`, `.`, `/`, `?`; hence every character of
the result is in the FT8 alphabet and the result has at most `L` characters. -/
theorem filterFT8Text_reference (T : QString) (L : Nat) :
    filterFT8Text T (L : Int)
        = ((toUpper T).filter (fun c => decide (c ∈ ft8Alphabet))).take L
      ∧ (∀ c ∈ filterFT8Text T (L : Int), c ∈ ft8Alphabet)
      ∧ (filterFT8Text T (L : Int)).length ≤ L := by
  refine ⟨?_, ?_, filterFT8Text_length T L⟩
  · rw [filterFT8Text_eq]
    congr 1
    apply List.filter_congr
    intro c _
    by_cases h : isValidFT8Char c = true
    · simp [h, (isValidFT8Char_iff_mem c).mp h]
    · have : c ∉ ft8Alphabet := fun hm => h ((isValidFT8Char_iff_mem c).mpr hm)
      simp [h, this]
  · intro c hc
    exact (isValidFT8Char_iff_mem c).mp (filterFT8Text_valid T L c hc)

theorem filterFT8Text_reference_witness :
    'L'.toNat ∈ filterFT8Text (qs "Hello, world") ((4 : Nat) : Int)
      ∧ 'L'.toNat ∈ ft8Alphabet :=
  ⟨by decide,
    (filterFT8Text_reference (qs "Hello, world") 4).2.1 'L'.toNat (by decide)⟩

/-- C8: `filterFT8Text` is idempotent for every text and every `L ≥ 0`, and it
returns unchanged every text of FT8-alphabet characters that has at most `L`
characters. -/
theorem filterFT8Text_idempotent :
    (∀ (T : QString) (L : Nat),
        filterFT8Text (filterFT8Text T (L : Int)) (L : Int) = filterFT8Text T (L : Int))
      ∧ (∀ (C : QString) (L : Nat), (∀ c ∈ C, c ∈ ft8Alphabet) → C.length ≤ L →
        filterFT8Text C (L : Int) = C) := by
  constructor
  · intro T L
    exact filterFT8Text_clean _ L (filterFT8Text_valid T L) (filterFT8Text_length T L)
  · intro C L h hlen
    exact filterFT8Text_clean C L (fun c hc => (isValidFT8Char_iff_mem c).mpr (h c hc)) hlen

theorem filterFT8Text_idempotent_witness :
    (∀ c ∈ qs "CQ DX 73", c ∈ ft8Alphabet) ∧ (qs "CQ DX 73").length ≤ 8
      ∧ filterFT8Text (qs "CQ DX 73") ((8 : Nat) : Int) = qs "CQ DX 73" :=
  ⟨by decide, by decide,
    filterFT8Text_idempotent.2 (qs "CQ DX 73") 8 (by decide) (by decide)⟩


theorem slotsFrom_step (clean : QString) (pos : Nat) (h : pos < clean.length) :
    slotsFrom clean pos = mid clean pos 13 :: slotsFrom clean (pos + 13) := by
  unfold slotsFrom
  have hc : (clean.length - pos + 12) / 13 = (clean.length - (pos + 13) + 12) / 13 + 1 := by
    omega
  rw [hc, List.range_succ_eq_map, List.map_cons, List.map_map]
  congr 1
  apply List.map_congr_left
  intro k _
  simp only [Function.comp, Nat.succ_eq_add_one]
  congr 1
  ring

theorem slotsFrom_done (clean : QString) (pos : Nat) (h : ¬ pos < clean.length) :
    slotsFrom clean pos = [] := by
  unfold slotsFrom
  have hc : (clean.length - pos + 12) / 13 = 0 := by omega
  rw [hc]
  rfl

theorem fragmentMessageLoop_rest (senderId targetId clean : QString) :
    ∀ (fuel pos : Nat) (result : QStringList), clean.length ≤ pos + fuel →
      fragmentMessageLoop senderId targetId clean fuel pos false result
        = result ++ slotsFrom clean pos := by
  intro fuel
  induction fuel with
  | zero =>
    intro pos result h
    rw [fragmentMessageLoop, slotsFrom_done clean pos (by omega)]
    simp
  | succ fuel ih =>
    intro pos result h
    rw [fragmentMessageLoop]
    by_cases hp : pos < clean.length
    · rw [if_pos hp]
      simp only [Bool.false_eq_true, if_false, SLOT_SIZE]
      rw [ih _ _ (by omega), slotsFrom_step clean pos hp]
      simp
    · rw [if_neg hp, slotsFrom_done clean pos hp]
      simp

theorem fragmentBroadcastLoop_rest (senderId targetId clean : QString) :
    ∀ (fuel pos : Nat) (result : QStringList), clean.length ≤ pos + fuel →
      fragmentBroadcastLoop senderId targetId clean fuel pos false result
        = result ++ slotsFrom clean pos := by
  intro fuel
  induction fuel with
  | zero =>
    intro pos result h
    rw [fragmentBroadcastLoop, slotsFrom_done clean pos (by omega)]
    simp
  | succ fuel ih =>
    intro pos result h
    rw [fragmentBroadcastLoop]
    by_cases hp : pos < clean.length
    · rw [if_pos hp]
      simp only [Bool.false_eq_true, if_false, SLOT_SIZE]
      rw [ih _ _ (by omega), slotsFrom_step clean pos hp]
      simp
    · rw [if_neg hp, slotsFrom_done clean pos hp]
      simp

/-- The fragment list of a non-empty clean text: the header slot followed by the
13-character slices of what follows the first eight characters. -/
theorem fragmentMessageLoop_eq (senderId targetId clean : QString) (h : clean ≠ [])
    (fuel : Nat) (hf : clean.length ≤ fuel) :
    fragmentMessageLoop senderId targetId clean fuel 0 true []
      = (senderId ++ targetId ++ qs " " ++ left clean 8) :: slotsFrom clean 8 := by
  have hpos : 0 < clean.length := List.length_pos.mpr h
  obtain ⟨f, rfl⟩ : ∃ f, fuel = f + 1 := ⟨fuel - 1, by omega⟩
  rw [fragmentMessageLoop, if_pos hpos]
  simp only [if_true, FIRST_PAYLOAD, SLOT_SIZE, HEADER_SIZE]
  rw [fragmentMessageLoop_rest _ _ _ _ _ _ (by omega)]
  simp [mid, left]

theorem fragmentBroadcastLoop_eq (senderId targetId clean : QString) (h : clean ≠ [])
    (fuel : Nat) (hf : clean.length ≤ fuel) :
    fragmentBroadcastLoop senderId targetId clean fuel 0 true []
      = (senderId ++ targetId ++ qs " " ++ left clean 8) :: slotsFrom clean 8 := by
  have hpos : 0 < clean.length := List.length_pos.mpr h
  obtain ⟨f, rfl⟩ : ∃ f, fuel = f + 1 := ⟨fuel - 1, by omega⟩
  rw [fragmentBroadcastLoop, if_pos hpos]
  simp only [if_true, FIRST_PAYLOAD, SLOT_SIZE, HEADER_SIZE]
  rw [fragmentBroadcastLoop_rest _ _ _ _ _ _ (by omega)]
  simp [mid, left]

theorem fragmentMessage_eq (senderId targetId text : QString)
    (h : filterFT8Text text MAX_MESSAGE_LEN ≠ []) :
    fragmentMessage senderId targetId text
      = (senderId ++ targetId ++ qs " " ++ left (filterFT8Text text MAX_MESSAGE_LEN) 8)
          :: slotsFrom (filterFT8Text text MAX_MESSAGE_LEN) 8 := by
  unfold fragmentMessage
  simp only [List.isEmpty_iff, h, if_false]
  exact fragmentMessageLoop_eq _ _ _ h _ le_rfl

theorem fragmentMessage_empty (senderId targetId text : QString)
    (h : filterFT8Text text MAX_MESSAGE_LEN = []) :
    fragmentMessage senderId targetId text = [] := by
  unfold fragmentMessage
  simp [h]


theorem mid_length (s : QString) (pos n : Nat) :
    (mid s pos n).length = min n (s.length - pos) := by
  simp [mid, List.length_take, List.length_drop]

theorem slotsFrom_length (clean : QString) (pos : Nat) :
    (slotsFrom clean pos).length = (clean.length - pos + 12) / 13 := by
  simp [slotsFrom]

theorem slotsFrom_getElem? (clean : QString) (pos k : Nat)
    (hk : k < (clean.length - pos + 12) / 13) :
    (slotsFrom clean pos)[k]? = some (mid clean (pos + 13 * k) 13) := by
  simp [slotsFrom, List.getElem?_map, List.getElem?_range hk]

theorem flatten_map_mid (clean : QString) (pos : Nat) :
    ∀ m : Nat, ((List.range m).map (fun k => mid clean (pos + 13 * k) 13)).flatten
      = (clean.drop pos).take (13 * m) := by
  intro m
  induction m with
  | zero => simp
  | succ m ih =>
    rw [List.range_succ, List.map_append, List.flatten_append, ih]
    have h13 : 13 * (m + 1) = 13 * m + 13 := by ring
    rw [h13, List.take_add]
    simp [mid, List.drop_drop, Nat.add_comm]

theorem slotsFrom_flatten (clean : QString) (pos : Nat) :
    (slotsFrom clean pos).flatten = clean.drop pos := by
  unfold slotsFrom
  rw [flatten_map_mid]
  apply List.take_of_length_le
  rw [List.length_drop]
  omega

theorem mem_slotsFrom {clean : QString} {pos : Nat} {f : QString} (h : f ∈ slotsFrom clean pos) :
    1 ≤ f.length ∧ f.length ≤ 13 := by
  unfold slotsFrom at h
  rw [List.mem_map] at h
  obtain ⟨k, hk, rfl⟩ := h
  rw [List.mem_range] at hk
  rw [mid_length]
  omega

/-- C2: for every text `T`, the slots of `fragmentMessage("AB","CD",T)` taken in
order, with the 5-character header `"ABCD "` removed from the first one, and
concatenated, give exactly `filterFT8Text(T, 99)`; and the slot list is empty
exactly when `filterFT8Text(T, 99)` is empty. -/
theorem fragmentMessage_roundtrip (T : QString) :
    (match fragmentMessage (qs "AB") (qs "CD") T with
      | [] => []
      | first :: rest => first.drop 5 ++ rest.flatten) = filterFT8Text T 99
    ∧ (∀ first rest, fragmentMessage (qs "AB") (qs "CD") T = first :: rest →
        first.take 5 = qs "ABCD ")
    ∧ (fragmentMessage (qs "AB") (qs "CD") T = [] ↔ filterFT8Text T 99 = []) := by
  have h99 : filterFT8Text T 99 = filterFT8Text T MAX_MESSAGE_LEN := by
    simp [MAX_MESSAGE_LEN]
  rw [h99]
  by_cases h : filterFT8Text T MAX_MESSAGE_LEN = []
  · rw [fragmentMessage_empty _ _ _ h, h]
    simp
  · rw [fragmentMessage_eq _ _ _ h]
    refine ⟨?_, ?_, ?_⟩
    · show ((qs "AB" ++ qs "CD" ++ qs " " ++ left _ 8).drop 5 ++ (slotsFrom _ 8).flatten) = _
      rw [slotsFrom_flatten]
      have : ∀ x : QString, (qs "AB" ++ qs "CD" ++ qs " " ++ x).drop 5 = x := by
        intro x; rfl
      rw [this]
      exact List.take_append_drop 8 _
    · intro first rest heq
      injection heq with h1 _
      rw [← h1]
      rfl
    · simp [h]

theorem fragmentMessage_roundtrip_witness :
    fragmentMessage (qs "AB") (qs "CD") (qs "Hello, world")
        = [qs "ABCD HELLO WO", qs "RLD"]
      ∧ (qs "ABCD HELLO WO").take 5 = qs "ABCD " :=
  ⟨by decide,
    (fragmentMessage_roundtrip (qs "Hello, world")).2.1 (qs "ABCD HELLO WO") [qs "RLD"]
      (by decide)⟩

theorem normId_length (id : QString) (fill : Nat) :
    (left (leftJustified id 2 fill) 2).length = 2 := by
  simp [left, leftJustified, List.length_take]
  omega

theorem fragmentMessage_widths (sender target text : QString)
    (hs : sender.length = 2) (ht : target.length = 2) :
    ∀ f ∈ fragmentMessage sender target text, f ≠ [] ∧ f.length ≤ 13 := by
  intro f hf
  by_cases h : filterFT8Text text MAX_MESSAGE_LEN = []
  · rw [fragmentMessage_empty _ _ _ h] at hf
    simp at hf
  · rw [fragmentMessage_eq _ _ _ h, List.mem_cons] at hf
    rcases hf with rfl | hf
    · constructor
      · intro h0
        have := congrArg List.length h0
        simp [qs, hs, ht] at this
      · simp [qs, left, hs, ht, List.length_take]
        omega
    · have := mem_slotsFrom hf
      exact ⟨fun h0 => by simp [h0] at this, this.2⟩

theorem sendMessage_fragments (p : ChatProtocol) (targetId text : QString) :
    (sendMessage p targetId text).m_fragments
      = fragmentMessage p.m_myId (left (leftJustified targetId 2 '0'.toNat) 2) text := by
  unfold sendMessage reset setState emit
  simp only []
  split_ifs <;> rfl

/-- C4: for two-character `sender` and `target` and a text with non-empty
filtered form, every slot of `fragmentMessage` is non-empty and has at most 13
characters, every slot but the last has exactly 13, and slot 0 starts with
`sender ++ target ++ " "`; and every fragment `sendMessage` stores after
`setMyId` has at most 13 characters. -/
theorem fragmentMessage_slot_width (sender target T : QString)
    (hs : sender.length = 2) (ht : target.length = 2) (hT : filterFT8Text T 99 ≠ []) :
    (∀ f ∈ fragmentMessage sender target T, f ≠ [] ∧ f.length ≤ 13)
    ∧ (∀ i f, i + 1 < (fragmentMessage sender target T).length →
        (fragmentMessage sender target T)[i]? = some f → f.length = 13)
    ∧ (∃ first rest, fragmentMessage sender target T = first :: rest ∧
        first.take 5 = sender ++ target ++ qs " ")
    ∧ (∀ (p : ChatProtocol) (id tgt text : QString),
        ∀ f ∈ (sendMessage (setMyId p id) tgt text).m_fragments, f.length ≤ 13) := by
  have h99 : filterFT8Text T 99 = filterFT8Text T MAX_MESSAGE_LEN := by
    simp [MAX_MESSAGE_LEN]
  rw [h99] at hT
  refine ⟨fragmentMessage_widths sender target T hs ht, ?_, ?_, ?_⟩
  · intro i f hi hf
    rw [fragmentMessage_eq _ _ _ hT] at hi hf
    rw [List.length_cons, slotsFrom_length] at hi
    cases i with
    | zero =>
      simp only [List.getElem?_cons_zero, Option.some.injEq] at hf
      rw [← hf]
      simp [qs, left, hs, ht, List.length_take]
      omega
    | succ k =>
      rw [List.getElem?_cons_succ, slotsFrom_getElem? _ _ _ (by omega)] at hf
      simp only [Option.some.injEq] at hf
      rw [← hf, mid_length]
      omega
  · refine ⟨_, _, fragmentMessage_eq _ _ _ hT, ?_⟩
    have h5 : (sender ++ target ++ qs " ").length = 5 := by simp [qs, hs, ht]
    rw [List.take_append_of_le_length (by omega), List.take_of_length_le (by omega)]
  · intro p id tgt text f hf
    rw [sendMessage_fragments] at hf
    exact (fragmentMessage_widths _ _ text (normId_length id _) (normId_length tgt _) f hf).2

theorem fragmentMessage_slot_width_witness :
    (qs "01").length = 2 ∧ (qs "02").length = 2 ∧ filterFT8Text (qs "HELLO WORLD") 99 ≠ []
    ∧ (∀ f ∈ fragmentMessage (qs "01") (qs "02") (qs "HELLO WORLD"), f ≠ [] ∧ f.length ≤ 13) :=
  ⟨by decide, by decide, by decide,
    (fragmentMessage_slot_width (qs "01") (qs "02") (qs "HELLO WORLD")
      (by decide) (by decide) (by decide)).1⟩


theorem fragmentBroadcast_eq_appendAR (senderId targetId text : QString) :
    fragmentBroadcast senderId targetId text = appendAR (fragmentMessage senderId targetId text) := by
  unfold fragmentBroadcast fragmentMessage
  by_cases h : filterFT8Text text MAX_MESSAGE_LEN = []
  · simp [h, appendAR]
  · simp only [List.isEmpty_iff, h, if_false]
    rw [fragmentBroadcastLoop_eq _ _ _ h _ le_rfl, fragmentMessageLoop_eq _ _ _ h _ le_rfl]

theorem appendAR_last (result : QStringList) (h : result ≠ []) :
    ∃ last, (appendAR result).getLast? = some last ∧ last.length = 13
      ∧ mid last 10 3 = qs "/AR" := by
  unfold appendAR
  obtain ⟨l, hl⟩ : ∃ l, result.getLast? = some l := by
    cases hr : result.getLast? with
    | none => exact absurd (List.getLast?_eq_none_iff.mp hr) h
    | some l => exact ⟨l, rfl⟩
  rw [hl]
  simp only [SLOT_SIZE]
  by_cases hlen : l.length + 3 ≤ 13
  · rw [if_pos hlen]
    refine ⟨_, List.getLast?_concat _, ?_, ?_⟩
    · simp [leftJustified, qs]
      omega
    · have h10 : (leftJustified l (13 - 3) ' '.toNat).length = 10 := by
        simp [leftJustified]
        omega
      simp only [mid]
      rw [List.drop_append_of_le_length (by omega), List.drop_of_length_le (by omega)]
      rfl
  · rw [if_neg hlen]
    refine ⟨_, List.getLast?_concat _, ?_, ?_⟩ <;> decide

/-- C5: for every sender, target and text whose filtered form is non-empty, the
last slot returned by `fragmentBroadcast` has exactly 13 characters and its
characters at positions 10, 11, 12 are `/AR`. -/
theorem fragmentBroadcast_terminator (sender target T : QString)
    (hT : filterFT8Text T 99 ≠ []) :
    ∃ last, (fragmentBroadcast sender target T).getLast? = some last
      ∧ last.length = 13 ∧ mid last 10 3 = qs "/AR" := by
  have h99 : filterFT8Text T 99 = filterFT8Text T MAX_MESSAGE_LEN := by
    simp [MAX_MESSAGE_LEN]
  rw [h99] at hT
  rw [fragmentBroadcast_eq_appendAR]
  apply appendAR_last
  rw [fragmentMessage_eq _ _ _ hT]
  exact List.cons_ne_nil _ _

theorem fragmentBroadcast_terminator_witness :
    filterFT8Text (qs "HELLO WORLD A 73") 99 ≠ []
    ∧ ∃ last, (fragmentBroadcast (qs "01") (qs "02") (qs "HELLO WORLD A 73")).getLast? = some last
      ∧ last.length = 13 ∧ mid last 10 3 = qs "/AR" :=
  ⟨by decide, fragmentBroadcast_terminator (qs "01") (qs "02") (qs "HELLO WORLD A 73") (by decide)⟩

/-- C6: `fragmentBroadcast` is `fragmentMessage` plus the sigil.  With
`F = fragmentMessage(sender, target, T)`: if `F` is empty the result is empty;
otherwise, `R` being the last slot of `F`, if `R` has at most 10 characters the
result is `F` with `R` replaced by `R` right-padded with spaces to 10 characters
followed by `/AR`, and if `R` has more than 10 characters it is `F` followed by
one slot of 10 spaces and `/AR`.  For `("01","02","HELLO WORLD A 73")` the result
is the two slots `"0102 HELLO WO"`, `"RLD A 73  /AR"`. -/
theorem fragmentBroadcast_refines (sender target T : QString) :
    fragmentBroadcast sender target T
      = (match (fragmentMessage sender target T).getLast? with
          | none => []
          | some R =>
            if R.length ≤ 10 then
              (fragmentMessage sender target T).dropLast
                ++ [R ++ List.replicate (10 - R.length) ' '.toNat ++ qs "/AR"]
            else
              fragmentMessage sender target T ++ [List.replicate 10 ' '.toNat ++ qs "/AR"])
    ∧ fragmentBroadcast (qs "01") (qs "02") (qs "HELLO WORLD A 73")
        = [qs "0102 HELLO WO", qs "RLD A 73  /AR"] := by
  refine ⟨?_, by decide⟩
  rw [fragmentBroadcast_eq_appendAR]
  unfold appendAR
  cases hl : (fragmentMessage sender target T).getLast? with
  | none =>
    simp only []
    exact List.getLast?_eq_none_iff.mp hl
  | some R =>
    simp only [SLOT_SIZE, leftJustified]
    by_cases hlen : R.length ≤ 10
    · rw [if_pos hlen, if_pos (by omega)]
    · rw [if_neg hlen, if_neg (by omega)]
      rfl

theorem isHeader_build (a b c d : Nat) (x : QString)
    (ha : isDigit a = true) (hb : isDigit b = true) (hc : isDigit c = true)
    (hd : isDigit d = true) :
    isHeader ([a, b] ++ [c, d] ++ qs " " ++ x) = true := by
  simp [isHeader, HEADER_SIZE, qs, List.range, List.range.loop, ha, hb, hc, hd]

/-- C9: for two-digit `S` and `G` and a text with non-empty filtered form `C`,
the first slot `H` of `fragmentMessage(S, G, T)` is a header with
`headerSender(H) = S`, `headerTarget(H) = G` and `headerPayload(H)` the first 8
characters of `C`; and on a text that is not a header `headerSender`,
`headerTarget` and `headerPayload` return the empty string. -/
theorem header_roundtrip :
    (∀ S G T : QString, S.length = 2 → (∀ c ∈ S, isDigit c = true) →
      G.length = 2 → (∀ c ∈ G, isDigit c = true) → filterFT8Text T 99 ≠ [] →
      ∃ H rest, fragmentMessage S G T = H :: rest ∧ isHeader H = true
        ∧ headerSender H = S ∧ headerTarget H = G
        ∧ headerPayload H = left (filterFT8Text T 99) 8)
    ∧ (∀ X : QString, isHeader X = false →
        headerSender X = [] ∧ headerTarget X = [] ∧ headerPayload X = []) := by
  constructor
  · intro S G T hS hSd hG hGd hT
    have h99 : filterFT8Text T 99 = filterFT8Text T MAX_MESSAGE_LEN := by
      simp [MAX_MESSAGE_LEN]
    rw [h99] at hT ⊢
    refine ⟨_, _, fragmentMessage_eq _ _ _ hT, ?_⟩
    match S, hS, hSd with
    | [a, b], _, hSd =>
      match G, hG, hGd with
      | [c, d], _, hGd =>
        have hH := isHeader_build a b c d (left (filterFT8Text T MAX_MESSAGE_LEN) 8)
          (hSd a (by simp)) (hSd b (by simp)) (hGd c (by simp)) (hGd d (by simp))
        refine ⟨hH, ?_, ?_, ?_⟩
        · simp only [headerSender, hH]; rfl
        · simp only [headerTarget, hH]; rfl
        · simp only [headerPayload, hH]; rfl
  · intro X hX
    simp [headerSender, headerTarget, headerPayload, hX]

theorem header_roundtrip_witness :
    ∃ H rest, fragmentMessage (qs "01") (qs "02") (qs "HELLO WORLD") = H :: rest
      ∧ isHeader H = true ∧ headerSender H = qs "01" ∧ headerTarget H = qs "02"
      ∧ headerPayload H = left (filterFT8Text (qs "HELLO WORLD") 99) 8 :=
  header_roundtrip.1 (qs "01") (qs "02") (qs "HELLO WORLD")
    (by decide) (by decide) (by decide) (by decide) (by decide)


theorem setState_eq (p : ChatProtocol) (s : State) :
    setState p s = { p with m_state := s,
                            emitted := p.emitted ++
                              (if p.m_state = s then [] else [Signal.stateChanged s]) } := by
  unfold setState emit
  by_cases h : p.m_state = s
  · cases p
    simp_all
  · simp [h]

theorem trimmed_eq_self (s : QString)
    (hh : ∀ c, s.head? = some c → isSpace c = false)
    (hl : ∀ c, s.getLast? = some c → isSpace c = false) : trimmed s = s := by
  unfold trimmed
  have h1 : s.dropWhile isSpace = s := by
    cases s with
    | nil => rfl
    | cons a t =>
      have := hh a rfl
      simp [List.dropWhile_cons, this]
  rw [h1, List.rdropWhile_eq_self_iff]
  intro hne
  have := hl (s.getLast hne) (List.getLast?_eq_getLast _ hne)
  simp [this]

theorem trimmed_head (s : QString) (c : Nat) (h : (trimmed s).head? = some c) :
    isSpace c = false := by
  unfold trimmed at h
  obtain ⟨u, hu⟩ := List.rdropWhile_prefix isSpace (l := s.dropWhile isSpace)
  cases hr : List.rdropWhile isSpace (s.dropWhile isSpace) with
  | nil => rw [hr] at h; simp at h
  | cons a r =>
    rw [hr] at h hu
    simp only [List.head?_cons, Option.some.injEq] at h
    subst h
    have h2 := List.head?_dropWhile_not isSpace s
    rw [← hu] at h2
    simpa using h2

theorem trimmed_last (s : QString) (c : Nat) (h : (trimmed s).getLast? = some c) :
    isSpace c = false := by
  unfold trimmed at h
  have hne : List.rdropWhile isSpace (s.dropWhile isSpace) ≠ [] := by
    intro h0; rw [h0] at h; simp at h
  have := List.rdropWhile_last_not isSpace (s.dropWhile isSpace) hne
  rw [List.getLast?_eq_getLast _ hne] at h
  simp only [Option.some.injEq] at h
  rw [h] at this
  simpa using this

theorem trimmed_trimmed (s : QString) : trimmed (trimmed s) = trimmed s :=
  trimmed_eq_self _ (trimmed_head s) (trimmed_last s)

theorem echoMatch_self (s : QString) : echoMatch s (trimmed s) = true := by
  simp [echoMatch, trimmed_trimmed]

theorem echoRound_mid (q : ChatProtocol) (h1 : q.m_state = State.SendingFragment)
    (h2 : q.m_fragIndex + 1 < q.m_fragments.length)
    (h3 : trimmed (q.m_fragments.getD q.m_fragIndex []) ≠ []) :
    echoRound q = { q with
      m_lastSent := q.m_fragments.getD q.m_fragIndex []
      m_state := State.SendingFragment
      m_retryCount := 0
      m_fragIndex := q.m_fragIndex + 1
      emitted := q.emitted ++
        [Signal.stateChanged State.WaitingEcho,
         Signal.fragmentProgress (q.m_fragIndex + 1) q.m_fragments.length false,
         Signal.statusMessage (Status.txFragment (q.m_fragIndex + 1) q.m_fragments.length),
         Signal.statusMessage (Status.echoOk (q.m_fragIndex + 1) q.m_fragments.length),
         Signal.stateChanged State.SendingFragment] } := by
  have h4 : ¬ q.m_fragIndex ≥ q.m_fragments.length := by omega
  have h5 : ¬ q.m_fragIndex + 1 ≥ q.m_fragments.length := by omega
  simp only [List.getD_eq_getElem?_getD] at h3
  simp [echoRound, txThenIncoming, nextTxText, processIncoming, setState_eq, emit, h1, h4, h5, h3,
    echoMatch_self]


theorem echoRound_last (q : ChatProtocol) (h1 : q.m_state = State.SendingFragment)
    (h2 : q.m_fragIndex + 1 = q.m_fragments.length)
    (h3 : trimmed (q.m_fragments.getD q.m_fragIndex []) ≠ []) :
    echoRound q = { q with
      m_lastSent := q.m_fragments.getD q.m_fragIndex []
      m_state := State.Complete
      m_retryCount := 0
      m_fragIndex := q.m_fragIndex + 1
      m_timeoutTimer := false
      autoReturnShots := q.autoReturnShots + 1
      emitted := q.emitted ++
        [Signal.stateChanged State.WaitingEcho,
         Signal.fragmentProgress (q.m_fragIndex + 1) q.m_fragments.length false,
         Signal.statusMessage (Status.txFragment (q.m_fragIndex + 1) q.m_fragments.length),
         Signal.statusMessage (Status.echoOk (q.m_fragIndex + 1) q.m_fragments.length),
         Signal.stateChanged State.Complete,
         Signal.messageSentOk q.m_targetId,
         Signal.statusMessage (Status.messageEnvoye q.m_targetId)] } := by
  have h4 : ¬ q.m_fragIndex ≥ q.m_fragments.length := by omega
  have h5 : q.m_fragIndex + 1 ≥ q.m_fragments.length := by omega
  have h6 : q.m_fragments.length ≤ q.m_fragIndex + 1 := by omega
  simp only [List.getD_eq_getElem?_getD] at h3
  simp [echoRound, txThenIncoming, nextTxText, processIncoming, setState_eq, emit, h1, h4, h6,
    h3, echoMatch_self, scheduleAutoReturn]

theorem nextTxText_sending (q : ChatProtocol) (h1 : q.m_state = State.SendingFragment)
    (h2 : q.m_fragIndex < q.m_fragments.length) :
    nextTxText q = (q.m_fragments.getD q.m_fragIndex [], { q with
      m_lastSent := q.m_fragments.getD q.m_fragIndex []
      m_state := State.WaitingEcho
      emitted := q.emitted ++
        [Signal.stateChanged State.WaitingEcho,
         Signal.fragmentProgress (q.m_fragIndex + 1) q.m_fragments.length false,
         Signal.statusMessage (Status.txFragment (q.m_fragIndex + 1) q.m_fragments.length)] }) := by
  have h4 : ¬ q.m_fragIndex ≥ q.m_fragments.length := by omega
  simp [nextTxText, setState_eq, emit, h1, h4]

theorem echoInv_step (p0 q : ChatProtocol) (k : Nat) (h : EchoInv p0 q k)
    (hk : k + 1 < p0.m_fragments.length)
    (hb : ∀ f ∈ p0.m_fragments, trimmed f ≠ []) :
    EchoInv p0 (echoRound q) (k + 1) := by
  obtain ⟨hs, hf, hi, hr, ht, evs, he, hn⟩ := h
  have hmem : q.m_fragments.getD q.m_fragIndex [] ∈ p0.m_fragments := by
    rw [hf, hi, List.getD_eq_getElem _ _ (by omega)]
    exact List.getElem_mem _
  rw [echoRound_mid q hs (by rw [hf, hi]; exact hk) (hb _ hmem)]
  refine ⟨rfl, hf, by simp [hi], rfl, ht, evs ++ _, by simp only [he, List.append_assoc]; rfl, ?_⟩
  simp [List.filter_append, hn, isMessageSentOk]

theorem echoInv_iterate (p0 : ChatProtocol) (h0 : EchoInv p0 p0 0)
    (hb : ∀ f ∈ p0.m_fragments, trimmed f ≠ []) :
    ∀ k, k < p0.m_fragments.length → EchoInv p0 (echoRound^[k] p0) k := by
  intro k
  induction k with
  | zero => intro _; exact h0
  | succ k ih =>
    intro hk
    rw [Function.iterate_succ_apply']
    exact echoInv_step p0 _ k (ih (by omega)) hk hb


theorem emittedSince_append (p q : ChatProtocol) (evs : List Signal)
    (h : q.emitted = p.emitted ++ evs) : emittedSince p q = evs := by
  simp [emittedSince, h]

theorem sendMessage_start (p : ChatProtocol) (targetId text : QString)
    (hne : fragmentMessage p.m_myId (left (leftJustified targetId 2 '0'.toNat) 2) text ≠ []) :
    (sendMessage p targetId text).m_state = State.SendingFragment
    ∧ (sendMessage p targetId text).m_fragments
        = fragmentMessage p.m_myId (left (leftJustified targetId 2 '0'.toNat) 2) text
    ∧ (sendMessage p targetId text).m_fragIndex = 0
    ∧ (sendMessage p targetId text).m_retryCount = 0
    ∧ (sendMessage p targetId text).m_targetId = left (leftJustified targetId 2 '0'.toNat) 2
    ∧ ∃ evs, (sendMessage p targetId text).emitted = p.emitted ++ evs
        ∧ evs.filter isMessageSentOk = [] := by
  refine ⟨?_, ?_, ?_, ?_, ?_, ?_⟩
  any_goals simp only [sendMessage, reset, setState_eq, emit, List.isEmpty_iff, hne, if_false]
  refine ⟨_, by simp only [List.append_assoc]; rfl, ?_⟩
  by_cases h : p.m_state = State.Idle <;> simp [h, isMessageSentOk, List.filter_append]

theorem sendMessage_shots (p : ChatProtocol) (targetId text : QString) :
    (sendMessage p targetId text).autoReturnShots = p.autoReturnShots := by
  simp only [sendMessage, reset, setState_eq, emit]
  split_ifs <;> rfl

/-- No auto-return is scheduled by the echo rounds before the last one. -/
theorem echoRound_iterate_shots (p0 : ChatProtocol) (h0 : EchoInv p0 p0 0)
    (hb : ∀ f ∈ p0.m_fragments, trimmed f ≠ []) :
    ∀ k, k < p0.m_fragments.length →
      (echoRound^[k] p0).autoReturnShots = p0.autoReturnShots
        ∧ (nextTxText (echoRound^[k] p0)).2.autoReturnShots = p0.autoReturnShots := by
  intro k
  induction k with
  | zero =>
    intro hk
    obtain ⟨hs, hf, hi, _⟩ := h0
    refine ⟨rfl, ?_⟩
    rw [Function.iterate_zero_apply, nextTxText_sending _ hs (by rw [hi]; exact hk)]
  | succ k ih =>
    intro hk
    obtain ⟨hs, hf, hi, _⟩ := echoInv_iterate p0 h0 hb k (by omega)
    have hmem : (echoRound^[k] p0).m_fragments.getD (echoRound^[k] p0).m_fragIndex []
        ∈ p0.m_fragments := by
      rw [hf, hi, List.getD_eq_getElem _ _ (by omega)]
      exact List.getElem_mem _
    have e : (echoRound^[k + 1] p0).autoReturnShots = p0.autoReturnShots := by
      rw [Function.iterate_succ_apply',
        echoRound_mid _ hs (by rw [hf, hi]; exact hk) (hb _ hmem)]
      exact (ih (by omega)).1
    obtain ⟨hs', hf', hi', _⟩ := echoInv_iterate p0 h0 hb (k + 1) hk
    refine ⟨e, ?_⟩
    rw [nextTxText_sending _ hs' (by rw [hf', hi']; exact hk)]
    exact e

/-- C1: echo-mode session success.  For every identifier given to `setMyId`,
every target and every text whose fragment list
`F = fragmentMessage(myId, target', text)` has `N ≥ 1` slots none of which is
blank (made only of space characters): from `sendMessage(target, text)` on,
alternating `nextTxText()` with `processIncoming` of the string just returned,
the `k`-th `nextTxText()` returns `F[k-1]` and leaves the state `WaitingEcho`
(no `messageSentOk` emitted so far), each of the first `N-1` echoes returns the
state to `SendingFragment` with `retryCount = 0` and schedules nothing, the
`N`-th echo puts the state in `Complete` and schedules the auto-return (one more
shot of the 2 s single-shot timer is pending), `messageSentOk(target')` is
emitted exactly once in the whole run, and the auto-return callback then sets
the state to `Idle`. -/
theorem echo_session_success (p : ChatProtocol) (id target text : QString)
    (F : QStringList) (p0 : ChatProtocol)
    (hF : F = fragmentMessage (setMyId p id).m_myId
      (left (leftJustified target 2 '0'.toNat) 2) text)
    (hp0 : p0 = sendMessage (setMyId p id) target text)
    (hN : 1 ≤ F.length) (hblank : ∀ f ∈ F, trimmed f ≠ []) :
    (∀ k f, F[k]? = some f →
        (nextTxText (echoRound^[k] p0)).1 = f
        ∧ (nextTxText (echoRound^[k] p0)).2.m_state = State.WaitingEcho
        ∧ (emittedSince p (nextTxText (echoRound^[k] p0)).2).filter isMessageSentOk = []
        ∧ (nextTxText (echoRound^[k] p0)).2.autoReturnShots = p.autoReturnShots
        ∧ (k + 1 < F.length →
            (echoRound^[k + 1] p0).m_state = State.SendingFragment
            ∧ (echoRound^[k + 1] p0).m_retryCount = 0
            ∧ (echoRound^[k + 1] p0).autoReturnShots = p.autoReturnShots))
    ∧ (echoRound^[F.length] p0).m_state = State.Complete
    ∧ (echoRound^[F.length] p0).autoReturnShots = p.autoReturnShots + 1
    ∧ (emittedSince p (echoRound^[F.length] p0)).filter isMessageSentOk
        = [Signal.messageSentOk (left (leftJustified target 2 '0'.toNat) 2)]
    ∧ (autoReturn (echoRound^[F.length] p0)).m_state = State.Idle
    ∧ (emittedSince p (autoReturn (echoRound^[F.length] p0))).filter isMessageSentOk
        = [Signal.messageSentOk (left (leftJustified target 2 '0'.toNat) 2)] := by
  have hne : fragmentMessage (setMyId p id).m_myId
      (left (leftJustified target 2 '0'.toNat) 2) text ≠ [] := by
    rw [← hF]; intro h0; rw [h0] at hN; simp at hN
  obtain ⟨s1, s2, s3, s4, s5, evs0, s6, s7⟩ := sendMessage_start (setMyId p id) target text hne
  rw [← hp0] at s1 s2 s3 s4 s5 s6
  rw [← hF] at s2
  have hpe : (setMyId p id).emitted = p.emitted := rfl
  rw [hpe] at s6
  have h0 : EchoInv p0 p0 0 := ⟨s1, rfl, s3, s4, rfl, [], by simp, rfl⟩
  have hb : ∀ f ∈ p0.m_fragments, trimmed f ≠ [] := by rw [s2]; exact hblank
  have hinv := echoInv_iterate p0 h0 hb
  rw [s2] at hinv
  have hlast : EchoInv p0 (echoRound^[F.length - 1] p0) (F.length - 1) := hinv _ (by omega)
  have hNN : F.length = (F.length - 1) + 1 := by omega
  have hfin : ∃ evs, (echoRound^[F.length] p0).m_state = State.Complete
      ∧ (echoRound^[F.length] p0).emitted = p.emitted ++ evs
      ∧ evs.filter isMessageSentOk
        = [Signal.messageSentOk (left (leftJustified target 2 '0'.toNat) 2)] := by
    obtain ⟨hs, hf, hi, hr, ht, evs, he, hn⟩ := hlast
    rw [s2] at hf
    rw [s5] at ht
    have hmem : trimmed (F.getD (F.length - 1) []) ≠ [] := by
      apply hblank
      rw [List.getD_eq_getElem _ _ (by omega)]
      exact List.getElem_mem _
    have hrw : echoRound^[F.length] p0 = echoRound (echoRound^[F.length - 1] p0) := by
      conv_lhs => rw [hNN]
      rw [Function.iterate_succ_apply']
    rw [hrw, echoRound_last _ hs (by rw [hf, hi]; omega) (by rw [hf, hi]; exact hmem)]
    refine ⟨evs0 ++ evs ++
        [Signal.stateChanged State.WaitingEcho,
         Signal.fragmentProgress ((echoRound^[F.length - 1] p0).m_fragIndex + 1)
           (echoRound^[F.length - 1] p0).m_fragments.length false,
         Signal.statusMessage (Status.txFragment ((echoRound^[F.length - 1] p0).m_fragIndex + 1)
           (echoRound^[F.length - 1] p0).m_fragments.length),
         Signal.statusMessage (Status.echoOk ((echoRound^[F.length - 1] p0).m_fragIndex + 1)
           (echoRound^[F.length - 1] p0).m_fragments.length),
         Signal.stateChanged State.Complete,
         Signal.messageSentOk (echoRound^[F.length - 1] p0).m_targetId,
         Signal.statusMessage (Status.messageEnvoye (echoRound^[F.length - 1] p0).m_targetId)],
        rfl, ?_, ?_⟩
    · simp only [he, s6, List.append_assoc]
    · simp [List.filter_append, hn, s7, isMessageSentOk, ht]
  obtain ⟨evsF, hF0, hF1, hF2⟩ := hfin
  have hsh0 : p0.autoReturnShots = p.autoReturnShots := by
    rw [hp0, sendMessage_shots]
    rfl
  have hsh := echoRound_iterate_shots p0 h0 hb
  rw [s2, hsh0] at hsh
  have hshF : (echoRound^[F.length] p0).autoReturnShots = p.autoReturnShots + 1 := by
    obtain ⟨hs, hf, hi, hr, ht, evs, he, hn⟩ := hlast
    rw [s2] at hf
    have hmem : trimmed (F.getD (F.length - 1) []) ≠ [] := by
      apply hblank
      rw [List.getD_eq_getElem _ _ (by omega)]
      exact List.getElem_mem _
    have hrw : echoRound^[F.length] p0 = echoRound (echoRound^[F.length - 1] p0) := by
      conv_lhs => rw [hNN]
      rw [Function.iterate_succ_apply']
    rw [hrw, echoRound_last _ hs (by rw [hf, hi]; omega) (by rw [hf, hi]; exact hmem)]
    show (echoRound^[F.length - 1] p0).autoReturnShots + 1 = p.autoReturnShots + 1
    rw [(hsh (F.length - 1) (by omega)).1]
  refine ⟨?_, ?_, hshF, ?_, ?_, ?_⟩
  · intro k f hk
    have hkl : k < F.length := by
      by_contra hc
      rw [List.getElem?_eq_none (by omega)] at hk
      simp at hk
    obtain ⟨hs, hf, hi, hr, ht, evs, he, hn⟩ := hinv k hkl
    rw [s2] at hf
    have hget : F.getD k [] = f := by
      rw [List.getD_eq_getElem?_getD, hk]; rfl
    rw [nextTxText_sending _ hs (by rw [hf, hi]; exact hkl)]
    refine ⟨by simp only [hf, hi, hget], rfl, ?_, (hsh k hkl).1, ?_⟩
    · rw [emittedSince_append p _ (evs0 ++ evs ++ _)
        (by simp only [he, s6, List.append_assoc]; rfl)]
      simp [List.filter_append, hn, s7, isMessageSentOk]
    · intro hk1
      obtain ⟨hs', _, _, hr', _, _⟩ := hinv (k + 1) hk1
      exact ⟨hs', hr', (hsh (k + 1) hk1).1⟩
  · exact hF0
  · rw [emittedSince_append p _ evsF hF1, hF2]
  · simp [autoReturn, setState_eq, hF0]
  · rw [emittedSince_append p _ (evsF ++ [Signal.stateChanged State.Idle])
      (by simp [autoReturn, setState_eq, hF0, hF1])]
    simp [List.filter_append, hF2, isMessageSentOk]

theorem echo_session_success_witness :
    (nextTxText (sendMessage (setMyId init (qs "01")) (qs "02") (qs "HELLO WORLD"))).1
        = qs "0102 HELLO WO"
    ∧ (nextTxText (echoRound
        (sendMessage (setMyId init (qs "01")) (qs "02") (qs "HELLO WORLD")))).1 = qs "RLD"
    ∧ (echoRound^[2]
        (sendMessage (setMyId init (qs "01")) (qs "02") (qs "HELLO WORLD"))).autoReturnShots
        = init.autoReturnShots + 1
    ∧ (emittedSince init (autoReturn (echoRound^[2]
        (sendMessage (setMyId init (qs "01")) (qs "02") (qs "HELLO WORLD"))))).filter
          isMessageSentOk = [Signal.messageSentOk (qs "02")] := by
  have h := echo_session_success init (qs "01") (qs "02") (qs "HELLO WORLD")
    [qs "0102 HELLO WO", qs "RLD"]
    (sendMessage (setMyId init (qs "01")) (qs "02") (qs "HELLO WORLD"))
    (by decide) rfl (by decide) (by decide)
  exact ⟨(h.1 0 _ rfl).1, (h.1 1 _ rfl).1, h.2.2.1, h.2.2.2.2.2⟩


theorem processIncoming_mismatch_retry (p : ChatProtocol) (text : QString)
    (hs : p.m_state = State.WaitingEcho) (hb : trimmed text ≠ [])
    (hm : echoMatch p.m_lastSent (trimmed text) = false)
    (hr : p.m_retryCount + 1 < 5) :
    processIncoming p text = { p with
      m_retryCount := p.m_retryCount + 1
      m_state := State.SendingFragment
      emitted := p.emitted ++
        [Signal.statusMessage (Status.echoIncorrect (p.m_retryCount + 1) MAX_RETRIES),
         Signal.stateChanged State.SendingFragment] } := by
  have h5 : ¬ (5 ≤ p.m_retryCount + 1) := by omega
  simp [processIncoming, hs, hb, hm, MAX_RETRIES, h5, setState_eq, emit]

theorem processIncoming_mismatch_abandon (p : ChatProtocol) (text : QString)
    (hs : p.m_state = State.WaitingEcho) (hb : trimmed text ≠ [])
    (hm : echoMatch p.m_lastSent (trimmed text) = false)
    (hr : 5 ≤ p.m_retryCount + 1) :
    processIncoming p text = { p with
      m_fragments := [], m_fragIndex := 0, m_lastSent := [], m_retryCount := 0,
      m_broadcastMode := false, m_targetId := [], m_rxSenderId := [],
      m_echoText := [], m_rxPayloads := [], m_timeoutTimer := false,
      m_rxCompleteTimer := false, m_directTxTracker := false,
      m_directTxCurrentFrag := -1,
      m_state := State.Idle
      emitted := p.emitted ++
        [Signal.statusMessage Status.tropDeRetransmissions,
         Signal.stateChanged State.Idle] } := by
  simp [processIncoming, hs, hb, hm, MAX_RETRIES, hr, setState_eq, emit, reset]

theorem txThenIncoming_retry (q : ChatProtocol) (t : QString)
    (hs : q.m_state = State.SendingFragment) (hi : q.m_fragIndex < q.m_fragments.length)
    (hb : trimmed t ≠ [])
    (hm : echoMatch (q.m_fragments.getD q.m_fragIndex []) (trimmed t) = false)
    (hr : q.m_retryCount + 1 < 5) :
    txThenIncoming q t = { q with
      m_lastSent := q.m_fragments.getD q.m_fragIndex []
      m_retryCount := q.m_retryCount + 1
      m_state := State.SendingFragment
      emitted := q.emitted ++
        [Signal.stateChanged State.WaitingEcho,
         Signal.fragmentProgress (q.m_fragIndex + 1) q.m_fragments.length false,
         Signal.statusMessage (Status.txFragment (q.m_fragIndex + 1) q.m_fragments.length),
         Signal.statusMessage (Status.echoIncorrect (q.m_retryCount + 1) MAX_RETRIES),
         Signal.stateChanged State.SendingFragment] } := by
  unfold txThenIncoming
  have h := nextTxText_sending q hs hi
  have hws : (nextTxText q).2.m_state = State.WaitingEcho := by rw [h]
  have hls : (nextTxText q).2.m_lastSent = q.m_fragments.getD q.m_fragIndex [] := by rw [h]
  rw [processIncoming_mismatch_retry (nextTxText q).2 t hws hb (by rw [hls]; exact hm)
    (by rw [h]; exact hr)]
  rw [h]
  simp only [List.append_assoc, List.cons_append, List.nil_append]

theorem txThenIncoming_abandon (q : ChatProtocol) (t : QString)
    (hs : q.m_state = State.SendingFragment) (hi : q.m_fragIndex < q.m_fragments.length)
    (hb : trimmed t ≠ [])
    (hm : echoMatch (q.m_fragments.getD q.m_fragIndex []) (trimmed t) = false)
    (hr : 5 ≤ q.m_retryCount + 1) :
    txThenIncoming q t = { q with
      m_fragments := [], m_fragIndex := 0, m_lastSent := [], m_retryCount := 0,
      m_broadcastMode := false, m_targetId := [], m_rxSenderId := [],
      m_echoText := [], m_rxPayloads := [], m_timeoutTimer := false,
      m_rxCompleteTimer := false, m_directTxTracker := false,
      m_directTxCurrentFrag := -1,
      m_state := State.Idle
      emitted := q.emitted ++
        [Signal.stateChanged State.WaitingEcho,
         Signal.fragmentProgress (q.m_fragIndex + 1) q.m_fragments.length false,
         Signal.statusMessage (Status.txFragment (q.m_fragIndex + 1) q.m_fragments.length),
         Signal.statusMessage Status.tropDeRetransmissions,
         Signal.stateChanged State.Idle] } := by
  unfold txThenIncoming
  have h := nextTxText_sending q hs hi
  have hws : (nextTxText q).2.m_state = State.WaitingEcho := by rw [h]
  have hls : (nextTxText q).2.m_lastSent = q.m_fragments.getD q.m_fragIndex [] := by rw [h]
  rw [processIncoming_mismatch_abandon (nextTxText q).2 t hws hb (by rw [hls]; exact hm)
    (by rw [h]; exact hr)]
  rw [h]
  simp only [List.append_assoc, List.cons_append, List.nil_append]

/-- The retry loop of one fragment: `texts` are consecutive decodes, none blank
and none matching the fragment, each received after the fragment was sent. -/
theorem mismatch_run (texts : List QString) :
    ∀ q : ChatProtocol, q.m_state = State.SendingFragment →
      q.m_fragIndex < q.m_fragments.length →
      (∀ t ∈ texts, trimmed t ≠ [] ∧
        echoMatch (q.m_fragments.getD q.m_fragIndex []) (trimmed t) = false) →
      q.m_retryCount + texts.length ≤ 5 →
      (∃ evs, (texts.foldl txThenIncoming q).emitted = q.emitted ++ evs
        ∧ evs.filter isMessageSentOk = [])
      ∧ (q.m_retryCount + texts.length < 5 →
          (texts.foldl txThenIncoming q).m_state = State.SendingFragment
          ∧ (texts.foldl txThenIncoming q).m_fragments = q.m_fragments
          ∧ (texts.foldl txThenIncoming q).m_fragIndex = q.m_fragIndex
          ∧ (texts.foldl txThenIncoming q).m_retryCount = q.m_retryCount + texts.length)
      ∧ (q.m_retryCount + texts.length = 5 → texts ≠ [] →
          (texts.foldl txThenIncoming q).m_state = State.Idle
          ∧ (texts.foldl txThenIncoming q).m_fragments = []
          ∧ (texts.foldl txThenIncoming q).m_fragIndex = 0
          ∧ (texts.foldl txThenIncoming q).m_retryCount = 0) := by
  induction texts with
  | nil =>
    intro q hs hi _ _
    exact ⟨⟨[], by simp, rfl⟩, fun _ => ⟨hs, rfl, rfl, rfl⟩, fun _ h => absurd rfl h⟩
  | cons t ts ih =>
    intro q hs hi hall hle
    obtain ⟨hb, hm⟩ := hall t (by simp)
    rw [List.length_cons] at hle
    rw [List.foldl_cons]
    by_cases hr : q.m_retryCount + 1 < 5
    · have hstep := txThenIncoming_retry q t hs hi hb hm hr
      have e1 : (txThenIncoming q t).m_state = State.SendingFragment := by rw [hstep]
      have e2 : (txThenIncoming q t).m_fragments = q.m_fragments := by rw [hstep]
      have e3 : (txThenIncoming q t).m_fragIndex = q.m_fragIndex := by rw [hstep]
      have e4 : (txThenIncoming q t).m_retryCount = q.m_retryCount + 1 := by rw [hstep]
      have e5 : (txThenIncoming q t).emitted = q.emitted ++
          [Signal.stateChanged State.WaitingEcho,
           Signal.fragmentProgress (q.m_fragIndex + 1) q.m_fragments.length false,
           Signal.statusMessage (Status.txFragment (q.m_fragIndex + 1) q.m_fragments.length),
           Signal.statusMessage (Status.echoIncorrect (q.m_retryCount + 1) MAX_RETRIES),
           Signal.stateChanged State.SendingFragment] := by
        rw [hstep]
      obtain ⟨⟨evs, he, hn⟩, hlt, heq⟩ := ih (txThenIncoming q t) e1 (by rw [e2, e3]; exact hi)
        (by rw [e2, e3]; exact fun x hx => hall x (by simp [hx])) (by rw [e4]; omega)
      refine ⟨⟨[Signal.stateChanged State.WaitingEcho,
           Signal.fragmentProgress (q.m_fragIndex + 1) q.m_fragments.length false,
           Signal.statusMessage (Status.txFragment (q.m_fragIndex + 1) q.m_fragments.length),
           Signal.statusMessage (Status.echoIncorrect (q.m_retryCount + 1) MAX_RETRIES),
           Signal.stateChanged State.SendingFragment] ++ evs,
          by rw [he, e5, List.append_assoc], ?_⟩, ?_, ?_⟩
      · simp [List.filter_append, hn, isMessageSentOk]
      · intro hlen
        rw [List.length_cons] at hlen
        obtain ⟨a, b, c, d⟩ := hlt (by rw [e4]; omega)
        exact ⟨a, by rw [b, e2], by rw [c, e3], by rw [d, e4, List.length_cons]; omega⟩
      · intro hlen _
        rw [List.length_cons] at hlen
        have hts : ts ≠ [] := by
          intro h0; rw [h0] at hlen; simp at hlen; omega
        exact heq (by rw [e4]; omega) hts
    · have hstep := txThenIncoming_abandon q t hs hi hb hm (by omega)
      have hts : ts = [] := List.length_eq_zero.mp (by omega)
      rw [hts, List.foldl_nil, hstep]
      refine ⟨⟨_, rfl, ?_⟩, ?_, ?_⟩
      · simp [isMessageSentOk]
      · intro hlen
        rw [List.length_cons] at hlen
        omega
      · intro _ _
        exact ⟨rfl, rfl, rfl, rfl⟩

/-- C10: echo mismatch and retry cap.  In state `WaitingEcho` with retry counter
`r`, a non-blank incoming text that does not match the last sent fragment makes
`processIncoming` count one more retry: if `r + 1 ≥ 5` the engine is fully reset
(state `Idle`, no fragments, `fragIndex = 0`, `retryCount = 0`), otherwise the
counter is `r + 1`, the state is `SendingFragment`, `fragIndex` and the fragment
list are unchanged and the next `nextTxText()` returns the same fragment again;
no `messageSentOk` is emitted.  Hence, starting with a fresh fragment, fewer
than five consecutive mismatched echoes leave the session alive and exactly five
abandon it. -/
theorem echo_mismatch_retry :
    (∀ (p : ChatProtocol) (text : QString), p.m_state = State.WaitingEcho →
      trimmed text ≠ [] → echoMatch p.m_lastSent (trimmed text) = false →
        (emittedSince p (processIncoming p text)).filter isMessageSentOk = []
        ∧ (p.m_retryCount + 1 ≥ 5 →
            (processIncoming p text).m_state = State.Idle
            ∧ (processIncoming p text).m_fragments = []
            ∧ (processIncoming p text).m_fragIndex = 0
            ∧ (processIncoming p text).m_retryCount = 0)
        ∧ (p.m_retryCount + 1 < 5 →
            (processIncoming p text).m_retryCount = p.m_retryCount + 1
            ∧ (processIncoming p text).m_state = State.SendingFragment
            ∧ (processIncoming p text).m_fragIndex = p.m_fragIndex
            ∧ (processIncoming p text).m_fragments = p.m_fragments
            ∧ (∀ f, p.m_fragments[p.m_fragIndex]? = some f →
                (nextTxText (processIncoming p text)).1 = f)))
    ∧ (∀ (q : ChatProtocol) (texts : List QString), q.m_state = State.SendingFragment →
        q.m_retryCount = 0 →
        (∀ f, q.m_fragments[q.m_fragIndex]? = some f →
          (∀ t ∈ texts, trimmed t ≠ [] ∧ echoMatch f (trimmed t) = false) →
          (texts.length < 5 →
            (texts.foldl txThenIncoming q).m_state = State.SendingFragment
            ∧ (texts.foldl txThenIncoming q).m_fragments = q.m_fragments
            ∧ (texts.foldl txThenIncoming q).m_fragIndex = q.m_fragIndex
            ∧ (texts.foldl txThenIncoming q).m_retryCount = texts.length
            ∧ (nextTxText (texts.foldl txThenIncoming q)).1 = f
            ∧ (emittedSince q (texts.foldl txThenIncoming q)).filter isMessageSentOk = [])
          ∧ (texts.length = 5 →
            (texts.foldl txThenIncoming q).m_state = State.Idle
            ∧ (texts.foldl txThenIncoming q).m_fragments = []
            ∧ (texts.foldl txThenIncoming q).m_fragIndex = 0
            ∧ (texts.foldl txThenIncoming q).m_retryCount = 0
            ∧ (emittedSince q (texts.foldl txThenIncoming q)).filter isMessageSentOk = []))) := by
  constructor
  · intro p text hs hb hm
    by_cases hr : p.m_retryCount + 1 < 5
    · have hq := processIncoming_mismatch_retry p text hs hb hm hr
      have e1 : (processIncoming p text).m_state = State.SendingFragment := by rw [hq]
      have e2 : (processIncoming p text).m_fragments = p.m_fragments := by rw [hq]
      have e3 : (processIncoming p text).m_fragIndex = p.m_fragIndex := by rw [hq]
      have e4 : (processIncoming p text).m_retryCount = p.m_retryCount + 1 := by rw [hq]
      refine ⟨?_, fun h => absurd hr (by omega), fun _ => ⟨e4, e1, e3, e2, ?_⟩⟩
      · rw [emittedSince_append p _ _ (by rw [hq])]
        simp [isMessageSentOk]
      · intro f hf
        have hi : p.m_fragIndex < p.m_fragments.length := by
          by_contra hc
          rw [List.getElem?_eq_none (by omega)] at hf
          simp at hf
        rw [nextTxText_sending _ e1 (by rw [e2, e3]; exact hi)]
        simp only [e2, e3, List.getD_eq_getElem?_getD, hf]
        rfl
    · have hq := processIncoming_mismatch_abandon p text hs hb hm (by omega)
      refine ⟨?_, fun _ => ⟨by rw [hq], by rw [hq], by rw [hq], by rw [hq]⟩,
        fun h => absurd h hr⟩
      rw [emittedSince_append p _ _ (by rw [hq])]
      simp [isMessageSentOk]
  · intro q texts hs hr0 f hf hall
    have hi : q.m_fragIndex < q.m_fragments.length := by
      by_contra hc
      rw [List.getElem?_eq_none (by omega)] at hf
      simp at hf
    have hget : q.m_fragments.getD q.m_fragIndex [] = f := by
      rw [List.getD_eq_getElem?_getD, hf]; rfl
    constructor
    · intro hlen
      obtain ⟨⟨evs, he, hn⟩, hlt, _⟩ := mismatch_run texts q hs hi (by rw [hget]; exact hall)
        (by omega)
      obtain ⟨a, b, c, d⟩ := hlt (by omega)
      refine ⟨a, b, c, by rw [d, hr0]; simp, ?_, ?_⟩
      · rw [nextTxText_sending _ a (by rw [b, c]; exact hi)]
        simp only [b, c, hget]
      · rw [emittedSince_append _ _ _ he, hn]
    · intro hlen
      obtain ⟨⟨evs, he, hn⟩, _, heq⟩ := mismatch_run texts q hs hi (by rw [hget]; exact hall)
        (by omega)
      have hne : texts ≠ [] := by
        intro h0; rw [h0] at hlen; simp at hlen
      obtain ⟨a, b, c, d⟩ := heq (by omega) hne
      exact ⟨a, b, c, d, by rw [emittedSince_append _ _ _ he, hn]⟩

theorem echo_mismatch_retry_witness :
    (processIncoming (nextTxText (sendMessage (setMyId init (qs "01")) (qs "02")
        (qs "HELLO WORLD"))).2 (qs "0102 HELLO XX")).m_state = State.SendingFragment
    ∧ (processIncoming (nextTxText (sendMessage (setMyId init (qs "01")) (qs "02")
        (qs "HELLO WORLD"))).2 (qs "0102 HELLO XX")).m_retryCount = 0 + 1
    ∧ (nextTxText (processIncoming (nextTxText (sendMessage (setMyId init (qs "01")) (qs "02")
        (qs "HELLO WORLD"))).2 (qs "0102 HELLO XX"))).1 = qs "0102 HELLO WO" := by
  have h := (echo_mismatch_retry.1
    (nextTxText (sendMessage (setMyId init (qs "01")) (qs "02") (qs "HELLO WORLD"))).2
    (qs "0102 HELLO XX") (by decide) (by decide) (by decide)).2.2 (by decide)
  exact ⟨h.2.1, h.1, h.2.2.2.2 (qs "0102 HELLO WO") (by decide)⟩


theorem nonSpace_append (a b : QString) : nonSpace (a ++ b) = nonSpace a ++ nonSpace b := by
  simp [nonSpace]

theorem nonSpace_dropWhile (s : QString) : nonSpace (s.dropWhile isSpace) = nonSpace s := by
  induction s with
  | nil => rfl
  | cons a t ih =>
    by_cases h : isSpace a = true
    · simp [List.dropWhile_cons, h, nonSpace] at ih ⊢
      exact ih
    · simp [List.dropWhile_cons, h]

theorem nonSpace_reverse (s : QString) : nonSpace s.reverse = (nonSpace s).reverse := by
  simp [nonSpace, List.filter_reverse]

theorem nonSpace_rdropWhile (s : QString) : nonSpace (s.rdropWhile isSpace) = nonSpace s := by
  unfold List.rdropWhile
  rw [nonSpace_reverse, nonSpace_dropWhile, nonSpace_reverse, List.reverse_reverse]

theorem nonSpace_trimmed (s : QString) : nonSpace (trimmed s) = nonSpace s := by
  unfold trimmed
  rw [nonSpace_rdropWhile, nonSpace_dropWhile]

theorem nonSpace_joinPayloads (ps : QStringList) :
    ∀ acc : QString, nonSpace (joinPayloads ps acc) = nonSpace acc ++ nonSpace ps.flatten := by
  induction ps with
  | nil => intro acc; simp [joinPayloads, nonSpace]
  | cons a t ih =>
    intro acc
    rw [joinPayloads, ih, List.flatten_cons, nonSpace_append, nonSpace_append]
    split_ifs
    · rw [nonSpace_append]
      have : nonSpace (qs " ") = [] := by decide
      rw [this, List.append_nil, List.append_assoc]
    · rw [List.append_assoc]

theorem endsWith_eq_append (s suf : QString) (h : endsWith s suf = true) :
    s = chop s suf.length ++ suf := by
  unfold endsWith at h
  simp only [Bool.and_eq_true, decide_eq_true_eq, beq_iff_eq] at h
  unfold chop
  conv_lhs => rw [← List.take_append_drop (s.length - suf.length) s]
  rw [h.2]

theorem endsWith_append (x suf : QString) : endsWith (x ++ suf) suf = true := by
  unfold endsWith
  simp

/-- A text that ends with `/AR` is recognised as such by `endsWithAR`, whatever
precedes the sigil. -/
theorem endsWithAR_append (x : QString) : endsWithAR (x ++ qs "/AR") = true := by
  unfold endsWithAR
  have hq : qs "/AR" = [47, 65] ++ [82] := by decide
  have key : trimmed (x ++ qs "/AR") = (x ++ [47, 65]).dropWhile isSpace ++ [82] := by
    rw [hq, ← List.append_assoc]
    unfold trimmed
    rw [List.dropWhile_append]
    have hne : ((x ++ [47, 65]).dropWhile isSpace).isEmpty = false := by
      rw [List.dropWhile_append]
      split_ifs <;> simp [List.dropWhile_cons, isSpace]
    rw [hne]
    simp only [Bool.false_eq_true, if_false]
    rw [List.rdropWhile_concat_neg _ _ _ (by decide)]
  rw [key, List.dropWhile_append]
  split_ifs
  · decide
  · rw [List.append_assoc]
    exact endsWith_append _ _

theorem nonSpace_stripAR (x : QString) (h : endsWithAR x = true) :
    nonSpace (stripAR x) ++ qs "/AR" = nonSpace x := by
  unfold endsWithAR at h
  unfold stripAR
  simp only [h, if_true]
  rw [nonSpace_trimmed]
  have h1 := endsWith_eq_append _ _ h
  have h3 : (qs "/AR").length = 3 := by decide
  rw [h3] at h1
  have h2 : nonSpace (trimmed x) = nonSpace (chop (trimmed x) 3) ++ qs "/AR" := by
    conv_lhs => rw [h1]
    rw [nonSpace_append]
    congr 1
  rw [← h2, nonSpace_trimmed]


theorem endsWithAR_trimmed (x : QString) : endsWithAR (trimmed x) = endsWithAR x := by
  simp [endsWithAR, trimmed_trimmed]

theorem stripAR_trimmed (x : QString) : stripAR (trimmed x) = stripAR x := by
  simp [stripAR, trimmed_trimmed]

theorem processIncoming_blank (p : ChatProtocol) (text : QString) (h : trimmed text = []) :
    processIncoming p text = p := by
  simp [processIncoming, h]

theorem isHeader_ne_nil {t : QString} (h : isHeader t = true) : t ≠ [] := by
  intro h0
  rw [h0] at h
  simp [isHeader, HEADER_SIZE] at h

/-- A header frame addressed to the engine whose payload does not end with `/AR`
starts a reception. -/
theorem processIncoming_header_start (p : ChatProtocol) (text : QString)
    (hs : p.m_state ≠ State.WaitingEcho)
    (hh : isHeader (trimmed text) = true)
    (ht : headerTarget (trimmed text) = p.m_myId)
    (har : endsWithAR (headerPayload (trimmed text)) = false) :
    processIncoming p text = { p with
      m_rxSenderId := headerSender (trimmed text)
      m_rxPayloads := [headerPayload (trimmed text)]
      m_echoText := trimmed text
      m_state := State.EchoReady
      emitted := p.emitted ++
        ((if p.m_state = State.EchoReady then [] else [Signal.stateChanged State.EchoReady])
          ++ [Signal.statusMessage (Status.recuDe (headerSender (trimmed text)))]) } := by
  simp [processIncoming, isHeader_ne_nil hh, hs, hh, ht, har, setState_eq, emit]

/-- A header frame addressed to the engine whose payload ends with `/AR` is
delivered at once. -/
theorem processIncoming_header_single (p : ChatProtocol) (text : QString)
    (hs : p.m_state ≠ State.WaitingEcho)
    (hh : isHeader (trimmed text) = true)
    (ht : headerTarget (trimmed text) = p.m_myId)
    (har : endsWithAR (headerPayload (trimmed text)) = true) :
    processIncoming p text = { p with
      m_rxSenderId := []
      m_rxPayloads := []
      m_echoText := []
      m_rxCompleteTimer := false
      m_state := State.Idle
      emitted := p.emitted ++
        ((if p.m_state = State.Idle then [] else [Signal.stateChanged State.Idle])
          ++ [Signal.messageReceived (headerSender (trimmed text))
                (trimmed (joinPayloads [stripAR (headerPayload (trimmed text))] [])),
              Signal.statusMessage (Status.messageComplet (headerSender (trimmed text)))]) } := by
  simp [processIncoming, isHeader_ne_nil hh, hs, hh, ht, har, setState_eq, emit,
    deliverReceivedMessage]

/-- A continuation frame that does not end with `/AR` is buffered. -/
theorem processIncoming_continue (p : ChatProtocol) (text : QString)
    (hs : p.m_state = State.EchoReady) (hsender : p.m_rxSenderId ≠ [])
    (hb : trimmed text ≠ [])
    (hh : isHeader (trimmed text) = false)
    (har : endsWithAR text = false) :
    processIncoming p text = { p with
      m_rxCompleteTimer := false
      m_echoText := trimmed text
      m_rxPayloads := p.m_rxPayloads ++ [trimmed text]
      emitted := p.emitted ++ [Signal.statusMessage (Status.fragmentSuite p.m_rxSenderId)] } := by
  have har2 : endsWithAR (trimmed text) = false := by rw [endsWithAR_trimmed]; exact har
  cases p
  simp_all [processIncoming, setState_eq, emit]

/-- A continuation frame that ends with `/AR` completes the message. -/
theorem processIncoming_final (p : ChatProtocol) (text : QString)
    (hs : p.m_state = State.EchoReady) (hsender : p.m_rxSenderId ≠ [])
    (hh : isHeader (trimmed text) = false)
    (har : endsWithAR text = true) :
    processIncoming p text = { p with
      m_rxSenderId := []
      m_rxPayloads := []
      m_echoText := []
      m_rxCompleteTimer := false
      m_state := State.Idle
      emitted := p.emitted ++
        [Signal.stateChanged State.Idle,
         Signal.messageReceived p.m_rxSenderId
           (trimmed (joinPayloads (p.m_rxPayloads ++ [stripAR text]) [])),
         Signal.statusMessage (Status.messageComplet p.m_rxSenderId)] } := by
  have har2 : endsWithAR (trimmed text) = true := by rw [endsWithAR_trimmed]; exact har
  have hb : trimmed text ≠ [] := by
    intro h0
    rw [h0] at har2
    simp [endsWithAR, trimmed, endsWith, qs] at har2
  simp [processIncoming, hb, hs, hh, hsender, har2, setState_eq, emit, deliverReceivedMessage,
    stripAR_trimmed]

/-- The frames between the header and the terminator: each is buffered (a blank
one is dropped) and none delivers the message. -/
theorem middle_frames (mids : List QString) :
    ∀ q : ChatProtocol, q.m_state = State.EchoReady → q.m_rxSenderId ≠ [] →
      (∀ f ∈ mids, isHeader (trimmed f) = false ∧ endsWithAR f = false) →
      (mids.foldl processIncoming q).m_state = State.EchoReady
      ∧ (mids.foldl processIncoming q).m_rxSenderId = q.m_rxSenderId
      ∧ nonSpace (mids.foldl processIncoming q).m_rxPayloads.flatten
          = nonSpace q.m_rxPayloads.flatten ++ nonSpace mids.flatten
      ∧ ∃ evs, (mids.foldl processIncoming q).emitted = q.emitted ++ evs
          ∧ evs.filter isMessageReceived = [] := by
  induction mids with
  | nil =>
    intro q hs hne _
    exact ⟨hs, rfl, by simp [nonSpace], [], by simp, rfl⟩
  | cons f fs ih =>
    intro q hs hne hall
    obtain ⟨hh, har⟩ := hall f (by simp)
    have hrest : ∀ g ∈ fs, isHeader (trimmed g) = false ∧ endsWithAR g = false :=
      fun g hg => hall g (by simp [hg])
    rw [List.foldl_cons, List.flatten_cons, nonSpace_append]
    by_cases hb : trimmed f = []
    · rw [processIncoming_blank q f hb]
      obtain ⟨a, b, c, d⟩ := ih q hs hne hrest
      have hns : nonSpace f = [] := by rw [← nonSpace_trimmed, hb]; rfl
      exact ⟨a, b, by rw [c, hns, List.nil_append], d⟩
    · have hq := processIncoming_continue q f hs hne hb hh har
      have e1 : (processIncoming q f).m_state = State.EchoReady := by rw [hq]; exact hs
      have e2 : (processIncoming q f).m_rxSenderId = q.m_rxSenderId := by rw [hq]
      have e3 : (processIncoming q f).m_rxPayloads = q.m_rxPayloads ++ [trimmed f] := by rw [hq]
      have e4 : (processIncoming q f).emitted = q.emitted ++
          [Signal.statusMessage (Status.fragmentSuite q.m_rxSenderId)] := by rw [hq]
      obtain ⟨a, b, c, evs, he, hn⟩ := ih (processIncoming q f) e1 (by rw [e2]; exact hne) hrest
      refine ⟨a, by rw [b, e2], ?_,
        [Signal.statusMessage (Status.fragmentSuite q.m_rxSenderId)] ++ evs,
        by rw [he, e4, List.append_assoc], ?_⟩
      · rw [c, e3, List.flatten_append, nonSpace_append, List.append_assoc]
        congr 2
        simp [nonSpace_trimmed]
      · simp [List.filter_append, hn, isMessageReceived]


theorem isDigit_not_isSpace {c : Nat} (h : isDigit c = true) : isSpace c = false := by
  simp only [isDigit, digitBlocks, List.any_cons, List.any_nil, Bool.or_false, Bool.or_eq_true,
    Bool.and_eq_true, decide_eq_true_eq] at h
  simp only [isSpace, Bool.or_eq_false_iff, Bool.and_eq_false_iff, beq_eq_false_iff_ne,
    decide_eq_false_iff_not, ne_eq]
  omega

/-- The shape of a header frame: four digits, a space, the payload. -/
theorem isHeader_shape {t : QString} (h : isHeader t = true) :
    ∃ a b c d u, t = [a, b, c, d, 32] ++ u ∧ isDigit a = true ∧ isDigit b = true
      ∧ isDigit c = true ∧ isDigit d = true := by
  match t, h with
  | a :: b :: c :: d :: e :: u, h =>
    simp [isHeader, HEADER_SIZE, List.range, List.range.loop] at h
    obtain ⟨⟨ha, hb, hc, hd⟩, he⟩ := h
    exact ⟨a, b, c, d, u, by simp [he], ha, hb, hc, hd⟩
  | [], h | [_], h | [_, _], h | [_, _, _], h | [_, _, _, _], h =>
    simp [isHeader, HEADER_SIZE] at h

theorem headerPayload_shape (a b c d : Nat) (u : QString)
    (h : isHeader ([a, b, c, d, 32] ++ u) = true) :
    headerPayload ([a, b, c, d, 32] ++ u) = u := by
  unfold headerPayload
  rw [h]
  rfl

theorem nonSpace_shape (a b c d : Nat) (u : QString)
    (ha : isDigit a = true) (hb : isDigit b = true) (hc : isDigit c = true)
    (hd : isDigit d = true) :
    nonSpace ([a, b, c, d, 32] ++ u) = [a, b, c, d] ++ nonSpace u := by
  have h32 : isSpace 32 = true := by decide
  simp only [nonSpace, List.cons_append, List.nil_append, List.filter_cons,
    isDigit_not_isSpace ha, isDigit_not_isSpace hb, isDigit_not_isSpace hc,
    isDigit_not_isSpace hd, h32, Bool.not_false, Bool.not_true, if_true, Bool.false_eq_true,
    if_false]

theorem nonSpace_headerPayload {t : QString} (h : isHeader t = true) :
    nonSpace (headerPayload t) = (nonSpace t).drop 4 := by
  obtain ⟨a, b, c, d, u, rfl, ha, hb, hc, hd⟩ := isHeader_shape h
  rw [headerPayload_shape a b c d u h, nonSpace_shape a b c d u ha hb hc hd]
  rfl

theorem four_le_nonSpace {t : QString} (h : isHeader t = true) : 4 ≤ (nonSpace t).length := by
  obtain ⟨a, b, c, d, u, rfl, ha, hb, hc, hd⟩ := isHeader_shape h
  rw [nonSpace_shape a b c d u ha hb hc hd]
  simp

theorem endsWith_iff_suffix (s suf : QString) : endsWith s suf = true ↔ suf <:+ s := by
  unfold endsWith
  simp only [Bool.and_eq_true, decide_eq_true_eq, beq_iff_eq]
  constructor
  · rintro ⟨_, h2⟩
    rw [List.suffix_iff_eq_drop]
    exact h2.symm
  · intro h
    exact ⟨h.length_le, (List.suffix_iff_eq_drop.mp h).symm⟩

theorem suffix_of_head_not_mem (s g v : QString) (x : Nat) (hx : s.head? = some x)
    (hg : x ∉ g) (h : s <:+ g ++ v) : s <:+ v := by
  obtain ⟨r, hr⟩ := h
  rw [List.append_eq_append_iff] at hr
  rcases hr with ⟨a, h1, h2⟩ | ⟨c, h1, h2⟩
  · cases a with
    | nil =>
      rw [List.nil_append] at h2
      rw [h2]
    | cons y ys =>
      exfalso
      rw [h2] at hx
      simp only [List.cons_append, List.head?_cons, Option.some.injEq] at hx
      apply hg
      rw [h1, ← hx]
      simp
  · exact ⟨c, h2.symm⟩

theorem trimmed_last_of_eq {t : QString} (ht : trimmed t = t) (c : Nat)
    (h : t.getLast? = some c) : isSpace c = false := by
  rw [← ht] at h
  exact trimmed_last t c h

/-- On a trimmed header frame, the payload ends with `/AR` exactly when the frame
does. -/
theorem endsWithAR_headerPayload {t : QString} (h : isHeader t = true) (ht : trimmed t = t) :
    endsWithAR (headerPayload t) = endsWithAR t := by
  obtain ⟨a, b, c, d, u, rfl, ha, hb, hc, hd⟩ := isHeader_shape h
  rw [headerPayload_shape a b c d u h]
  have hlast := trimmed_last_of_eq ht
  -- the payload has a character that is not a space
  have hv : u.dropWhile isSpace ≠ [] := by
    intro h0
    have hall : ∀ x ∈ u, isSpace x = true := by
      have := List.dropWhile_eq_nil_iff.mp h0
      exact this
    cases hu : u.getLast? with
    | none =>
      rw [List.getLast?_eq_none_iff] at hu
      subst hu
      have := hlast 32 (by simp)
      simp [isSpace] at this
    | some z =>
      have hz : z ∈ u := List.mem_of_getLast?_eq_some hu
      have h1 := hall z hz
      have h2 := hlast z (by
        have hne : u ≠ [] := List.ne_nil_of_mem hz
        rw [List.getLast?_append_of_ne_nil _ hne]
        exact hu)
      rw [h1] at h2
      exact absurd h2 (by simp)
  have hsuf : u.dropWhile isSpace <:+ u := List.dropWhile_suffix _
  have htr : trimmed u = u.dropWhile isSpace := by
    unfold trimmed
    rw [List.rdropWhile_eq_self_iff]
    intro hne
    obtain ⟨r, hr⟩ := hsuf
    have hl1 : (u.dropWhile isSpace).getLast? = u.getLast? := by
      conv_rhs => rw [← hr]
      rw [List.getLast?_append_of_ne_nil _ hne]
    have hl2 := hlast ((u.dropWhile isSpace).getLast hne) (by
      have hune : u ≠ [] := by
        intro h0; rw [h0] at hv; simp at hv
      rw [List.getLast?_append_of_ne_nil _ hune, ← hl1]
      exact List.getLast?_eq_getLast _ hne)
    simp [hl2]
  have e1 : endsWithAR u = decide (qs "/AR" <:+ u.dropWhile isSpace) := by
    unfold endsWithAR
    rw [htr]
    by_cases hh : qs "/AR" <:+ u.dropWhile isSpace
    · simp [hh, (endsWith_iff_suffix _ _).mpr hh]
    · have : endsWith (u.dropWhile isSpace) (qs "/AR") = false := by
        rw [Bool.eq_false_iff]
        exact fun hc => hh ((endsWith_iff_suffix _ _).mp hc)
      simp [hh, this]
  have e2 : endsWithAR ([a, b, c, d, 32] ++ u)
      = decide (qs "/AR" <:+ [a, b, c, d, 32] ++ u) := by
    unfold endsWithAR
    rw [ht]
    by_cases hh : qs "/AR" <:+ [a, b, c, d, 32] ++ u
    · simp only [hh, (endsWith_iff_suffix _ _).mpr hh, decide_True]
    · have : endsWith ([a, b, c, d, 32] ++ u) (qs "/AR") = false := by
        rw [Bool.eq_false_iff]
        exact fun hc => hh ((endsWith_iff_suffix _ _).mp hc)
      simp only [hh, this, decide_False]
  rw [e1, e2]
  congr 1
  apply propext
  constructor
  · intro hh
    exact hh.trans (hsuf.trans (List.suffix_append _ _))
  · intro hh
    have hsplit : [a, b, c, d, 32] ++ u
        = ([a, b, c, d, 32] ++ u.takeWhile isSpace) ++ u.dropWhile isSpace := by
      rw [List.append_assoc, List.takeWhile_append_dropWhile]
    rw [hsplit] at hh
    apply suffix_of_head_not_mem (qs "/AR") _ _ 47 (by decide) _ hh
    intro hmem
    rw [List.mem_append] at hmem
    rcases hmem with hm | hm
    · simp only [List.mem_cons, List.mem_singleton, List.not_mem_nil, or_false] at hm
      have h47 : isDigit 47 = false := by decide
      rcases hm with rfl | rfl | rfl | rfl | hm
      · rw [h47] at ha; simp at ha
      · rw [h47] at hb; simp at hb
      · rw [h47] at hc; simp at hc
      · rw [h47] at hd; simp at hd
      · simp at hm
    · have := List.mem_takeWhile_imp hm
      simp [isSpace] at this


theorem headerSender_ne_nil {t : QString} (h : isHeader t = true) : headerSender t ≠ [] := by
  obtain ⟨a, b, c, d, u, rfl, _⟩ := isHeader_shape h
  unfold headerSender
  rw [h]
  simp [left]

/-- Reception of a broadcast: a header frame addressed to the engine, frames
that are neither headers nor terminators, and a last frame ending with `/AR`.
The message is delivered once, when the last frame arrives, and its non-space
characters are those of the frames without the four identifier digits and the
sigil. -/
theorem receive_frames (p : ChatProtocol) (f0 : QString) (rest : List QString)
    (hs : p.m_state = State.Idle)
    (hh : isHeader (trimmed f0) = true) (ht : headerTarget (trimmed f0) = p.m_myId)
    (hb : ∀ f ∈ rest, isHeader (trimmed f) = false)
    (hc : ∀ f ∈ (f0 :: rest).dropLast, endsWithAR f = false)
    (hl : ∀ l, (f0 :: rest).getLast? = some l → endsWithAR l = true) :
    ∃ M, (emittedSince p ((f0 :: rest).foldl processIncoming p)).filter isMessageReceived
          = [Signal.messageReceived (headerSender (trimmed f0)) M]
      ∧ nonSpace M ++ qs "/AR" = (nonSpace (f0 :: rest).flatten).drop 4
      ∧ trimmed M = M
      ∧ ((f0 :: rest).foldl processIncoming p).m_state = State.Idle := by
  have hne : p.m_state ≠ State.WaitingEcho := by rw [hs]; decide
  have hpay : endsWithAR (headerPayload (trimmed f0)) = endsWithAR f0 := by
    rw [endsWithAR_headerPayload hh (trimmed_trimmed f0), endsWithAR_trimmed]
  have hns0 : nonSpace (headerPayload (trimmed f0)) = (nonSpace f0).drop 4 := by
    rw [nonSpace_headerPayload hh, nonSpace_trimmed]
  have h4 : 4 ≤ (nonSpace f0).length := by
    have := four_le_nonSpace hh
    rwa [nonSpace_trimmed] at this
  rcases List.eq_nil_or_concat rest with hr | ⟨mids, last, hr⟩
  · subst hr
    have har : endsWithAR (headerPayload (trimmed f0)) = true := by
      rw [hpay]; exact hl f0 rfl
    rw [List.foldl_cons, List.foldl_nil]
    have hq := processIncoming_header_single p f0 hne hh ht har
    refine ⟨trimmed (joinPayloads [stripAR (headerPayload (trimmed f0))] []), ?_, ?_,
      trimmed_trimmed _, ?_⟩
    · rw [emittedSince_append p _ _ (by rw [hq])]
      simp [hs, isMessageReceived]
    · rw [nonSpace_trimmed, nonSpace_joinPayloads]
      simp only [List.flatten_cons, List.flatten_nil, List.append_nil]
      have : nonSpace ([] : QString) = [] := rfl
      rw [this, List.nil_append, nonSpace_stripAR _ har, hns0]
    · rw [hq]
  · rw [List.concat_eq_append] at hr
    subst hr
    have hd : (f0 :: (mids ++ [last])).dropLast = f0 :: mids := by
      rw [← List.cons_append, List.dropLast_concat]
    rw [hd] at hc
    have hlast : endsWithAR last = true := by
      apply hl
      rw [← List.cons_append, List.getLast?_concat]
    have har : endsWithAR (headerPayload (trimmed f0)) = false := by
      rw [hpay]; exact hc f0 (by simp)
    have hq1 := processIncoming_header_start p f0 hne hh ht har
    have a1 : (processIncoming p f0).m_state = State.EchoReady := by rw [hq1]
    have a2 : (processIncoming p f0).m_rxSenderId = headerSender (trimmed f0) := by rw [hq1]
    have a3 : (processIncoming p f0).m_rxPayloads = [headerPayload (trimmed f0)] := by rw [hq1]
    have a4 : (processIncoming p f0).emitted = p.emitted ++
        [Signal.stateChanged State.EchoReady,
         Signal.statusMessage (Status.recuDe (headerSender (trimmed f0)))] := by
      rw [hq1]; simp [hs]
    have hsn : (processIncoming p f0).m_rxSenderId ≠ [] := by
      rw [a2]; exact headerSender_ne_nil hh
    obtain ⟨b1, b2, b3, evs, b4, b5⟩ := middle_frames mids (processIncoming p f0) a1 hsn
      (fun f hf => ⟨hb f (by simp [hf]), hc f (by simp [hf])⟩)
    have hsn2 : (mids.foldl processIncoming (processIncoming p f0)).m_rxSenderId ≠ [] := by
      rw [b2]; exact hsn
    have hq3 := processIncoming_final (mids.foldl processIncoming (processIncoming p f0)) last
      b1 hsn2 (hb last (by simp)) hlast
    rw [List.foldl_cons, List.foldl_append, List.foldl_cons, List.foldl_nil]
    refine ⟨trimmed (joinPayloads
      ((mids.foldl processIncoming (processIncoming p f0)).m_rxPayloads ++ [stripAR last]) []),
      ?_, ?_, trimmed_trimmed _, ?_⟩
    · rw [emittedSince_append p _
        ([Signal.stateChanged State.EchoReady,
          Signal.statusMessage (Status.recuDe (headerSender (trimmed f0)))] ++ evs ++
         [Signal.stateChanged State.Idle,
          Signal.messageReceived (headerSender (trimmed f0))
            (trimmed (joinPayloads
              ((mids.foldl processIncoming (processIncoming p f0)).m_rxPayloads
                ++ [stripAR last]) [])),
          Signal.statusMessage (Status.messageComplet (headerSender (trimmed f0)))])
        (by rw [hq3, b4, a4, b2, a2]; simp only [List.append_assoc])]
      simp [List.filter_append, b5, isMessageReceived]
    · rw [nonSpace_trimmed, nonSpace_joinPayloads, List.flatten_append, nonSpace_append, b3, a3]
      have e0 : nonSpace ([] : QString) = [] := rfl
      simp only [List.flatten_cons, List.flatten_nil, List.append_nil, List.flatten_append,
        nonSpace_append, e0, List.nil_append]
      rw [List.append_assoc, List.append_assoc, nonSpace_stripAR _ hlast, hns0,
        List.drop_append_of_le_length h4]
    · rw [hq3]


theorem nonSpace_spaces (k : Nat) : nonSpace (List.replicate k ' '.toNat) = [] := by
  induction k with
  | zero => rfl
  | succ k ih =>
    rw [List.replicate_succ]
    have : nonSpace (' '.toNat :: List.replicate k ' '.toNat)
        = nonSpace (List.replicate k ' '.toNat) := by
      simp [nonSpace, isSpace]
    rw [this, ih]

/-- What the `/AR` step does to a non-empty fragment list `g0 :: sl`: the first
slot still starts with `g0`, the last slot ends with `/AR`, and the non-space
characters are those of the fragments followed by `/AR`. -/
theorem appendAR_cons (g0 : QString) (sl : QStringList) :
    ∃ y rest, appendAR (g0 :: sl) = (g0 ++ y) :: rest
      ∧ (∃ l, ((g0 ++ y) :: rest).getLast? = some l ∧ endsWithAR l = true)
      ∧ nonSpace ((g0 ++ y) :: rest).flatten = nonSpace (g0 :: sl).flatten ++ qs "/AR" := by
  have hAR : nonSpace (qs "/AR") = qs "/AR" := by decide
  have h10 : qs "          /AR" = List.replicate 10 ' '.toNat ++ qs "/AR" := by decide
  rcases List.eq_nil_or_concat sl with hsl | ⟨mids, last, hsl⟩
  · subst hsl
    unfold appendAR
    simp only [List.getLast?_singleton, SLOT_SIZE, List.dropLast_single, List.nil_append]
    by_cases hlen : g0.length + 3 ≤ 13
    · rw [if_pos hlen]
      refine ⟨List.replicate (13 - 3 - g0.length) ' '.toNat ++ qs "/AR", [], ?_, ?_, ?_⟩
      · simp [leftJustified]
      · refine ⟨_, rfl, ?_⟩
        rw [← List.append_assoc]
        exact endsWithAR_append _
      · simp only [List.flatten_cons, List.flatten_nil, List.append_nil]
        rw [nonSpace_append, nonSpace_append, nonSpace_spaces, hAR, List.nil_append]
    · rw [if_neg hlen]
      refine ⟨[], [qs "          /AR"], by simp, ⟨_, rfl, ?_⟩, ?_⟩
      · rw [h10]; exact endsWithAR_append _
      · simp only [List.flatten_cons, List.flatten_nil, List.append_nil]
        rw [nonSpace_append, h10, nonSpace_append, nonSpace_spaces, hAR]
        simp [nonSpace]
  · rw [List.concat_eq_append] at hsl
    subst hsl
    unfold appendAR
    have hg : (g0 :: (mids ++ [last])).getLast? = some last := by
      rw [← List.cons_append, List.getLast?_concat]
    have hd : (g0 :: (mids ++ [last])).dropLast = g0 :: mids := by
      rw [← List.cons_append, List.dropLast_concat]
    rw [hg]
    simp only [SLOT_SIZE, hd]
    by_cases hlen : last.length + 3 ≤ 13
    · rw [if_pos hlen]
      refine ⟨[], mids ++ [leftJustified last (13 - 3) ' '.toNat ++ qs "/AR"], by simp, ?_, ?_⟩
      · refine ⟨leftJustified last (13 - 3) ' '.toNat ++ qs "/AR", ?_, endsWithAR_append _⟩
        rw [List.append_nil, ← List.cons_append, List.getLast?_concat]
      · simp only [List.append_nil, List.flatten_cons, List.flatten_append, List.flatten_nil,
          leftJustified, nonSpace_append, nonSpace_spaces, hAR]
        simp
    · rw [if_neg hlen]
      refine ⟨[], mids ++ [last] ++ [qs "          /AR"], by simp, ?_, ?_⟩
      · refine ⟨qs "          /AR", ?_, by rw [h10]; exact endsWithAR_append _⟩
        rw [List.append_nil, ← List.cons_append, List.getLast?_concat]
      · simp only [List.append_nil, List.flatten_cons, List.flatten_append, List.flatten_nil,
          nonSpace_append, h10, nonSpace_spaces, hAR]
        simp

theorem nonSpace_digits (s : QString) (h : ∀ c ∈ s, isDigit c = true) : nonSpace s = s := by
  unfold nonSpace
  rw [List.filter_eq_self]
  intro c hc
  simp [isDigit_not_isSpace (h c hc)]

/-- The header fields of a trimmed first slot: when the slot starts with
`S ++ R ++ " "` and its trimmed form is a header, that form has sender `S` and
target `R`. -/
theorem header_fields_of_trimmed (S R x : QString) (hS : S.length = 2) (hR : R.length = 2)
    (hSd : ∀ c ∈ S, isDigit c = true)
    (hh : isHeader (trimmed (S ++ R ++ qs " " ++ x)) = true) :
    headerSender (trimmed (S ++ R ++ qs " " ++ x)) = S
    ∧ headerTarget (trimmed (S ++ R ++ qs " " ++ x)) = R := by
  match S, hS, hSd with
  | [s1, s2], _, hSd =>
    match R, hR with
    | [r1, r2], _ =>
      have hdw : ([s1, s2] ++ [r1, r2] ++ qs " " ++ x).dropWhile isSpace
          = [s1, s2] ++ [r1, r2] ++ qs " " ++ x := by
        have := isDigit_not_isSpace (hSd s1 (by simp))
        simp [List.dropWhile_cons, this]
      obtain ⟨r, hr⟩ : trimmed ([s1, s2] ++ [r1, r2] ++ qs " " ++ x)
          <+: [s1, s2] ++ [r1, r2] ++ qs " " ++ x := by
        unfold trimmed
        rw [hdw]
        exact List.rdropWhile_prefix _ _
      obtain ⟨a, b, c, d, u, hu, _⟩ := isHeader_shape hh
      rw [hu] at hr
      have hq : qs " " = [32] := by decide
      simp only [hq, List.cons_append, List.nil_append, List.cons.injEq] at hr
      obtain ⟨e1, e2, e3, e4, _⟩ := hr
      unfold headerSender headerTarget
      rw [hh, hu, e1, e2, e3, e4]
      exact ⟨rfl, rfl⟩


theorem dropWhile_prefix_mono {x y : QString} (h : x <+: y) (hx : x.dropWhile isSpace ≠ []) :
    x.dropWhile isSpace <+: y.dropWhile isSpace := by
  obtain ⟨z, rfl⟩ := h
  rw [List.dropWhile_append]
  have : (x.dropWhile isSpace).isEmpty = false := by
    cases hd : x.dropWhile isSpace with
    | nil => exact absurd hd hx
    | cons a t => rfl
  rw [this]
  exact List.prefix_append _ _

theorem rdropWhile_prefix_mono {u v : QString} (h : u <+: v) :
    u.rdropWhile isSpace <+: v.rdropWhile isSpace := by
  obtain ⟨z, rfl⟩ := h
  unfold List.rdropWhile
  rw [List.reverse_append, List.dropWhile_append]
  split_ifs
  · exact List.prefix_refl _
  · rw [List.reverse_append, List.reverse_reverse]
    have h1 : (List.dropWhile isSpace u.reverse).reverse <+: u := List.rdropWhile_prefix _ _
    exact h1.trans (List.prefix_append _ _)

/-- Trimming keeps the prefix order: the trimmed form of a non-blank prefix of a
text is a prefix of the trimmed form of the text. -/
theorem trimmed_prefix_mono {x y : QString} (h : x <+: y) (hx : trimmed x ≠ []) :
    trimmed x <+: trimmed y := by
  unfold trimmed at hx ⊢
  have h1 : x.dropWhile isSpace ≠ [] := by
    intro h0
    rw [h0] at hx
    exact hx rfl
  exact rdropWhile_prefix_mono (dropWhile_prefix_mono h h1)

theorem take_min_prefix_eq {a b : QString} (h : a <+: b) :
    a.take (min a.length b.length) = b.take (min a.length b.length) := by
  have hl := h.length_le
  rw [Nat.min_eq_left hl, List.take_length]
  exact (List.prefix_iff_eq_take.mp h)

theorem echoMatch_iff (lastSent text : QString) :
    echoMatch lastSent text = true ↔
      (trimmed lastSent).take (min (trimmed lastSent).length (trimmed text).length)
        = (trimmed text).take (min (trimmed lastSent).length (trimmed text).length) := by
  simp [echoMatch, left]

theorem echoMatch_prefix_true (lastSent text : QString) (hb : trimmed text ≠ [])
    (h : text <+: lastSent ∨ lastSent <+: text) :
    echoMatch lastSent (trimmed text) = true := by
  rw [echoMatch_iff, trimmed_trimmed]
  rcases h with h | h
  · have := take_min_prefix_eq (trimmed_prefix_mono h hb)
    rw [Nat.min_comm] at this
    exact this.symm
  · by_cases ha : trimmed lastSent = []
    · simp [ha]
    · exact take_min_prefix_eq (trimmed_prefix_mono h ha)

/-- A confirmed echo in `WaitingEcho`: the retry counter is cleared and the
fragment index advances. -/
theorem processIncoming_match (p : ChatProtocol) (text : QString)
    (hs : p.m_state = State.WaitingEcho) (hb : trimmed text ≠ [])
    (hm : echoMatch p.m_lastSent (trimmed text) = true) :
    (processIncoming p text).m_retryCount = 0
    ∧ (processIncoming p text).m_fragIndex = p.m_fragIndex + 1 := by
  by_cases h : p.m_fragIndex + 1 ≥ p.m_fragments.length
  · have h' : p.m_fragments.length ≤ p.m_fragIndex + 1 := h
    simp [processIncoming, hs, hb, hm, h', setState_eq, emit, scheduleAutoReturn]
  · have h' : ¬ p.m_fragments.length ≤ p.m_fragIndex + 1 := h
    simp [processIncoming, hs, hb, hm, h', setState_eq, emit]

/-- C11: the echo match is a prefix comparison.  In state `WaitingEcho`, for an
incoming text whose trimmed form `b` is non-empty, `processIncoming` confirms the
echo (`retryCount` set to 0 and `fragIndex` advanced by one) if and only if,
with `a = trim(lastSent)`, the first `min(|a|, |b|)` characters of `a` and of
`b` are equal; in particular a non-blank text that is a prefix of the sent
fragment, or that extends it (before or after trimming), is confirmed as an
echo. -/
theorem echo_match_comparison :
    (∀ (p : ChatProtocol) (text : QString), p.m_state = State.WaitingEcho →
      trimmed text ≠ [] →
        (((processIncoming p text).m_retryCount = 0
            ∧ (processIncoming p text).m_fragIndex = p.m_fragIndex + 1)
          ↔ (trimmed p.m_lastSent).take
                (min (trimmed p.m_lastSent).length (trimmed text).length)
              = (trimmed text).take
                (min (trimmed p.m_lastSent).length (trimmed text).length)))
    ∧ (∀ (p : ChatProtocol) (text : QString), p.m_state = State.WaitingEcho →
        trimmed text ≠ [] →
        (text <+: p.m_lastSent ∨ p.m_lastSent <+: text
          ∨ trimmed text <+: trimmed p.m_lastSent
          ∨ trimmed p.m_lastSent <+: trimmed text) →
          (processIncoming p text).m_retryCount = 0
          ∧ (processIncoming p text).m_fragIndex = p.m_fragIndex + 1) := by
  constructor
  · intro p text hs hb
    have key := echoMatch_iff p.m_lastSent (trimmed text)
    rw [trimmed_trimmed] at key
    rw [← key]
    constructor
    · intro hq
      by_contra hm
      have hm' : echoMatch p.m_lastSent (trimmed text) = false := by simpa using hm
      by_cases hr : p.m_retryCount + 1 < 5
      · rw [processIncoming_mismatch_retry p text hs hb hm' hr] at hq
        simp at hq
      · rw [processIncoming_mismatch_abandon p text hs hb hm' (by omega)] at hq
        simp at hq
    · exact processIncoming_match p text hs hb
  · intro p text hs hb h
    apply processIncoming_match p text hs hb
    rcases h with h | h | h | h
    · exact echoMatch_prefix_true _ _ hb (Or.inl h)
    · exact echoMatch_prefix_true _ _ hb (Or.inr h)
    · rw [echoMatch_iff, trimmed_trimmed]
      have := take_min_prefix_eq h
      rw [Nat.min_comm] at this
      exact this.symm
    · rw [echoMatch_iff, trimmed_trimmed]
      exact take_min_prefix_eq h

theorem echo_match_comparison_witness :
    (processIncoming (nextTxText (sendMessage (setMyId init (qs "01")) (qs "02")
        (qs "HELLO WORLD"))).2 (qs "0102 HE")).m_fragIndex = 0 + 1
    ∧ (processIncoming (nextTxText (sendMessage (setMyId init (qs "01")) (qs "02")
        (qs "HELLO WORLD"))).2 (qs "0102 HELLO WOMBAT")).m_fragIndex = 0 + 1 :=
  ⟨(echo_match_comparison.2
      (nextTxText (sendMessage (setMyId init (qs "01")) (qs "02") (qs "HELLO WORLD"))).2
      (qs "0102 HE") (by decide) (by decide) (Or.inl (by decide))).2,
   (echo_match_comparison.2
      (nextTxText (sendMessage (setMyId init (qs "01")) (qs "02") (qs "HELLO WORLD"))).2
      (qs "0102 HELLO WOMBAT") (by decide) (by decide) (Or.inr (Or.inl (by decide)))).2⟩


theorem nextTxText_broadcasting_mid (q : ChatProtocol) (hs : q.m_state = State.Broadcasting)
    (h : q.m_fragIndex + 1 < q.m_fragments.length) :
    nextTxText q = (q.m_fragments.getD q.m_fragIndex [], { q with
      m_fragIndex := q.m_fragIndex + 1
      emitted := q.emitted ++
        [Signal.fragmentProgress ((q.m_fragIndex + 1 : Nat) : Int) q.m_fragments.length false,
         Signal.statusMessage (Status.cq (q.m_fragIndex + 1) q.m_fragments.length)] }) := by
  have h4 : ¬ q.m_fragIndex ≥ q.m_fragments.length := by omega
  have h5 : ¬ q.m_fragments.length ≤ q.m_fragIndex + 1 := by omega
  simp [nextTxText, hs, h4, h5, emit]

theorem nextTxText_broadcasting_last (q : ChatProtocol) (hs : q.m_state = State.Broadcasting)
    (h : q.m_fragIndex + 1 = q.m_fragments.length) :
    nextTxText q = (q.m_fragments.getD q.m_fragIndex [], { q with
      m_fragIndex := q.m_fragIndex + 1
      m_timeoutTimer := false
      m_state := State.Complete
      autoReturnShots := q.autoReturnShots + 1
      emitted := q.emitted ++
        [Signal.fragmentProgress ((q.m_fragIndex + 1 : Nat) : Int) q.m_fragments.length false,
         Signal.statusMessage (Status.cq (q.m_fragIndex + 1) q.m_fragments.length),
         Signal.stateChanged State.Complete,
         Signal.messageSentOk q.m_targetId,
         Signal.statusMessage (Status.broadcastTermine q.m_targetId)] }) := by
  have h4 : ¬ q.m_fragIndex ≥ q.m_fragments.length := by omega
  have h5 : q.m_fragments.length ≤ q.m_fragIndex + 1 := by omega
  simp [nextTxText, hs, h4, h5, emit, setState_eq, scheduleAutoReturn]

theorem pullTx_eq (q : ChatProtocol) : pullTx q = (nextTxText q).2 := rfl

theorem broadcastInv_step (p0 q : ChatProtocol) (k : Nat) (h : BroadcastInv p0 q k)
    (hk : k + 1 < p0.m_fragments.length) :
    BroadcastInv p0 (pullTx q) (k + 1) := by
  obtain ⟨hs, hf, hi, ht, hm, evs, he, hn⟩ := h
  unfold pullTx
  rw [nextTxText_broadcasting_mid q hs (by rw [hf, hi]; exact hk)]
  refine ⟨hs, hf, by simp [hi], ht, hm,
    evs ++ [Signal.fragmentProgress ((q.m_fragIndex + 1 : Nat) : Int) q.m_fragments.length false,
      Signal.statusMessage (Status.cq (q.m_fragIndex + 1) q.m_fragments.length)],
    by simp only [he, List.append_assoc], ?_⟩
  simp [List.filter_append, hn, isMessageSentOk]

theorem broadcastInv_iterate (p0 : ChatProtocol) (h0 : BroadcastInv p0 p0 0) :
    ∀ k, k < p0.m_fragments.length → BroadcastInv p0 (pullTx^[k] p0) k := by
  intro k
  induction k with
  | zero => intro _; exact h0
  | succ k ih =>
    intro hk
    rw [Function.iterate_succ_apply']
    exact broadcastInv_step p0 _ k (ih (by omega)) hk

theorem sendBroadcast_start (p : ChatProtocol) (targetId text : QString)
    (hne : fragmentBroadcast p.m_myId (left (leftJustified targetId 2 '0'.toNat) 2) text ≠ []) :
    (sendBroadcast p targetId text).m_state = State.Broadcasting
    ∧ (sendBroadcast p targetId text).m_fragments
        = fragmentBroadcast p.m_myId (left (leftJustified targetId 2 '0'.toNat) 2) text
    ∧ (sendBroadcast p targetId text).m_fragIndex = 0
    ∧ (sendBroadcast p targetId text).m_targetId = left (leftJustified targetId 2 '0'.toNat) 2
    ∧ (sendBroadcast p targetId text).m_myId = p.m_myId
    ∧ ∃ evs, (sendBroadcast p targetId text).emitted = p.emitted ++ evs
        ∧ evs.filter isMessageSentOk = [] := by
  refine ⟨?_, ?_, ?_, ?_, ?_, ?_⟩
  any_goals simp only [sendBroadcast, reset, setState_eq, emit, List.isEmpty_iff, hne, if_false]
  refine ⟨_, by simp only [List.append_assoc]; rfl, ?_⟩
  by_cases h : p.m_state = State.Idle <;> simp [h, isMessageSentOk, List.filter_append]

/-- C12: broadcast sender.  For every target and text for which `sendBroadcast`
builds `N ≥ 1` fragments `F`, `N` consecutive `nextTxText()` calls return
`F[0]`, ..., `F[N-1]` in that order; the state is `Broadcasting` after each of
the first `N-1` calls and `Complete` after the `N`-th; no `messageSentOk` is
emitted before the `N`-th call and `messageSentOk(target')` is emitted exactly
once by it; a further `nextTxText()` returns the empty string and changes
nothing. -/
theorem broadcast_sender (p : ChatProtocol) (target text : QString)
    (F : QStringList) (p0 : ChatProtocol)
    (hF : F = fragmentBroadcast p.m_myId (left (leftJustified target 2 '0'.toNat) 2) text)
    (hp0 : p0 = sendBroadcast p target text)
    (hN : 1 ≤ F.length) :
    (∀ k f, F[k]? = some f →
        (nextTxText (pullTx^[k] p0)).1 = f
        ∧ (emittedSince p (pullTx^[k] p0)).filter isMessageSentOk = []
        ∧ (k + 1 < F.length → (pullTx^[k + 1] p0).m_state = State.Broadcasting))
    ∧ (pullTx^[F.length] p0).m_state = State.Complete
    ∧ (emittedSince p (pullTx^[F.length] p0)).filter isMessageSentOk
        = [Signal.messageSentOk (left (leftJustified target 2 '0'.toNat) 2)]
    ∧ nextTxText (pullTx^[F.length] p0) = ([], pullTx^[F.length] p0) := by
  have hne : fragmentBroadcast p.m_myId (left (leftJustified target 2 '0'.toNat) 2) text
      ≠ [] := by
    rw [← hF]; intro h0; rw [h0] at hN; simp at hN
  obtain ⟨s1, s2, s3, s5, _, evs0, s6, s7⟩ := sendBroadcast_start p target text hne
  rw [← hp0] at s1 s2 s3 s5 s6
  rw [← hF] at s2
  have h0 : BroadcastInv p0 p0 0 := ⟨s1, rfl, s3, rfl, rfl, [], by simp, rfl⟩
  have hinv := broadcastInv_iterate p0 h0
  rw [s2] at hinv
  have hNN : F.length = (F.length - 1) + 1 := by omega
  have hfin : (pullTx^[F.length] p0).m_state = State.Complete
      ∧ ∃ evs, (pullTx^[F.length] p0).emitted = p.emitted ++ evs
      ∧ evs.filter isMessageSentOk
        = [Signal.messageSentOk (left (leftJustified target 2 '0'.toNat) 2)] := by
    obtain ⟨hs, hf, hi, ht, _, evs, he, hn⟩ := hinv (F.length - 1) (by omega)
    rw [s2] at hf
    rw [s5] at ht
    have hrw : pullTx^[F.length] p0 = pullTx (pullTx^[F.length - 1] p0) := by
      conv_lhs => rw [hNN]
      rw [Function.iterate_succ_apply']
    rw [hrw, pullTx_eq, nextTxText_broadcasting_last _ hs (by rw [hf, hi]; omega)]
    refine ⟨rfl, evs0 ++ evs ++
      [Signal.fragmentProgress (((pullTx^[F.length - 1] p0).m_fragIndex + 1 : Nat) : Int)
          (pullTx^[F.length - 1] p0).m_fragments.length false,
       Signal.statusMessage (Status.cq ((pullTx^[F.length - 1] p0).m_fragIndex + 1)
          (pullTx^[F.length - 1] p0).m_fragments.length),
       Signal.stateChanged State.Complete,
       Signal.messageSentOk (pullTx^[F.length - 1] p0).m_targetId,
       Signal.statusMessage (Status.broadcastTermine (pullTx^[F.length - 1] p0).m_targetId)],
      ?_, ?_⟩
    · simp only [he, s6, List.append_assoc]
    · simp [List.filter_append, hn, s7, isMessageSentOk, ht]
  obtain ⟨hF0, evsF, hF1, hF2⟩ := hfin
  refine ⟨?_, hF0, ?_, ?_⟩
  · intro k f hk
    have hkl : k < F.length := by
      by_contra hc
      rw [List.getElem?_eq_none (by omega)] at hk
      simp at hk
    obtain ⟨hs, hf, hi, ht, _, evs, he, hn⟩ := hinv k hkl
    rw [s2] at hf
    have hget : F.getD k [] = f := by
      rw [List.getD_eq_getElem?_getD, hk]; rfl
    refine ⟨?_, ?_, ?_⟩
    · by_cases hlast : k + 1 = F.length
      · rw [nextTxText_broadcasting_last _ hs (by rw [hf, hi]; exact hlast)]
        simp only [hf, hi, hget]
      · rw [nextTxText_broadcasting_mid _ hs (by rw [hf, hi]; omega)]
        simp only [hf, hi, hget]
    · rw [emittedSince_append p _ (evs0 ++ evs) (by simp only [he, s6, List.append_assoc])]
      simp [List.filter_append, hn, s7]
    · intro hk1
      exact (hinv (k + 1) hk1).state
  · rw [emittedSince_append p _ evsF hF1, hF2]
  · simp [nextTxText, hF0]

theorem broadcast_sender_witness :
    (nextTxText (sendBroadcast (setMyId init (qs "01")) (qs "02") (qs "HELLO WORLD A 73"))).1
        = qs "0102 HELLO WO"
    ∧ (nextTxText (pullTx
        (sendBroadcast (setMyId init (qs "01")) (qs "02") (qs "HELLO WORLD A 73")))).1
        = qs "RLD A 73  /AR"
    ∧ (emittedSince (setMyId init (qs "01")) (pullTx^[2]
        (sendBroadcast (setMyId init (qs "01")) (qs "02") (qs "HELLO WORLD A 73")))).filter
          isMessageSentOk = [Signal.messageSentOk (qs "02")] := by
  have h := broadcast_sender (setMyId init (qs "01")) (qs "02") (qs "HELLO WORLD A 73")
    [qs "0102 HELLO WO", qs "RLD A 73  /AR"]
    (sendBroadcast (setMyId init (qs "01")) (qs "02") (qs "HELLO WORLD A 73"))
    (by decide) rfl (by decide)
  exact ⟨(h.1 0 _ rfl).1, (h.1 1 _ rfl).1, h.2.2.1⟩


theorem joinPayloads_single (x : QString) : joinPayloads [x] [] = x := by
  simp [joinPayloads]

theorem stripAR_trimmed_self (x : QString) : trimmed (stripAR x) = stripAR x := by
  unfold stripAR
  exact trimmed_trimmed _

/-- C14: single-slot broadcast reception.  In state `Idle`, an incoming header
frame whose target equals `myId` and whose payload ends with `/AR` after
trimming makes `processIncoming` emit `messageReceived(sender, stripAR(payload))`
exactly once; afterwards the state is `Idle`, the receiver fields are empty,
`hasDataToSend()` is false and `nextTxText()` returns the empty string and
changes nothing. -/
theorem single_slot_broadcast (p : ChatProtocol) (text : QString)
    (hs : p.m_state = State.Idle)
    (hh : isHeader (trimmed text) = true)
    (ht : headerTarget (trimmed text) = p.m_myId)
    (har : endsWithAR (headerPayload (trimmed text)) = true) :
    emittedSince p (processIncoming p text)
        = [Signal.messageReceived (headerSender (trimmed text))
              (stripAR (headerPayload (trimmed text))),
           Signal.statusMessage (Status.messageComplet (headerSender (trimmed text)))]
    ∧ (emittedSince p (processIncoming p text)).filter isMessageReceived
        = [Signal.messageReceived (headerSender (trimmed text))
              (stripAR (headerPayload (trimmed text)))]
    ∧ (processIncoming p text).m_state = State.Idle
    ∧ (processIncoming p text).m_rxSenderId = []
    ∧ (processIncoming p text).m_rxPayloads = []
    ∧ (processIncoming p text).m_echoText = []
    ∧ hasDataToSend (processIncoming p text) = false
    ∧ nextTxText (processIncoming p text) = ([], processIncoming p text) := by
  have hne : p.m_state ≠ State.WaitingEcho := by rw [hs]; decide
  have hq := processIncoming_header_single p text hne hh ht har
  rw [joinPayloads_single, stripAR_trimmed_self] at hq
  have e1 : (processIncoming p text).m_state = State.Idle := by rw [hq]
  have e0 : emittedSince p (processIncoming p text)
      = [Signal.messageReceived (headerSender (trimmed text))
            (stripAR (headerPayload (trimmed text))),
         Signal.statusMessage (Status.messageComplet (headerSender (trimmed text)))] := by
    rw [emittedSince_append p _ _ (by rw [hq])]
    simp [hs]
  refine ⟨e0, ?_, e1, by rw [hq], by rw [hq], by rw [hq], ?_, ?_⟩
  · rw [e0]
    simp [isMessageReceived]
  · simp [hasDataToSend, e1]
  · simp [nextTxText, e1]

theorem single_slot_broadcast_witness :
    (emittedSince (setMyId init (qs "02"))
        (processIncoming (setMyId init (qs "02")) (qs "0102 HI /AR"))).filter isMessageReceived
      = [Signal.messageReceived (qs "01") (qs "HI")] := by
  have h := (single_slot_broadcast (setMyId init (qs "02")) (qs "0102 HI /AR")
    (by decide) (by decide) (by decide) (by decide)).2.1
  have e1 : headerSender (trimmed (qs "0102 HI /AR")) = qs "01" := by decide
  have e2 : stripAR (headerPayload (trimmed (qs "0102 HI /AR"))) = qs "HI" := by decide
  rw [e1, e2] at h
  exact h


theorem endsWithAR_ne_blank {x : QString} (h : endsWithAR x = true) : trimmed x ≠ [] := by
  intro h0
  unfold endsWithAR at h
  rw [h0] at h
  simp [endsWith, qs] at h

/-- C15: continuation frames.  In state `WaitingNext` or `EchoReady` with
`rxSenderId` non-empty, for a non-blank incoming text that is not a header: if
the text ends with `/AR`, `stripAR(text)` is appended to `rxPayloads` and the
message is delivered (`messageReceived` emitted once with the reassembled
payloads, receiver fields cleared, state `Idle`); otherwise the trimmed text is
appended to `rxPayloads` as the new last payload, all earlier payloads being
kept in order, `echoText` becomes that text and the state becomes `EchoReady`. -/
theorem continuation_frames (p : ChatProtocol) (text : QString)
    (hs : p.m_state = State.WaitingNext ∨ p.m_state = State.EchoReady)
    (hsender : p.m_rxSenderId ≠ [])
    (hb : trimmed text ≠ [])
    (hh : isHeader (trimmed text) = false) :
    (endsWithAR text = true →
        (emittedSince p (processIncoming p text)).filter isMessageReceived
          = [Signal.messageReceived p.m_rxSenderId
              (trimmed (joinPayloads (p.m_rxPayloads ++ [stripAR text]) []))]
        ∧ (processIncoming p text).m_state = State.Idle
        ∧ (processIncoming p text).m_rxSenderId = []
        ∧ (processIncoming p text).m_rxPayloads = []
        ∧ (processIncoming p text).m_echoText = [])
    ∧ (endsWithAR text = false →
        (processIncoming p text).m_rxPayloads = p.m_rxPayloads ++ [trimmed text]
        ∧ (processIncoming p text).m_echoText = trimmed text
        ∧ (processIncoming p text).m_state = State.EchoReady
        ∧ (processIncoming p text).m_rxSenderId = p.m_rxSenderId
        ∧ (emittedSince p (processIncoming p text)).filter isMessageReceived = []) := by
  have hne : p.m_state ≠ State.WaitingEcho := by
    rcases hs with h | h <;> rw [h] <;> decide
  constructor
  · intro har
    have har2 : endsWithAR (trimmed text) = true := by rw [endsWithAR_trimmed]; exact har
    have hq : processIncoming p text = { p with
        m_rxSenderId := [], m_rxPayloads := [], m_echoText := [],
        m_rxCompleteTimer := false, m_state := State.Idle,
        emitted := p.emitted ++
          [Signal.stateChanged State.Idle,
           Signal.messageReceived p.m_rxSenderId
             (trimmed (joinPayloads (p.m_rxPayloads ++ [stripAR text]) [])),
           Signal.statusMessage (Status.messageComplet p.m_rxSenderId)] } := by
      rcases hs with h | h <;>
        simp [processIncoming, hb, h, hh, hsender, har2, setState_eq, emit,
          deliverReceivedMessage, stripAR_trimmed]
    refine ⟨?_, by rw [hq], by rw [hq], by rw [hq], by rw [hq]⟩
    rw [emittedSince_append p _ _ (by rw [hq])]
    simp [isMessageReceived]
  · intro har
    have har2 : endsWithAR (trimmed text) = false := by rw [endsWithAR_trimmed]; exact har
    have hq : processIncoming p text = { p with
        m_rxCompleteTimer := false, m_echoText := trimmed text,
        m_rxPayloads := p.m_rxPayloads ++ [trimmed text],
        m_state := State.EchoReady,
        emitted := p.emitted ++
          ((if p.m_state = State.EchoReady then [] else [Signal.stateChanged State.EchoReady])
            ++ [Signal.statusMessage (Status.fragmentSuite p.m_rxSenderId)]) } := by
      rcases hs with h | h <;>
        simp [processIncoming, hb, h, hh, hsender, har2, setState_eq, emit]
    refine ⟨by rw [hq], by rw [hq], by rw [hq], by rw [hq], ?_⟩
    rw [emittedSince_append p _ _ (by rw [hq])]
    by_cases h : p.m_state = State.EchoReady <;> simp [h, isMessageReceived]

theorem continuation_frames_witness :
    (processIncoming (processIncoming (setMyId init (qs "02")) (qs "0102 HELLO WO"))
        (qs "RLD")).m_rxPayloads = [qs "HELLO WO", qs "RLD"]
    ∧ (emittedSince (processIncoming (setMyId init (qs "02")) (qs "0102 HELLO WO"))
        (processIncoming (processIncoming (setMyId init (qs "02")) (qs "0102 HELLO WO"))
          (qs "RLD       /AR"))).filter isMessageReceived
        = [Signal.messageReceived (qs "01") (qs "HELLO WO RLD")] := by
  have h1 := ((continuation_frames
    (processIncoming (setMyId init (qs "02")) (qs "0102 HELLO WO")) (qs "RLD")
    (by decide) (by decide) (by decide) (by decide)).2 (by decide)).1
  have h2 := ((continuation_frames
    (processIncoming (setMyId init (qs "02")) (qs "0102 HELLO WO")) (qs "RLD       /AR")
    (by decide) (by decide) (by decide) (by decide)).1 (by decide)).1
  refine ⟨?_, ?_⟩
  · rw [h1]; decide
  · rw [h2]; decide

/-- C16: receive-idle completion.  When payloads are buffered and the state is
`WaitingNext` or `Idle`, `onRxComplete` does exactly what
`deliverReceivedMessage` does: it emits `messageReceived` once, with the buffered
sender and the reassembled payloads, clears the receiver fields and leaves the
state `Idle`.  In every other case, in particular in `EchoReady`, it changes
nothing and emits nothing. -/
theorem rx_idle_completion (p : ChatProtocol) :
    ((p.m_state = State.WaitingNext ∨ p.m_state = State.Idle) → p.m_rxPayloads ≠ [] →
        onRxComplete p = deliverReceivedMessage p
        ∧ (emittedSince p (onRxComplete p)).filter isMessageReceived
            = [Signal.messageReceived p.m_rxSenderId (trimmed (joinPayloads p.m_rxPayloads []))]
        ∧ (onRxComplete p).m_state = State.Idle
        ∧ (onRxComplete p).m_rxSenderId = []
        ∧ (onRxComplete p).m_rxPayloads = []
        ∧ (onRxComplete p).m_echoText = [])
    ∧ (¬ ((p.m_state = State.WaitingNext ∨ p.m_state = State.Idle) ∧ p.m_rxPayloads ≠ []) →
        onRxComplete p = p)
    ∧ (p.m_state = State.EchoReady → onRxComplete p = p) := by
  refine ⟨?_, ?_, ?_⟩
  · intro hs hp
    have h1 : onRxComplete p = deliverReceivedMessage p := by
      simp [onRxComplete, hs, hp]
    have hq : deliverReceivedMessage p = { p with
        m_rxSenderId := [], m_rxPayloads := [], m_echoText := [],
        m_rxCompleteTimer := false, m_state := State.Idle,
        emitted := p.emitted ++
          ((if p.m_state = State.Idle then [] else [Signal.stateChanged State.Idle]) ++
          [Signal.messageReceived p.m_rxSenderId (trimmed (joinPayloads p.m_rxPayloads [])),
           Signal.statusMessage (Status.messageComplet p.m_rxSenderId)]) } := by
      simp [deliverReceivedMessage, hp, setState_eq, emit]
    rw [h1]
    refine ⟨rfl, ?_, by rw [hq], by rw [hq], by rw [hq], by rw [hq]⟩
    rw [emittedSince_append p _ _ (by rw [hq])]
    by_cases h : p.m_state = State.Idle <;> simp [h, isMessageReceived]
  · intro h
    unfold onRxComplete
    rw [if_neg (by simpa using h)]
  · intro h
    simp [onRxComplete, h]

theorem rx_idle_completion_witness :
    (emittedSince (setMyId init (qs "02"))
        (onRxComplete (nextTxText
          (processIncoming (setMyId init (qs "02")) (qs "0102 PART ONE"))).2)).filter
          isMessageReceived
      = [Signal.messageReceived (qs "01") (qs "PART ONE")]
    ∧ (onRxComplete (nextTxText
          (processIncoming (setMyId init (qs "02")) (qs "0102 PART ONE"))).2).m_state
        = State.Idle
    ∧ onRxComplete (processIncoming (setMyId init (qs "02")) (qs "0102 PART ONE"))
        = processIncoming (setMyId init (qs "02")) (qs "0102 PART ONE") := by
  have h := (rx_idle_completion (nextTxText
    (processIncoming (setMyId init (qs "02")) (qs "0102 PART ONE"))).2).1
    (by decide) (by decide)
  have h3 := (rx_idle_completion
    (processIncoming (setMyId init (qs "02")) (qs "0102 PART ONE"))).2.2 (by decide)
  exact ⟨by decide, h.2.2.1, h3⟩

/-- C17: dropped frames leave the engine untouched.  In every state other than
`WaitingEcho`, `processIncoming(text)` changes no member variable and emits no
signal when `text` is blank, or is a header frame whose target differs from
`myId`, or is a non-header frame received while the state is neither
`WaitingNext` nor `EchoReady` or while `rxSenderId` is empty. -/
theorem dropped_frames (p : ChatProtocol) (text : QString)
    (hs : p.m_state ≠ State.WaitingEcho) :
    (trimmed text = [] → processIncoming p text = p)
    ∧ (isHeader (trimmed text) = true → headerTarget (trimmed text) ≠ p.m_myId →
        processIncoming p text = p)
    ∧ (isHeader (trimmed text) = false →
        (¬ (p.m_state = State.WaitingNext ∨ p.m_state = State.EchoReady)
          ∨ p.m_rxSenderId = []) →
        processIncoming p text = p) := by
  refine ⟨processIncoming_blank p text, ?_, ?_⟩
  · intro hh ht
    simp [processIncoming, hs, hh, ht]
  · intro hh hc
    rcases hc with hc | hc
    · have h1 : p.m_state ≠ State.WaitingNext := fun h => hc (Or.inl h)
      have h2 : p.m_state ≠ State.EchoReady := fun h => hc (Or.inr h)
      simp [processIncoming, hs, hh, h1, h2]
    · simp [processIncoming, hs, hh, hc]

theorem dropped_frames_witness :
    processIncoming (setMyId init (qs "02")) (qs "   ") = setMyId init (qs "02")
    ∧ processIncoming (setMyId init (qs "02")) (qs "0103 HELLO") = setMyId init (qs "02")
    ∧ processIncoming (setMyId init (qs "02")) (qs "RLD") = setMyId init (qs "02") :=
  have h := dropped_frames (setMyId init (qs "02"))
  ⟨(h (qs "   ") (by decide)).1 (by decide),
   (h (qs "0103 HELLO") (by decide)).2.1 (by decide) (by decide),
   (h (qs "RLD") (by decide)).2.2 (by decide) (Or.inl (by decide))⟩


theorem processIncoming_not_for_us (p : ChatProtocol) (text : QString)
    (h1 : p.m_state ≠ State.WaitingEcho) (h2 : p.m_state ≠ State.WaitingNext)
    (h3 : p.m_state ≠ State.EchoReady)
    (h : isHeaderFor p.m_myId text = false) :
    processIncoming p text = p := by
  unfold isHeaderFor at h
  by_cases hh : isHeader (trimmed text) = true
  · have ht : headerTarget (trimmed text) ≠ p.m_myId := by
      intro hc
      simp [hh, hc] at h
    simp [processIncoming, h1, hh, ht]
  · have hh2 : isHeader (trimmed text) = false := by simpa using hh
    simp [processIncoming, h1, h2, h3, hh2]

theorem listen_not_for_us (texts : List QString) (p : ChatProtocol)
    (h1 : p.m_state ≠ State.WaitingEcho) (h2 : p.m_state ≠ State.WaitingNext)
    (h3 : p.m_state ≠ State.EchoReady)
    (h : ∀ t ∈ texts, isHeaderFor p.m_myId t = false) :
    listen p texts = p := by
  unfold listen
  induction texts with
  | nil => rfl
  | cons t ts ih =>
    rw [List.foldl_cons, processIncoming_not_for_us p t h1 h2 h3 (h t (by simp))]
    exact ih (fun x hx => h x (by simp [hx]))

/-- A broadcasting sender stays among the states `Broadcasting`, `Complete` and
`Idle` when it is asked for its slot text, and keeps its identifier. -/
theorem pullTx_sender_states (q : ChatProtocol)
    (hs : q.m_state = State.Broadcasting ∨ q.m_state = State.Complete
      ∨ q.m_state = State.Idle) :
    ((pullTx q).m_state = State.Broadcasting ∨ (pullTx q).m_state = State.Complete
      ∨ (pullTx q).m_state = State.Idle)
    ∧ (pullTx q).m_myId = q.m_myId := by
  unfold pullTx
  rcases hs with h | h | h
  · by_cases h1 : q.m_fragIndex + 1 < q.m_fragments.length
    · rw [nextTxText_broadcasting_mid q h h1]
      exact ⟨Or.inl h, rfl⟩
    · by_cases h2 : q.m_fragIndex + 1 = q.m_fragments.length
      · rw [nextTxText_broadcasting_last q h h2]
        exact ⟨Or.inr (Or.inl rfl), rfl⟩
      · have h3 : q.m_fragIndex ≥ q.m_fragments.length := by omega
        simp [nextTxText, h, h3, setState_eq]
  · simp [nextTxText, h]
  · simp [nextTxText, h]

/-- Decodes that are not header frames for the engine do not disturb a
broadcasting sender: listening before every transmit slot gives the engine that
the transmit slots alone give. -/
theorem listenThenTx_rounds (rounds : List (List QString)) :
    ∀ q : ChatProtocol,
      (q.m_state = State.Broadcasting ∨ q.m_state = State.Complete
        ∨ q.m_state = State.Idle) →
      (∀ r ∈ rounds, ∀ t ∈ r, isHeaderFor q.m_myId t = false) →
      rounds.foldl listenThenTx q = pullTx^[rounds.length] q := by
  induction rounds with
  | nil => intro q _ _; rfl
  | cons r rs ih =>
    intro q hs hall
    have h1 : q.m_state ≠ State.WaitingEcho := by rcases hs with h | h | h <;> rw [h] <;> decide
    have h2 : q.m_state ≠ State.WaitingNext := by rcases hs with h | h | h <;> rw [h] <;> decide
    have h3 : q.m_state ≠ State.EchoReady := by rcases hs with h | h | h <;> rw [h] <;> decide
    have hstep : listenThenTx q r = pullTx q := by
      unfold listenThenTx
      rw [listen_not_for_us r q h1 h2 h3 (hall r (by simp))]
    obtain ⟨hs', hm'⟩ := pullTx_sender_states q hs
    rw [List.foldl_cons, hstep, ih (pullTx q) hs'
      (fun x hx t ht => by rw [hm']; exact hall x (by simp [hx]) t ht),
      List.length_cons, Function.iterate_succ_apply]

/-- The `k`-th `nextTxText()` call of a broadcast session returns fragment `k`. -/
theorem broadcast_nth (p : ChatProtocol) (target text : QString) (k : Nat) (f : QString)
    (hk : (fragmentBroadcast p.m_myId (left (leftJustified target 2 '0'.toNat) 2) text)[k]?
      = some f) :
    (nextTxText (pullTx^[k] (sendBroadcast p target text))).1 = f := by
  have hkl : k < (fragmentBroadcast p.m_myId
      (left (leftJustified target 2 '0'.toNat) 2) text).length := by
    by_contra hc
    rw [List.getElem?_eq_none (by omega)] at hk
    simp at hk
  have hne : fragmentBroadcast p.m_myId (left (leftJustified target 2 '0'.toNat) 2) text
      ≠ [] := by
    intro h0; rw [h0] at hkl; simp at hkl
  obtain ⟨s1, s2, s3, _, _, _⟩ := sendBroadcast_start p target text hne
  have h0 : BroadcastInv (sendBroadcast p target text) (sendBroadcast p target text) 0 :=
    ⟨s1, rfl, s3, rfl, rfl, [], by simp, rfl⟩
  obtain ⟨hs, hf, hi, _⟩ := broadcastInv_iterate _ h0 k (by rw [s2]; exact hkl)
  rw [s2] at hf
  have hget : (fragmentBroadcast p.m_myId
      (left (leftJustified target 2 '0'.toNat) 2) text).getD k [] = f := by
    rw [List.getD_eq_getElem?_getD, hk]; rfl
  by_cases hlast : k + 1 = (fragmentBroadcast p.m_myId
      (left (leftJustified target 2 '0'.toNat) 2) text).length
  · rw [nextTxText_broadcasting_last _ hs (by rw [hf, hi]; exact hlast)]
    simp only [hf, hi, hget]
  · rw [nextTxText_broadcasting_mid _ hs (by rw [hf, hi]; omega)]
    simp only [hf, hi, hget]

/-- C18, counterexample: while the engine `"01"` is broadcasting, a header frame
addressed to it is not ignored: the state becomes `EchoReady` and the next
`nextTxText()` returns the echo of that frame, not the first broadcast
fragment. -/
theorem broadcasting_ignores_counterexample :
    (sendBroadcast (setMyId init (qs "01")) (qs "02") (qs "HELLO WORLD")).m_state
        = State.Broadcasting
    ∧ (nextTxText (sendBroadcast (setMyId init (qs "01")) (qs "02") (qs "HELLO WORLD"))).1
        = qs "0102 HELLO WO"
    ∧ (processIncoming (sendBroadcast (setMyId init (qs "01")) (qs "02") (qs "HELLO WORLD"))
        (qs "0201 HI")).m_state = State.EchoReady
    ∧ (nextTxText (processIncoming
        (sendBroadcast (setMyId init (qs "01")) (qs "02") (qs "HELLO WORLD"))
        (qs "0201 HI"))).1 = qs "0201 HI" := by
  decide

/-- C18, amended: when the state is `Broadcasting`, `processIncoming(text)`
changes nothing and emits nothing for every text that is not, after trimming, a
header frame whose target is `myId`: the state stays `Broadcasting`, the
fragment list, `fragIndex` and `echoText` are unchanged.  In a session started
by `sendBroadcast`, with any such decodes received before each transmit slot,
the `nextTxText()` calls return the broadcast fragments in order. -/
theorem broadcasting_ignores_decodes :
    (∀ (p : ChatProtocol) (text : QString), p.m_state = State.Broadcasting →
      isHeaderFor p.m_myId text = false →
        processIncoming p text = p
        ∧ (processIncoming p text).m_state = State.Broadcasting
        ∧ (processIncoming p text).m_fragments = p.m_fragments
        ∧ (processIncoming p text).m_fragIndex = p.m_fragIndex
        ∧ (processIncoming p text).m_echoText = p.m_echoText)
    ∧ (∀ (p : ChatProtocol) (target text : QString) (rounds : List (List QString))
        (texts : List QString),
        (∀ r ∈ rounds, ∀ t ∈ r, isHeaderFor p.m_myId t = false) →
        (∀ t ∈ texts, isHeaderFor p.m_myId t = false) →
        ∀ f, (fragmentBroadcast p.m_myId
            (left (leftJustified target 2 '0'.toNat) 2) text)[rounds.length]? = some f →
          (nextTxText (listen (rounds.foldl listenThenTx (sendBroadcast p target text))
            texts)).1 = f) := by
  constructor
  · intro p text hs h
    have hq := processIncoming_not_for_us p text (by rw [hs]; decide) (by rw [hs]; decide)
      (by rw [hs]; decide) h
    rw [hq]
    exact ⟨rfl, hs, rfl, rfl, rfl⟩
  · intro p target text rounds texts hr ht f hf
    have hne : fragmentBroadcast p.m_myId (left (leftJustified target 2 '0'.toNat) 2) text
        ≠ [] := by
      intro h0; rw [h0] at hf; simp at hf
    obtain ⟨s1, _, _, _, s5, _⟩ := sendBroadcast_start p target text hne
    rw [listenThenTx_rounds rounds _ (Or.inl s1) (by rw [s5]; exact hr)]
    have hst : ∀ k : Nat,
        ((pullTx^[k] (sendBroadcast p target text)).m_state = State.Broadcasting
          ∨ (pullTx^[k] (sendBroadcast p target text)).m_state = State.Complete
          ∨ (pullTx^[k] (sendBroadcast p target text)).m_state = State.Idle)
        ∧ (pullTx^[k] (sendBroadcast p target text)).m_myId = p.m_myId := by
      intro k
      induction k with
      | zero => exact ⟨Or.inl s1, s5⟩
      | succ k ih =>
        rw [Function.iterate_succ_apply']
        obtain ⟨a, b⟩ := pullTx_sender_states _ ih.1
        exact ⟨a, by rw [b, ih.2]⟩
    obtain ⟨hs, hm⟩ := hst rounds.length
    rw [listen_not_for_us texts _
      (by rcases hs with h | h | h <;> rw [h] <;> decide)
      (by rcases hs with h | h | h <;> rw [h] <;> decide)
      (by rcases hs with h | h | h <;> rw [h] <;> decide)
      (by rw [hm]; exact ht)]
    exact broadcast_nth p target text rounds.length f hf

theorem broadcasting_ignores_decodes_witness :
    processIncoming (sendBroadcast (setMyId init (qs "01")) (qs "02") (qs "HELLO WORLD"))
        (qs "0203 HI")
      = sendBroadcast (setMyId init (qs "01")) (qs "02") (qs "HELLO WORLD")
    ∧ (nextTxText (listen ([[qs "0203 HI", qs "CQ"]].foldl listenThenTx
        (sendBroadcast (setMyId init (qs "01")) (qs "02") (qs "HELLO WORLD")))
        [qs "73"])).1 = qs "RLD       /AR" :=
  ⟨(broadcasting_ignores_decodes.1
      (sendBroadcast (setMyId init (qs "01")) (qs "02") (qs "HELLO WORLD")) (qs "0203 HI")
      (by decide) (by decide)).1,
   broadcasting_ignores_decodes.2 (setMyId init (qs "01")) (qs "02") (qs "HELLO WORLD")
      [[qs "0203 HI", qs "CQ"]] [qs "73"] (by decide) (by decide) (qs "RLD       /AR")
      (by decide)⟩


theorem haltTx_eq (p : ChatProtocol) :
    haltTx p = { p with
      m_fragments := [], m_fragIndex := 0, m_lastSent := [], m_retryCount := 0,
      m_broadcastMode := false, m_targetId := [], m_rxSenderId := [],
      m_echoText := [], m_rxPayloads := [], m_timeoutTimer := false,
      m_rxCompleteTimer := false, m_directTxTracker := false,
      m_directTxCurrentFrag := -1,
      m_state := State.Idle
      emitted := p.emitted ++
        ((if p.m_state = State.Idle then [] else [Signal.stateChanged State.Idle])
          ++ [Signal.statusMessage Status.transmissionArretee]) } := by
  simp [haltTx, reset, setState_eq, emit]

/-- C19: halt is an unconditional full reset.  From every engine state `haltTx()`
leaves the state `Idle`, the fragment list, `lastSent`, `targetId`,
`rxSenderId`, `echoText` and `rxPayloads` empty, `fragIndex = 0`,
`retryCount = 0`, `broadcastMode` false and the three timers stopped, leaves
`myId` unchanged, and emits neither `messageSentOk` nor `messageReceived`. -/
theorem haltTx_full_reset (p : ChatProtocol) :
    (haltTx p).m_state = State.Idle
    ∧ (haltTx p).m_fragments = [] ∧ (haltTx p).m_lastSent = []
    ∧ (haltTx p).m_targetId = [] ∧ (haltTx p).m_rxSenderId = []
    ∧ (haltTx p).m_echoText = [] ∧ (haltTx p).m_rxPayloads = []
    ∧ (haltTx p).m_fragIndex = 0 ∧ (haltTx p).m_retryCount = 0
    ∧ (haltTx p).m_broadcastMode = false
    ∧ (haltTx p).m_timeoutTimer = false ∧ (haltTx p).m_rxCompleteTimer = false
    ∧ (haltTx p).m_directTxTracker = false
    ∧ (haltTx p).m_myId = p.m_myId
    ∧ (emittedSince p (haltTx p)).filter isMessageSentOk = []
    ∧ (emittedSince p (haltTx p)).filter isMessageReceived = [] := by
  have h := haltTx_eq p
  refine ⟨by rw [h], by rw [h], by rw [h], by rw [h], by rw [h], by rw [h], by rw [h],
    by rw [h], by rw [h], by rw [h], by rw [h], by rw [h], by rw [h], by rw [h], ?_, ?_⟩
  · rw [emittedSince_append p _ _ (by rw [h])]
    by_cases hs : p.m_state = State.Idle <;> simp [hs, isMessageSentOk]
  · rw [emittedSince_append p _ _ (by rw [h])]
    by_cases hs : p.m_state = State.Idle <;> simp [hs, isMessageReceived]

/-- C20, counterexample: on the engine just constructed, the second of two
`haltTx()` calls emits a signal, the status message of `haltTx` once more. -/
theorem haltTx_twice_counterexample :
    emittedSince (haltTx init) (haltTx (haltTx init))
        = [Signal.statusMessage Status.transmissionArretee]
    ∧ emittedSince (haltTx init) (haltTx (haltTx init)) ≠ [] := by
  decide

/-- C20, amended: from every engine state, `haltTx()` followed by `haltTx()`
leaves the engine in `Idle` with the member variables a single `haltTx()`
leaves; the second call emits no `stateChanged`, no `messageSentOk` and no
`messageReceived`, and emits exactly one signal, the status message of
`haltTx` again. -/
theorem haltTx_twice (p : ChatProtocol) :
    (haltTx (haltTx p)).m_state = State.Idle
    ∧ sameFields (haltTx p) (haltTx (haltTx p))
    ∧ emittedSince (haltTx p) (haltTx (haltTx p))
        = [Signal.statusMessage Status.transmissionArretee] := by
  have h1 := haltTx_eq p
  have h2 := haltTx_eq (haltTx p)
  have hs : (haltTx p).m_state = State.Idle := by rw [h1]
  refine ⟨by rw [h2], ?_, ?_⟩
  · unfold sameFields
    rw [h2, h1]
  · rw [emittedSince_append _ _ _ (by rw [h2])]
    simp [hs]


theorem toInt32_eq (x : Int) (h1 : -2 ^ 31 ≤ x) (h2 : x < 2 ^ 31) : toInt32 x = x := by
  unfold toInt32
  rw [Int.emod_eq_of_lt (by omega) (by omega)]
  omega

theorem fragmentMessage_length (sender target text : QString)
    (h : filterFT8Text text MAX_MESSAGE_LEN ≠ []) :
    (fragmentMessage sender target text).length
      = 1 + ((filterFT8Text text MAX_MESSAGE_LEN).length - 8 + 12) / 13 := by
  rw [fragmentMessage_eq _ _ _ h, List.length_cons, slotsFrom_length]
  omega

theorem fragmentMessage_length_le (sender target text : QString) :
    (fragmentMessage sender target text).length ≤ 8 := by
  by_cases h : filterFT8Text text MAX_MESSAGE_LEN = []
  · rw [fragmentMessage_empty _ _ _ h]
    simp
  · rw [fragmentMessage_length _ _ _ h]
    have := filterFT8Text_length text 99
    simp only [MAX_MESSAGE_LEN] at *
    omega

theorem appendAR_length (result : QStringList) :
    result.length ≤ (appendAR result).length
      ∧ (appendAR result).length ≤ result.length + 1 := by
  unfold appendAR
  cases hr : result.getLast? with
  | none => simp
  | some last =>
    have hne : result ≠ [] := by
      intro h0
      rw [h0] at hr
      simp at hr
    have hpos : 0 < result.length := List.length_pos.mpr hne
    simp only []
    split_ifs
    · simp
      omega
    · simp

theorem fragmentBroadcast_length_le (sender target text : QString) :
    (fragmentBroadcast sender target text).length ≤ 9 := by
  rw [fragmentBroadcast_eq_appendAR]
  have h1 := (appendAR_length (fragmentMessage sender target text)).2
  have h2 := fragmentMessage_length_le sender target text
  omega

theorem fragmentBroadcast_ne_nil (sender target text : QString)
    (h : filterFT8Text text MAX_MESSAGE_LEN ≠ []) :
    fragmentBroadcast sender target text ≠ [] := by
  rw [fragmentBroadcast_eq_appendAR]
  have h1 := (appendAR_length (fragmentMessage sender target text)).1
  have h2 := fragmentMessage_length sender target text h
  intro h0
  have h3 : (appendAR (fragmentMessage sender target text)).length = 0 := by rw [h0]; rfl
  omega

theorem waveOffsetLoop_eq (fragments : QStringList) :
    ∀ offset : Int, 0 ≤ offset →
      offset + (fragments.length : Int) * 720000 < 2 ^ 31 →
      waveOffsetLoop fragments offset = offset + (fragments.length : Int) * 720000 := by
  induction fragments with
  | nil => intro offset _ _; simp [waveOffsetLoop]
  | cons f rest ih =>
    intro offset h0 h1
    simp only [List.length_cons, Nat.cast_add, Nat.cast_one] at h1 ⊢
    have hr : (0 : Int) ≤ (rest.length : Int) := Int.natCast_nonneg _
    rw [waveOffsetLoop, SAMPLES_PER_PERIOD, toInt32_eq _ (by omega) (by omega),
      ih _ (by omega) (by omega)]
    ring

/-- The symbol count without wrap-around: up to 2982 fragments the 32-bit
products and sums of `prepareTxWaveform` are exact. -/
theorem prepareTxWaveform_eq (fragments : QStringList) (h : fragments.length ≤ 2982) :
    prepareTxWaveform fragments = (((fragments.length * 720000 + 7679) / 7680 : Nat) : Int) := by
  unfold prepareTxWaveform
  simp only [SAMPLES_PER_PERIOD]
  have hN : (0 : Int) ≤ (fragments.length : Int) := Int.natCast_nonneg _
  have hN2 : (fragments.length : Int) ≤ 2982 := by exact_mod_cast h
  have e1 : toInt32 ((fragments.length : Int) * (15 * 48000))
      = (fragments.length : Int) * 720000 := by
    rw [toInt32_eq _ (by omega) (by omega)]
    ring
  rw [e1]
  have e2 : toInt32 ((fragments.length : Int) * 720000 + 4 * 1920 - 1)
      = (fragments.length : Int) * 720000 + 7679 := by
    rw [toInt32_eq _ (by omega) (by omega)]
    ring
  rw [e2]
  have e3 : (4 : Int) * 1920 = 7680 := by norm_num
  rw [e3, Int.tdiv_eq_ediv (by omega) (by norm_num)]
  push_cast
  rfl

theorem ceil_div_13 (m : Nat) : ⌈((m : Int) : ℚ) / 13⌉ = (((m + 12) / 13 : Nat) : Int) := by
  rw [Int.ceil_eq_iff]
  constructor
  · rw [lt_div_iff₀ (by norm_num)]
    have : (((m + 12) / 13 : Nat) : Int) * 13 - 13 < (m : Int) := by omega
    have h2 : (((((m + 12) / 13 : Nat) : Int) * 13 - 13 : Int) : ℚ) < ((m : Int) : ℚ) := by
      exact_mod_cast this
    push_cast at h2 ⊢
    linarith
  · rw [div_le_iff₀ (by norm_num)]
    have : (m : Int) ≤ (((m + 12) / 13 : Nat) : Int) * 13 := by omega
    exact_mod_cast this

theorem samplesWritten_eq (fragments : QStringList) (h : fragments.length ≤ 2982) :
    samplesWritten fragments = (fragments.length : Int) * 720000 := by
  have hN2 : (fragments.length : Int) ≤ 2982 := by exact_mod_cast h
  unfold samplesWritten
  rw [waveOffsetLoop_eq fragments 0 le_rfl (by omega)]
  ring



theorem fragmentBroadcast_empty (senderId targetId text : QString)
    (h : filterFT8Text text MAX_MESSAGE_LEN = []) :
    fragmentBroadcast senderId targetId text = [] := by
  unfold fragmentBroadcast
  simp [h]

theorem reset_eq (p : ChatProtocol) :
    reset p = { p with
      m_fragments := [], m_fragIndex := 0, m_lastSent := [], m_retryCount := 0,
      m_broadcastMode := false, m_targetId := [], m_rxSenderId := [],
      m_echoText := [], m_rxPayloads := [], m_timeoutTimer := false,
      m_rxCompleteTimer := false, m_directTxTracker := false,
      m_directTxCurrentFrag := -1, m_state := State.Idle,
      emitted := p.emitted ++
        (if p.m_state = State.Idle then [] else [Signal.stateChanged State.Idle]) } := by
  simp [reset, setState_eq]

theorem sendDirect_empty (p : ChatProtocol) (target text : QString)
    (hF : fragmentBroadcast p.m_myId (left (leftJustified target 2 '0'.toNat) 2) text = []) :
    sendDirect p target text
      = { reset p with m_broadcastMode := true,
                       m_targetId := left (leftJustified target 2 '0'.toNat) 2 } := by
  simp only [sendDirect, reset_eq, List.isEmpty_iff, hF, if_true]

theorem sendDirect_error (p : ChatProtocol) (target text : QString)
    (hF : fragmentBroadcast p.m_myId (left (leftJustified target 2 '0'.toNat) 2) text ≠ [])
    (hS : prepareTxWaveform
      (fragmentBroadcast p.m_myId (left (leftJustified target 2 '0'.toNat) 2) text) ≤ 0) :
    sendDirect p target text
      = { reset p with
          emitted := (reset p).emitted ++ [Signal.statusMessage Status.erreurEncodage] } := by
  simp only [sendDirect, reset_eq, List.isEmpty_iff, hF, hS, if_true, if_false, emit]
  simp

theorem sendDirect_start (p : ChatProtocol) (target text : QString)
    (hF : fragmentBroadcast p.m_myId (left (leftJustified target 2 '0'.toNat) 2) text ≠ [])
    (hS : ¬ prepareTxWaveform
      (fragmentBroadcast p.m_myId (left (leftJustified target 2 '0'.toNat) 2) text) ≤ 0) :
    sendDirect p target text
      = { reset p with
          m_broadcastMode := true
          m_targetId := left (leftJustified target 2 '0'.toNat) 2
          m_fragments :=
            fragmentBroadcast p.m_myId (left (leftJustified target 2 '0'.toNat) 2) text
          m_state := State.DirectTx
          emitted := (reset p).emitted ++
            [Signal.stateChanged State.DirectTx,
             Signal.statusMessage (Status.emissionDirecte
               (left (leftJustified target 2 '0'.toNat) 2)
               (fragmentBroadcast p.m_myId (left (leftJustified target 2 '0'.toNat) 2)
                 text).length
               ((fragmentBroadcast p.m_myId (left (leftJustified target 2 '0'.toNat) 2)
                 text).length * 15)),
             Signal.fragmentProgress 0
               (fragmentBroadcast p.m_myId (left (leftJustified target 2 '0'.toNat) 2)
                 text).length false,
             Signal.directTxReady
               (prepareTxWaveform
                 (fragmentBroadcast p.m_myId (left (leftJustified target 2 '0'.toNat) 2) text))
               (fragmentBroadcast p.m_myId (left (leftJustified target 2 '0'.toNat) 2)
                 text).length] } := by
  simp only [sendDirect, reset_eq, setState_eq, List.isEmpty_iff, hF, hS, if_true, if_false, emit]
  simp


theorem prepareTxWaveform_pos (fragments : QStringList) (h0 : fragments ≠ [])
    (h : fragments.length ≤ 2982) : 0 < prepareTxWaveform fragments := by
  rw [prepareTxWaveform_eq fragments h]
  have hpos : 0 < fragments.length := List.length_pos.mpr h0
  have : 0 < (fragments.length * 720000 + 7679) / 7680 := by omega
  exact_mod_cast this

/-- With a text that does not filter to nothing, `sendDirect` starts the direct
emission. -/
theorem sendDirect_ready (p : ChatProtocol) (target text : QString)
    (h : filterFT8Text text MAX_MESSAGE_LEN ≠ []) :
    sendDirect p target text
      = { reset p with
          m_broadcastMode := true
          m_targetId := left (leftJustified target 2 '0'.toNat) 2
          m_fragments :=
            fragmentBroadcast p.m_myId (left (leftJustified target 2 '0'.toNat) 2) text
          m_state := State.DirectTx
          emitted := (reset p).emitted ++
            [Signal.stateChanged State.DirectTx,
             Signal.statusMessage (Status.emissionDirecte
               (left (leftJustified target 2 '0'.toNat) 2)
               (fragmentBroadcast p.m_myId (left (leftJustified target 2 '0'.toNat) 2)
                 text).length
               ((fragmentBroadcast p.m_myId (left (leftJustified target 2 '0'.toNat) 2)
                 text).length * 15)),
             Signal.fragmentProgress 0
               (fragmentBroadcast p.m_myId (left (leftJustified target 2 '0'.toNat) 2)
                 text).length false,
             Signal.directTxReady
               (prepareTxWaveform
                 (fragmentBroadcast p.m_myId (left (leftJustified target 2 '0'.toNat) 2) text))
               (fragmentBroadcast p.m_myId (left (leftJustified target 2 '0'.toNat) 2)
                 text).length] } := by
  have hF := fragmentBroadcast_ne_nil p.m_myId (left (leftJustified target 2 '0'.toNat) 2) text h
  have hL := fragmentBroadcast_length_le p.m_myId (left (leftJustified target 2 '0'.toNat) 2) text
  have hpos := prepareTxWaveform_pos _ hF (by omega)
  exact sendDirect_start p target text hF (by omega)

theorem sendDirect_targetId (p : ChatProtocol) (target text : QString) :
    (sendDirect p target text).m_targetId = left (leftJustified target 2 '0'.toNat) 2 := by
  by_cases h : filterFT8Text text MAX_MESSAGE_LEN = []
  · rw [sendDirect_empty p target text (fragmentBroadcast_empty _ _ _ h)]
  · rw [sendDirect_ready p target text h]

theorem sendDirect_fragments (p : ChatProtocol) (target text : QString) :
    (sendDirect p target text).m_fragments
      = fragmentBroadcast p.m_myId (left (leftJustified target 2 '0'.toNat) 2) text := by
  by_cases h : filterFT8Text text MAX_MESSAGE_LEN = []
  · rw [sendDirect_empty p target text (fragmentBroadcast_empty _ _ _ h),
      fragmentBroadcast_empty _ _ _ h]
    simp [reset_eq]
  · rw [sendDirect_ready p target text h]


/-- The start of a session is cancelled by a `send` call with a text that
filters to nothing: a session in progress is reset, and the reset reports the
return to `Idle`. -/
theorem empty_message_counterexample :
    filterFT8Text (qs "") MAX_MESSAGE_LEN = []
      ∧ (sendMessage (setMyId init (qs "01")) (qs "02") (qs "HELLO")).m_state
          = State.SendingFragment
      ∧ emittedSince (sendMessage (setMyId init (qs "01")) (qs "02") (qs "HELLO"))
          (sendMessage (sendMessage (setMyId init (qs "01")) (qs "02") (qs "HELLO"))
            (qs "02") (qs ""))
          = [Signal.stateChanged State.Idle]
      ∧ emittedSince (sendMessage (setMyId init (qs "01")) (qs "02") (qs "HELLO"))
          (sendBroadcast (sendMessage (setMyId init (qs "01")) (qs "02") (qs "HELLO"))
            (qs "02") (qs ""))
          = [Signal.stateChanged State.Idle]
      ∧ emittedSince (sendMessage (setMyId init (qs "01")) (qs "02") (qs "HELLO"))
          (sendDirect (sendMessage (setMyId init (qs "01")) (qs "02") (qs "HELLO"))
            (qs "02") (qs ""))
          = [Signal.stateChanged State.Idle] := by
  decide

/-- C21 (amended): from every engine state, for every target and every text
whose filtered form has zero length, `sendMessage(target, text)`,
`sendBroadcast(target, text)` and `sendDirect(target, text)` start no session:
they reset the engine (state `Idle`, no fragments, every session member
cleared), then store the normalised target (and `broadcastMode = true` for
`sendBroadcast` and `sendDirect`).  No `statusMessage`, `fragmentProgress` or
`directTxReady` is emitted; the only signal is the `stateChanged(Idle)` of the
reset, emitted exactly when the state was not `Idle` before the call. -/
theorem empty_message (p : ChatProtocol) (target text : QString)
    (h : filterFT8Text text MAX_MESSAGE_LEN = []) :
    sendMessage p target text
        = { reset p with m_targetId := left (leftJustified target 2 '0'.toNat) 2 }
      ∧ sendBroadcast p target text
        = { reset p with m_broadcastMode := true,
                         m_targetId := left (leftJustified target 2 '0'.toNat) 2 }
      ∧ sendDirect p target text = sendBroadcast p target text
      ∧ (reset p).m_state = State.Idle
      ∧ (reset p).m_fragments = []
      ∧ emittedSince p (reset p)
        = if p.m_state = State.Idle then [] else [Signal.stateChanged State.Idle] := by
  have e1 : sendMessage p target text
        = { reset p with m_targetId := left (leftJustified target 2 '0'.toNat) 2 } := by
    simp [sendMessage, fragmentMessage_empty _ _ _ h, reset_eq]
  have e2 : sendBroadcast p target text
        = { reset p with m_broadcastMode := true,
                         m_targetId := left (leftJustified target 2 '0'.toNat) 2 } := by
    simp [sendBroadcast, fragmentBroadcast_empty _ _ _ h, reset_eq]
  have e3 : sendDirect p target text
        = { reset p with m_broadcastMode := true,
                         m_targetId := left (leftJustified target 2 '0'.toNat) 2 } := by
    rw [sendDirect_empty p target text (fragmentBroadcast_empty _ _ _ h)]
  refine ⟨e1, e2, e3.trans e2.symm, ?_, ?_, ?_⟩
  · simp [reset_eq]
  · simp [reset_eq]
  · simp [reset_eq, emittedSince]

theorem empty_message_witness :
    sendMessage init (qs "02") (qs "!!!")
      = { reset init with m_targetId := left (leftJustified (qs "02") 2 '0'.toNat) 2 } :=
  (empty_message init (qs "02") (qs "!!!") (by decide)).1


/-- C22: what `setMyId` stores.  The result always has two characters and an
input of two characters or more is cut to its first two; an input of one
character `c` is stored as `c` followed by `'0'` (the padding of
`leftJustified` goes on the right): `"5"` becomes `"50"`, not `"05"`.  The empty
input becomes `"00"`.  The targets of `sendMessage`, `sendBroadcast` and
`sendDirect` are normalised by the same expression. -/
theorem setMyId_pads_on_the_right (p : ChatProtocol) :
    (setMyId p (qs "5")).m_myId = qs "50"
      ∧ (setMyId p (qs "5")).m_myId ≠ qs "05"
      ∧ (setMyId p (qs "")).m_myId = qs "00"
      ∧ (∀ id : QString, ((setMyId p id).m_myId).length = 2)
      ∧ (∀ c : Nat, (setMyId p [c]).m_myId = [c, '0'.toNat])
      ∧ (∀ (a b : Nat) (rest : QString), (setMyId p (a :: b :: rest)).m_myId = [a, b])
      ∧ (∀ target text : QString,
          (sendMessage p target text).m_targetId = (setMyId p target).m_myId
            ∧ (sendBroadcast p target text).m_targetId = (setMyId p target).m_myId
            ∧ (sendDirect p target text).m_targetId = (setMyId p target).m_myId) := by
  refine ⟨by simp [setMyId]; decide, by simp [setMyId]; decide, by simp [setMyId]; decide,
    ?_, ?_, ?_, ?_⟩
  · intro id
    exact normId_length id _
  · intro c
    simp [setMyId, left, leftJustified]
  · intro a b rest
    simp [setMyId, left, leftJustified]
  · intro target text
    refine ⟨?_, ?_, ?_⟩
    · simp only [sendMessage, setMyId, setState_eq, emit]
      split_ifs <;> rfl
    · simp only [sendBroadcast, setMyId, setState_eq, emit]
      split_ifs <;> rfl
    · rw [sendDirect_targetId]
      rfl


theorem stateTrace_append (a b : List Signal) :
    ∀ s : State, stateTrace s (a ++ b) = (stateTrace s a).bind (fun t => stateTrace t b) := by
  induction a with
  | nil => intro s; simp [stateTrace]
  | cons x a ih =>
    intro s
    cases x <;> simp [stateTrace, ih]
    split_ifs <;> simp

theorem faithful_of_append (p q : ChatProtocol) (evs : List Signal)
    (h : q.emitted = p.emitted ++ evs) (ht : stateTrace p.m_state evs = some q.m_state) :
    Faithful p q :=
  ⟨⟨evs, h.symm⟩, by rw [emittedSince_append p q evs h]; exact ht⟩

theorem faithful_refl (p : ChatProtocol) : Faithful p p :=
  faithful_of_append p p [] (by simp) rfl

theorem faithful_trans {p q r : ChatProtocol} (h1 : Faithful p q) (h2 : Faithful q r) :
    Faithful p r := by
  obtain ⟨⟨a, ha⟩, ta⟩ := h1
  obtain ⟨⟨b, hb⟩, tb⟩ := h2
  rw [emittedSince_append p q a ha.symm] at ta
  rw [emittedSince_append q r b hb.symm] at tb
  apply faithful_of_append p r (a ++ b)
  · rw [← hb, ← ha, List.append_assoc]
  · rw [stateTrace_append, ta]
    exact tb

theorem faithful_reset (p : ChatProtocol) : Faithful p (reset p) := by
  rw [reset_eq]
  split_ifs <;> simp_all [Faithful, emittedSince, stateTrace]

theorem faithful_sendMessage (p : ChatProtocol) (targetId text : QString) :
    Faithful p (sendMessage p targetId text) := by
  unfold sendMessage
  simp only [setState_eq, emit, reset_eq]
  split_ifs <;> simp_all [Faithful, emittedSince, stateTrace]

theorem faithful_sendBroadcast (p : ChatProtocol) (targetId text : QString) :
    Faithful p (sendBroadcast p targetId text) := by
  unfold sendBroadcast
  simp only [setState_eq, emit, reset_eq]
  split_ifs <;> simp_all [Faithful, emittedSince, stateTrace]

theorem faithful_sendDirect (p : ChatProtocol) (targetId text : QString) :
    Faithful p (sendDirect p targetId text) := by
  by_cases hF : fragmentBroadcast p.m_myId (left (leftJustified targetId 2 '0'.toNat) 2) text = []
  · rw [sendDirect_empty p targetId text hF, reset_eq]
    split_ifs <;> simp_all [Faithful, emittedSince, stateTrace]
  · by_cases hS : prepareTxWaveform
        (fragmentBroadcast p.m_myId (left (leftJustified targetId 2 '0'.toNat) 2) text) ≤ 0
    · rw [sendDirect_error p targetId text hF hS, reset_eq]
      split_ifs <;> simp_all [Faithful, emittedSince, stateTrace]
    · rw [sendDirect_start p targetId text hF hS, reset_eq]
      split_ifs <;> simp_all [Faithful, emittedSince, stateTrace]

theorem faithful_processIncoming (p : ChatProtocol) (text : QString) :
    Faithful p (processIncoming p text) := by
  unfold processIncoming
  simp only [deliverReceivedMessage, setState_eq, emit, reset_eq, scheduleAutoReturn]
  split_ifs <;> simp_all [Faithful, emittedSince, stateTrace]

theorem faithful_nextTxText (p : ChatProtocol) : Faithful p (nextTxText p).2 := by
  unfold nextTxText
  simp only [setState_eq, emit, scheduleAutoReturn]
  split_ifs <;> simp_all [Faithful, emittedSince, stateTrace]

theorem faithful_haltTx (p : ChatProtocol) : Faithful p (haltTx p) := by
  unfold haltTx
  simp only [emit, reset_eq]
  split_ifs <;> simp_all [Faithful, emittedSince, stateTrace]

theorem faithful_notifyDirectTxComplete (p : ChatProtocol) :
    Faithful p (notifyDirectTxComplete p) := by
  unfold notifyDirectTxComplete
  simp only [setState_eq, emit, scheduleAutoReturn]
  split_ifs <;> simp_all [Faithful, emittedSince, stateTrace]

theorem faithful_onTimeout (p : ChatProtocol) : Faithful p (onTimeout p) := by
  unfold onTimeout
  simp only [emit, reset_eq]
  split_ifs <;> simp_all [Faithful, emittedSince, stateTrace]

theorem faithful_onRxComplete (p : ChatProtocol) : Faithful p (onRxComplete p) := by
  unfold onRxComplete
  simp only [deliverReceivedMessage, setState_eq, emit]
  split_ifs <;> simp_all [Faithful, emittedSince, stateTrace]

theorem faithful_onDirectTxTick (p : ChatProtocol) (elapsedMs : Int) :
    Faithful p (onDirectTxTick p elapsedMs) := by
  unfold onDirectTxTick
  simp only [emit]
  split_ifs <;> simp_all [Faithful, emittedSince, stateTrace]

theorem faithful_autoReturn (p : ChatProtocol) : Faithful p (autoReturn p) := by
  unfold autoReturn
  simp only [setState_eq]
  split_ifs <;> simp_all [Faithful, emittedSince, stateTrace]

/-- Every call reports the changes of state it makes. -/
theorem faithful_step (p : ChatProtocol) (op : Op) : Faithful p (step p op) := by
  cases op with
  | setMyId id => exact faithful_of_append _ _ [] (by simp [step, setMyId]) rfl
  | sendMessage targetId text => exact faithful_sendMessage p targetId text
  | sendBroadcast targetId text => exact faithful_sendBroadcast p targetId text
  | sendDirect targetId text => exact faithful_sendDirect p targetId text
  | prepareTxWaveform fragments => exact faithful_refl p
  | processIncoming freeText => exact faithful_processIncoming p freeText
  | nextTxText => exact faithful_nextTxText p
  | haltTx => exact faithful_haltTx p
  | notifyDirectTxComplete => exact faithful_notifyDirectTxComplete p
  | startDirectTxTracking =>
    have h := faithful_onDirectTxTick
      { p with m_directTxCurrentFrag := -1, m_directTxTracker := true } 0
    exact h
  | timeout => exact faithful_onTimeout p
  | rxComplete => exact faithful_onRxComplete p
  | directTxTick elapsedMs => exact faithful_onDirectTxTick p elapsedMs
  | autoReturn => exact faithful_autoReturn p

theorem run_append (p : ChatProtocol) (ops : List Op) (op : Op) :
    run p (ops ++ [op]) = step (run p ops) op := by
  simp [run, List.foldl_append]

theorem faithful_run (p : ChatProtocol) (ops : List Op) : Faithful p (run p ops) := by
  induction ops using List.reverseRecOn with
  | nil => exact faithful_refl p
  | append_singleton ops op ih =>
    rw [run_append]
    exact faithful_trans ih (faithful_step _ op)

theorem getLast?_getD_cons (a d : State) (l : List State) :
    (a :: l).getLast?.getD d = l.getLast?.getD a := by
  cases l with
  | nil => rfl
  | cons y ys =>
    rw [List.getLast?_cons_cons]
    obtain ⟨z, hz⟩ : ∃ z, (y :: ys).getLast? = some z :=
      ⟨(y :: ys).getLast (by simp), List.getLast?_eq_getLast _ _⟩
    rw [hz]
    rfl

/-- What `stateTrace` checks, in terms of the list of `stateChanged` arguments. -/
theorem stateTrace_spec (evs : List Signal) :
    ∀ s t : State, stateTrace s evs = some t ↔
      (List.Chain (fun a b => a ≠ b) s (stateArgs evs)
        ∧ (stateArgs evs).getLast?.getD s = t) := by
  induction evs with
  | nil => intro s t; simp [stateTrace, stateArgs]
  | cons x evs ih =>
    intro s t
    cases x
    case stateChanged s' =>
      simp only [stateTrace, stateArgs, List.chain_cons]
      by_cases h : s = s'
      · simp [h]
      · simp only [h, if_false, ih s' t, not_false_eq_true, true_and, ne_eq,
          getLast?_getD_cons]
    all_goals simp only [stateTrace, stateArgs, ih s t]


theorem fragmentMessage_mem_ne_nil (sender target text : QString) :
    ∀ f ∈ fragmentMessage sender target text, f ≠ [] := by
  intro f hf
  by_cases h : filterFT8Text text MAX_MESSAGE_LEN = []
  · rw [fragmentMessage_empty _ _ _ h] at hf
    simp at hf
  · rw [fragmentMessage_eq _ _ _ h, List.mem_cons] at hf
    rcases hf with rfl | hf
    · simp [qs]
    · have := mem_slotsFrom hf
      intro h0
      simp [h0] at this

theorem appendAR_mem_ne_nil (result : QStringList) (h : ∀ f ∈ result, f ≠ []) :
    ∀ f ∈ appendAR result, f ≠ [] := by
  unfold appendAR
  cases hr : result.getLast? with
  | none => simpa using h
  | some last =>
    simp only []
    split_ifs
    · intro f hf
      rw [List.mem_append, List.mem_singleton] at hf
      rcases hf with hf | rfl
      · exact h f (List.mem_of_mem_dropLast hf)
      · simp [qs]
    · intro f hf
      rw [List.mem_append, List.mem_singleton] at hf
      rcases hf with hf | rfl
      · exact h f hf
      · decide

theorem fragmentBroadcast_mem_ne_nil (sender target text : QString) :
    ∀ f ∈ fragmentBroadcast sender target text, f ≠ [] := by
  rw [fragmentBroadcast_eq_appendAR]
  exact appendAR_mem_ne_nil _ (fragmentMessage_mem_ne_nil sender target text)

/-- The payload of a trimmed header frame is not empty: the frame does not end
with the space of its header. -/
theorem headerPayload_ne_nil (text : QString) (h : isHeader (trimmed text) = true) :
    headerPayload (trimmed text) ≠ [] := by
  obtain ⟨a, b, c, d, u, hu, _⟩ := isHeader_shape h
  have hp : headerPayload (trimmed text) = u := by
    rw [hu] at h ⊢
    exact headerPayload_shape a b c d u h
  rw [hp]
  intro h0
  subst h0
  have hl : (trimmed text).getLast? = some 32 := by rw [hu]; rfl
  have := trimmed_last text 32 hl
  simp [isSpace] at this

theorem txInv_init : TxInv init := by
  simp [TxInv, init]

theorem txInv_reset (p : ChatProtocol) : TxInv (reset p) := by
  simp [TxInv, reset_eq]

theorem txInv_sendMessage (p : ChatProtocol) (targetId text : QString) :
    TxInv (sendMessage p targetId text) := by
  have hf := fragmentMessage_mem_ne_nil p.m_myId (left (leftJustified targetId 2 '0'.toNat) 2) text
  unfold sendMessage
  simp only [setState_eq, emit, reset_eq]
  split_ifs <;> simp_all [TxInv, List.length_pos]

theorem txInv_sendBroadcast (p : ChatProtocol) (targetId text : QString) :
    TxInv (sendBroadcast p targetId text) := by
  have hf := fragmentBroadcast_mem_ne_nil p.m_myId
    (left (leftJustified targetId 2 '0'.toNat) 2) text
  unfold sendBroadcast
  simp only [setState_eq, emit, reset_eq]
  split_ifs <;> simp_all [TxInv, List.length_pos]

theorem txInv_sendDirect (p : ChatProtocol) (targetId text : QString) :
    TxInv (sendDirect p targetId text) := by
  have hf := fragmentBroadcast_mem_ne_nil p.m_myId
    (left (leftJustified targetId 2 '0'.toNat) 2) text
  by_cases hF : fragmentBroadcast p.m_myId (left (leftJustified targetId 2 '0'.toNat) 2) text = []
  · rw [sendDirect_empty p targetId text hF]
    simp [TxInv, reset_eq]
  · by_cases hS : prepareTxWaveform
        (fragmentBroadcast p.m_myId (left (leftJustified targetId 2 '0'.toNat) 2) text) ≤ 0
    · rw [sendDirect_error p targetId text hF hS]
      simp [TxInv, reset_eq]
    · rw [sendDirect_start p targetId text hF hS]
      simp only [TxInv, reset_eq]
      simp_all

theorem txInv_processIncoming (p : ChatProtocol) (text : QString) (h : TxInv p) :
    TxInv (processIncoming p text) := by
  have hp : isHeader (trimmed text) = true → headerPayload (trimmed text) ≠ [] :=
    headerPayload_ne_nil text
  obtain ⟨h1, h2, h3, h4⟩ := h
  unfold processIncoming
  simp only [deliverReceivedMessage, setState_eq, emit, reset_eq, scheduleAutoReturn]
  split_ifs <;> simp_all [TxInv]
  all_goals
    rintro x (hx | rfl)
    · exact h4 x hx
    · assumption

theorem txInv_nextTxText (p : ChatProtocol) (h : TxInv p) : TxInv (nextTxText p).2 := by
  obtain ⟨h1, h2, h3, h4⟩ := h
  unfold nextTxText
  simp only [setState_eq, emit, scheduleAutoReturn]
  split_ifs <;> simp_all [TxInv]

theorem txInv_notifyDirectTxComplete (p : ChatProtocol) (h : TxInv p) :
    TxInv (notifyDirectTxComplete p) := by
  obtain ⟨h1, h2, h3, h4⟩ := h
  unfold notifyDirectTxComplete
  simp only [setState_eq, emit, scheduleAutoReturn]
  split_ifs <;> simp_all [TxInv]

theorem txInv_onTimeout (p : ChatProtocol) (h : TxInv p) : TxInv (onTimeout p) := by
  obtain ⟨h1, h2, h3, h4⟩ := h
  unfold onTimeout
  simp only [emit, reset_eq]
  split_ifs <;> simp_all [TxInv]
  exact h3

theorem txInv_onRxComplete (p : ChatProtocol) (h : TxInv p) : TxInv (onRxComplete p) := by
  obtain ⟨h1, h2, h3, h4⟩ := h
  unfold onRxComplete
  simp only [deliverReceivedMessage, setState_eq, emit]
  split_ifs <;> simp_all [TxInv]

theorem txInv_onDirectTxTick (p : ChatProtocol) (elapsedMs : Int) (h : TxInv p) :
    TxInv (onDirectTxTick p elapsedMs) := by
  obtain ⟨h1, h2, h3, h4⟩ := h
  unfold onDirectTxTick
  simp only [emit]
  split_ifs <;> simp_all [TxInv]

theorem txInv_autoReturn (p : ChatProtocol) (h : TxInv p) : TxInv (autoReturn p) := by
  obtain ⟨h1, h2, h3, h4⟩ := h
  unfold autoReturn
  simp only [setState_eq]
  split_ifs <;> simp_all [TxInv]

theorem txInv_step (p : ChatProtocol) (op : Op) (h : TxInv p) : TxInv (step p op) := by
  cases op with
  | setMyId id => exact h
  | sendMessage targetId text => exact txInv_sendMessage p targetId text
  | sendBroadcast targetId text => exact txInv_sendBroadcast p targetId text
  | sendDirect targetId text => exact txInv_sendDirect p targetId text
  | prepareTxWaveform fragments => exact h
  | processIncoming freeText => exact txInv_processIncoming p freeText h
  | nextTxText => exact txInv_nextTxText p h
  | haltTx =>
    have := txInv_reset p
    exact this
  | notifyDirectTxComplete => exact txInv_notifyDirectTxComplete p h
  | startDirectTxTracking =>
    have h' : TxInv { p with m_directTxCurrentFrag := -1, m_directTxTracker := true } := h
    exact txInv_onDirectTxTick _ 0 h'
  | timeout => exact txInv_onTimeout p h
  | rxComplete => exact txInv_onRxComplete p h
  | directTxTick elapsedMs => exact txInv_onDirectTxTick p elapsedMs h
  | autoReturn => exact txInv_autoReturn p h

theorem txInv_run (ops : List Op) : TxInv (run init ops) := by
  induction ops using List.reverseRecOn with
  | nil => exact txInv_init
  | append_singleton ops op ih =>
    rw [run_append]
    exact txInv_step _ op ih


theorem getD_ne_nil (l : QStringList) (i : Nat) (hi : i < l.length)
    (h : ∀ f ∈ l, f ≠ []) : l.getD i [] ≠ [] := by
  rw [List.getD_eq_getElem _ _ hi]
  exact h _ (List.getElem_mem _)

/-- C23: `nextTxText` returns text exactly when there is data to send.  After
every sequence of public operations and timer firings from the initial state,
`nextTxText()` returns a non-empty string if and only if `hasDataToSend()` is
true just before the call, and the tests `fragIndex >= fragments.size()` of its
branches `SendingFragment` and `Broadcasting` are false.  For every engine `q`,
`hasDataToSend()` is true exactly in the states `SendingFragment`, `EchoReady`
and `Broadcasting`, and when it is false `nextTxText()` returns the empty string
and leaves the engine, its log of signals included, as it is. -/
theorem nextTxText_data (ops : List Op) (q : ChatProtocol) :
    ((nextTxText (run init ops)).1 ≠ [] ↔ hasDataToSend (run init ops) = true)
      ∧ ((run init ops).m_state = State.SendingFragment →
          ¬ (run init ops).m_fragIndex ≥ (run init ops).m_fragments.length)
      ∧ ((run init ops).m_state = State.Broadcasting →
          ¬ (run init ops).m_fragIndex ≥ (run init ops).m_fragments.length)
      ∧ (hasDataToSend q = true ↔
          (q.m_state = State.SendingFragment ∨ q.m_state = State.EchoReady
            ∨ q.m_state = State.Broadcasting))
      ∧ (hasDataToSend q = false → nextTxText q = ([], q)) := by
  obtain ⟨h1, h2, h3, _⟩ := txInv_run ops
  generalize run init ops = p at h1 h2 h3
  refine ⟨?_, ?_, ?_, ?_, ?_⟩
  · by_cases hs : p.m_state = State.SendingFragment
    · have hi := h1 (Or.inl hs)
      have hne := getD_ne_nil _ _ hi h2
      rw [List.getD_eq_getElem?_getD] at hne
      simp [nextTxText, hasDataToSend, hs, Nat.not_le.mpr hi, setState_eq, emit, hne]
    · by_cases hb : p.m_state = State.Broadcasting
      · have hi := h1 (Or.inr (Or.inr hb))
        have hne := getD_ne_nil _ _ hi h2
        rw [List.getD_eq_getElem?_getD] at hne
        by_cases hl : p.m_fragments.length ≤ p.m_fragIndex + 1 <;>
          simp [nextTxText, hasDataToSend, hb, Nat.not_le.mpr hi, setState_eq, emit, hne, hl,
            scheduleAutoReturn]
      · by_cases he : p.m_state = State.EchoReady
        · have hne := h3 he
          simp [nextTxText, hasDataToSend, he, setState_eq, emit, hne]
        · simp [nextTxText, hasDataToSend, hs, hb, he]
  · intro hs
    have := h1 (Or.inl hs)
    omega
  · intro hs
    have := h1 (Or.inr (Or.inr hs))
    omega
  · simp [hasDataToSend, or_assoc]
  · intro h
    simp only [hasDataToSend, Bool.or_eq_false_iff, beq_eq_false_iff_ne, ne_eq] at h
    obtain ⟨⟨hs, he⟩, hb⟩ := h
    simp [nextTxText, hs, he, hb]

theorem nextTxText_data_witness :
    (nextTxText (run init [Op.setMyId (qs "01"), Op.sendMessage (qs "02") (qs "HELLO")])).1 ≠ []
      ∧ nextTxText init = ([], init) :=
  ⟨(nextTxText_data [Op.setMyId (qs "01"), Op.sendMessage (qs "02") (qs "HELLO")] init).1.mpr
      (by decide),
    (nextTxText_data [] init).2.2.2.2 (by decide)⟩


/-- C24: state notifications are faithful.  After every sequence of public
operations and timer firings from the initial state, the arguments of the
`stateChanged` signals emitted so far, preceded by `Idle`, never repeat a state
twice in a row, and the last of them (`Idle` if there is none) is the state of
the engine.  The same holds of each single call from any engine `q`: the signals
it emits are appended to the log, their `stateChanged` arguments preceded by
the state of `q` never repeat a state twice in a row, and the last of them (the
state of `q` if there is none) is the state after the call. -/
theorem state_notifications_faithful (ops : List Op) (q : ChatProtocol) (op : Op) :
    (List.Chain (fun a b => a ≠ b) State.Idle (stateArgs (run init ops).emitted)
        ∧ (stateArgs (run init ops).emitted).getLast?.getD State.Idle
            = (run init ops).m_state)
      ∧ q.emitted <+: (step q op).emitted
      ∧ List.Chain (fun a b => a ≠ b) q.m_state (stateArgs (emittedSince q (step q op)))
      ∧ (stateArgs (emittedSince q (step q op))).getLast?.getD q.m_state
          = (step q op).m_state := by
  have h1 := (faithful_run init ops).2
  have h0 : emittedSince init (run init ops) = (run init ops).emitted := by
    simp [emittedSince, init]
  rw [h0] at h1
  have h2 := faithful_step q op
  exact ⟨(stateTrace_spec _ _ _).mp h1, h2.1, (stateTrace_spec _ _ _).mp h2.2⟩


theorem endsWithChar_append (pre x : QString) (c : Nat) (hx : x ≠ []) :
    endsWithChar (pre ++ x) c = endsWithChar x c := by
  unfold endsWithChar
  rw [List.getLast?_append_of_ne_nil _ hx]

/-- The reassembly loop on payloads of which only the last may be empty: the
space it inserts depends on the two payloads that meet. -/
theorem joinPayloads_spaced (ps : QStringList) :
    ∀ (pre x z : QString), x ≠ [] → (∀ y ∈ ps, y ≠ []) →
      joinPayloads (ps ++ [z]) (pre ++ x) = pre ++ spacedConcat (x :: (ps ++ [z])) := by
  induction ps with
  | nil =>
    intro pre x z hx _
    have he : (pre ++ x).isEmpty = false := by
      cases pre <;> cases x <;> simp_all
    simp only [List.nil_append, joinPayloads, spacedConcat, he, endsWithChar_append pre x _ hx,
      Bool.not_false, Bool.true_and]
    split_ifs <;> simp
  | cons q rest ih =>
    intro pre x z hx hps
    have hq : q ≠ [] := hps q (by simp)
    have hrest : ∀ y ∈ rest, y ≠ [] := fun y hy => hps y (by simp [hy])
    have he : (pre ++ x).isEmpty = false := by
      cases pre <;> cases x <;> simp_all
    simp only [List.cons_append, joinPayloads, spacedConcat, he, endsWithChar_append pre x _ hx,
      Bool.not_false, Bool.true_and, List.append_eq]
    split_ifs with hc
    · have := ih (pre ++ x ++ qs " ") q z hq hrest
      simp only [List.append_assoc] at this ⊢
      rw [this]
    · have := ih (pre ++ x) q z hq hrest
      simp only [List.append_assoc] at this ⊢
      rw [this]
      simp

theorem joinPayloads_eq_spacedConcat (l : QStringList) (h : ∀ y ∈ l.dropLast, y ≠ []) :
    joinPayloads l [] = spacedConcat l := by
  match l, h with
  | [], _ => rfl
  | [z], _ => simp [joinPayloads, spacedConcat]
  | x :: y :: rest, h =>
    obtain ⟨ps, z, hl⟩ : ∃ ps z, y :: rest = ps ++ [z] :=
      ⟨(y :: rest).dropLast, (y :: rest).getLast (by simp),
        (List.dropLast_append_getLast _).symm⟩
    have hd : (x :: y :: rest).dropLast = x :: ps := by
      rw [hl]
      simp [List.dropLast_cons_of_ne_nil]
    rw [hd] at h
    have hx : x ≠ [] := h x (by simp)
    have hps : ∀ y ∈ ps, y ≠ [] := fun y hy => h y (by simp [hy])
    have := joinPayloads_spaced ps [] x z hx hps
    rw [hl]
    simp only [List.nil_append] at this
    rw [← this]
    simp [joinPayloads]

theorem deliverReceivedMessage_eq (q : ChatProtocol) (hne : q.m_rxPayloads ≠ []) :
    deliverReceivedMessage q = { q with
      m_rxSenderId := []
      m_rxPayloads := []
      m_echoText := []
      m_rxCompleteTimer := false
      m_state := State.Idle
      emitted := q.emitted ++
        ((if q.m_state = State.Idle then [] else [Signal.stateChanged State.Idle])
          ++ [Signal.messageReceived q.m_rxSenderId (trimmed (joinPayloads q.m_rxPayloads [])),
              Signal.statusMessage (Status.messageComplet q.m_rxSenderId)]) } := by
  simp [deliverReceivedMessage, hne, setState_eq, emit]

/-- C27: reassembled text.  After every sequence of public operations and timer
firings from the initial state, if the `rxPayloads` list `p1..pn` is not empty
then `deliverReceivedMessage` emits `messageReceived(s, M)` once, with `s` the
buffered sender id and `M` the trimmed concatenation of `p1..pn` in order with
one space between two adjacent payloads when the left one does not end with a
space and the right one does not start with one; `rxSenderId`, `rxPayloads` and
`echoText` are then empty, the state is `Idle`, and the `stateChanged(Idle)`,
emitted when the state was not `Idle`, comes before `messageReceived`.  The same
holds of every engine `q` whose `rxPayloads` list is not empty and has no empty
payload except perhaps the last (the list at the calls made by
`processIncoming`, where the `stripAR` of the frame has just been appended).
With an empty `rxPayloads` list the engine is left as it is. -/
theorem reassembled_text (ops : List Op) (q : ChatProtocol) :
    ((run init ops).m_rxPayloads ≠ [] →
        deliverReceivedMessage (run init ops) = { (run init ops) with
          m_rxSenderId := []
          m_rxPayloads := []
          m_echoText := []
          m_rxCompleteTimer := false
          m_state := State.Idle
          emitted := (run init ops).emitted ++
            ((if (run init ops).m_state = State.Idle then []
              else [Signal.stateChanged State.Idle])
              ++ [Signal.messageReceived (run init ops).m_rxSenderId
                    (trimmed (spacedConcat (run init ops).m_rxPayloads)),
                  Signal.statusMessage
                    (Status.messageComplet (run init ops).m_rxSenderId)]) })
      ∧ (q.m_rxPayloads ≠ [] → (∀ y ∈ q.m_rxPayloads.dropLast, y ≠ []) →
          deliverReceivedMessage q = { q with
            m_rxSenderId := []
            m_rxPayloads := []
            m_echoText := []
            m_rxCompleteTimer := false
            m_state := State.Idle
            emitted := q.emitted ++
              ((if q.m_state = State.Idle then [] else [Signal.stateChanged State.Idle])
                ++ [Signal.messageReceived q.m_rxSenderId
                      (trimmed (spacedConcat q.m_rxPayloads)),
                    Signal.statusMessage (Status.messageComplet q.m_rxSenderId)]) })
      ∧ (q.m_rxPayloads = [] → deliverReceivedMessage q = q) := by
  refine ⟨?_, ?_, ?_⟩
  · intro hne
    have hd : ∀ y ∈ (run init ops).m_rxPayloads.dropLast, y ≠ [] :=
      fun y hy => (txInv_run ops).2.2.2 y (List.mem_of_mem_dropLast hy)
    rw [deliverReceivedMessage_eq _ hne, joinPayloads_eq_spacedConcat _ hd]
  · intro hne hd
    rw [deliverReceivedMessage_eq q hne, joinPayloads_eq_spacedConcat _ hd]
  · intro h
    simp [deliverReceivedMessage, h]

theorem reassembled_text_witness :
    (deliverReceivedMessage (run init [Op.setMyId (qs "02"),
        Op.processIncoming (qs "0102 HELLO WO"), Op.nextTxText,
        Op.processIncoming (qs "RLD")])).emitted
      = (run init [Op.setMyId (qs "02"), Op.processIncoming (qs "0102 HELLO WO"),
          Op.nextTxText, Op.processIncoming (qs "RLD")]).emitted
        ++ [Signal.stateChanged State.Idle,
            Signal.messageReceived (qs "01") (qs "HELLO WO RLD"),
            Signal.statusMessage (Status.messageComplet (qs "01"))] :=
  (congrArg ChatProtocol.emitted
    ((reassembled_text [Op.setMyId (qs "02"), Op.processIncoming (qs "0102 HELLO WO"),
        Op.nextTxText, Op.processIncoming (qs "RLD")] init).1 (by decide))).trans (by decide)


/-- C28: fragment count bound.  For every sender, target and text,
`fragmentMessage` returns at most 8 slots and `fragmentBroadcast` at most 9; for
a filtered text of `n ≥ 1` characters `fragmentMessage` returns exactly
`1 + ceil(max(n - 8, 0) / 13)` slots.  Hence, for the `N` fragments `sendDirect`
hands to `prepareTxWaveform`, `totalSamples = N * 720000` is at most 6,480,000,
the 32-bit products and sums are exact (no wrap-around), and the samples of the
waveform buffer written lie below index `N * 720000 ≤ 6,480,000`. -/
theorem fragment_count_bound (p : ChatProtocol) (sender target text : QString) :
    (fragmentMessage sender target text).length ≤ 8
      ∧ (fragmentBroadcast sender target text).length ≤ 9
      ∧ (1 ≤ (filterFT8Text text MAX_MESSAGE_LEN).length →
          ((fragmentMessage sender target text).length : Int)
            = 1 + ⌈((max ((filterFT8Text text MAX_MESSAGE_LEN).length - 8 : Int) 0 : Int) : ℚ)
                    / 13⌉)
      ∧ (let N : Int := (fragmentBroadcast sender target text).length
         N * 720000 ≤ 6480000
          ∧ toInt32 (N * SAMPLES_PER_PERIOD) = N * 720000
          ∧ toInt32 (toInt32 (N * SAMPLES_PER_PERIOD) + 4 * 1920 - 1) = N * 720000 + 7679
          ∧ samplesWritten (fragmentBroadcast sender target text) = N * 720000)
      ∧ samplesWritten (sendDirect p target text).m_fragments ≤ 6480000 := by
  have hb := fragmentBroadcast_length_le sender target text
  have hbI : ((fragmentBroadcast sender target text).length : Int) ≤ 9 := by exact_mod_cast hb
  have hb0 : (0 : Int) ≤ ((fragmentBroadcast sender target text).length : Int) :=
    Int.natCast_nonneg _
  refine ⟨fragmentMessage_length_le sender target text, hb, ?_, ⟨?_, ?_, ?_, ?_⟩, ?_⟩
  · intro hn
    have hne : filterFT8Text text MAX_MESSAGE_LEN ≠ [] := by
      intro h0
      rw [h0] at hn
      simp at hn
    rw [fragmentMessage_length _ _ _ hne]
    have hm : (max (((filterFT8Text text MAX_MESSAGE_LEN).length : Int) - 8) 0 : Int)
        = (((filterFT8Text text MAX_MESSAGE_LEN).length - 8 : Nat) : Int) := by omega
    rw [hm, ceil_div_13]
    push_cast
    rfl
  · omega
  · rw [SAMPLES_PER_PERIOD, toInt32_eq _ (by omega) (by omega)]
    ring
  · rw [SAMPLES_PER_PERIOD, toInt32_eq (_ * _) (by omega) (by omega),
      toInt32_eq _ (by omega) (by omega)]
    ring
  · exact samplesWritten_eq _ (by omega)
  · have hL := fragmentBroadcast_length_le p.m_myId
      (left (leftJustified target 2 '0'.toNat) 2) text
    have hI : ((fragmentBroadcast p.m_myId (left (leftJustified target 2 '0'.toNat) 2)
        text).length : Int) ≤ 9 := by exact_mod_cast hL
    rw [sendDirect_fragments, samplesWritten_eq _ (by omega)]
    omega

theorem fragment_count_bound_witness :
    ((fragmentMessage (qs "01") (qs "02") (qs "HELLO WORLD")).length : Int)
      = 1 + ⌈((max ((filterFT8Text (qs "HELLO WORLD") MAX_MESSAGE_LEN).length - 8 : Int) 0
                : Int) : ℚ) / 13⌉ :=
  (fragment_count_bound init (qs "01") (qs "02") (qs "HELLO WORLD")).2.2.1 (by decide)


/-- C29: a continuation slot can be mistaken for a header.  The text
`"AAAAAAAA0102 HI"` sent from `"01"` to `"02"` is cut into the slots
`"0102 AAAAAAAA"` and `"0102 HI"`, and the slot of index 1 satisfies `isHeader`.
An engine with `myId = "02"` that receives the first slot goes to `EchoReady`
with the payload `"AAAAAAAA"` buffered; every engine with `myId = "02"` in
`EchoReady` or `WaitingNext` handles the second slot as a new header frame: the
buffered payloads are dropped and reception restarts with
`rxPayloads = ["HI"]`, sender `"01"` and the slot as echo text. -/
theorem continuation_mistaken_for_header (p : ChatProtocol)
    (hid : p.m_myId = qs "02")
    (hs : p.m_state = State.EchoReady ∨ p.m_state = State.WaitingNext) :
    fragmentMessage (qs "01") (qs "02") (qs "AAAAAAAA0102 HI")
        = [qs "0102 AAAAAAAA", qs "0102 HI"]
      ∧ isHeader (qs "0102 HI") = true
      ∧ (processIncoming (setMyId init (qs "02")) (qs "0102 AAAAAAAA")).m_state
          = State.EchoReady
      ∧ (processIncoming (setMyId init (qs "02")) (qs "0102 AAAAAAAA")).m_rxPayloads
          = [qs "AAAAAAAA"]
      ∧ processIncoming p (qs "0102 HI") = { p with
          m_rxSenderId := qs "01"
          m_rxPayloads := [qs "HI"]
          m_echoText := qs "0102 HI"
          m_state := State.EchoReady
          emitted := p.emitted ++
            ((if p.m_state = State.EchoReady then [] else
                [Signal.stateChanged State.EchoReady])
              ++ [Signal.statusMessage (Status.recuDe (qs "01"))]) } := by
  refine ⟨by decide, by decide, by decide, by decide, ?_⟩
  have hne : p.m_state ≠ State.WaitingEcho := by
    rcases hs with h | h <;> rw [h] <;> decide
  have h1 : trimmed (qs "0102 HI") = qs "0102 HI" := by decide
  have h := processIncoming_header_start p (qs "0102 HI") hne (by rw [h1]; decide)
    (by rw [h1, hid]; decide) (by rw [h1]; decide)
  rw [h, h1]
  have h2 : headerSender (qs "0102 HI") = qs "01" := by decide
  have h3 : headerPayload (qs "0102 HI") = qs "HI" := by decide
  rw [h2, h3]

theorem continuation_mistaken_for_header_witness :
    ((nextTxText (processIncoming (setMyId init (qs "02")) (qs "0102 AAAAAAAA"))).2).m_state
        = State.WaitingNext
      ∧ ((nextTxText (processIncoming (setMyId init (qs "02")) (qs "0102 AAAAAAAA"))).2).m_rxPayloads
        = [qs "AAAAAAAA"]
      ∧ (processIncoming
          (nextTxText (processIncoming (setMyId init (qs "02")) (qs "0102 AAAAAAAA"))).2
          (qs "0102 HI")).m_rxPayloads = [qs "HI"] := by
  refine ⟨by decide, by decide, ?_⟩
  have h := (continuation_mistaken_for_header
    (nextTxText (processIncoming (setMyId init (qs "02")) (qs "0102 AAAAAAAA"))).2
    (by decide) (Or.inr (by decide))).2.2.2.2
  rw [h]


/-- A blank `lastSent` matches every text. -/
theorem echoMatch_blank (lastSent text : QString) (h : trimmed lastSent = []) :
    echoMatch lastSent text = true := by
  simp [echoMatch, h, left]

/-- C30: a blank slot stalls an echo session.  The text `"HELLO WO"`, 13 spaces,
`"X"` sent from `"01"` to `"02"` has the slots `"0102 HELLO WO"`, 13 spaces and
`"X"`.  After the first slot is echoed, `nextTxText()` returns the slot of 13
spaces and leaves the engine in `WaitingEcho`; `processIncoming` of that very
slot leaves the engine as it is (state, `fragIndex`, `retryCount`, no signal),
whereas every text that is not blank is taken as the matching echo: the echo is
reported as correct, `retryCount` is 0 and `fragIndex` advances by one. -/
theorem blank_slot_stalls :
    (sendMessage (setMyId init (qs "01")) (qs "02") blankSlotText).m_fragments
        = [qs "0102 HELLO WO", List.replicate 13 ' '.toNat, qs "X"]
      ∧ (nextTxText (echoRound
          (sendMessage (setMyId init (qs "01")) (qs "02") blankSlotText))).1
        = List.replicate 13 ' '.toNat
      ∧ blankSlotSender.m_state = State.WaitingEcho
      ∧ blankSlotSender.m_fragIndex = 1
      ∧ blankSlotSender.m_retryCount = 0
      ∧ processIncoming blankSlotSender (List.replicate 13 ' '.toNat) = blankSlotSender
      ∧ ∀ incoming : QString, trimmed incoming ≠ [] →
          (processIncoming blankSlotSender incoming).m_fragIndex = 2
            ∧ (processIncoming blankSlotSender incoming).m_retryCount = 0
            ∧ (processIncoming blankSlotSender incoming).m_state = State.SendingFragment
            ∧ emittedSince blankSlotSender (processIncoming blankSlotSender incoming)
                = [Signal.statusMessage (Status.echoOk 2 3),
                   Signal.stateChanged State.SendingFragment] := by
  refine ⟨by decide, by decide, by decide, by decide, by decide, ?_, ?_⟩
  · exact processIncoming_blank blankSlotSender _ (by decide)
  · intro incoming hb
    have hm : echoMatch blankSlotSender.m_lastSent (trimmed incoming) = true :=
      echoMatch_blank _ _ (by decide)
    have hs : blankSlotSender.m_state = State.WaitingEcho := by decide
    have hi : blankSlotSender.m_fragIndex = 1 := by decide
    have hl : blankSlotSender.m_fragments.length = 3 := by decide
    have hr : processIncoming blankSlotSender incoming = { blankSlotSender with
        m_retryCount := 0
        m_fragIndex := 2
        m_state := State.SendingFragment
        emitted := blankSlotSender.emitted ++ [Signal.statusMessage (Status.echoOk 2 3),
                   Signal.stateChanged State.SendingFragment] } := by
      simp [processIncoming, hb, hs, hm, hi, hl, setState_eq, emit]
    rw [hr]
    refine ⟨rfl, rfl, rfl, ?_⟩
    simp [emittedSince]

theorem blank_slot_stalls_witness :
    (processIncoming blankSlotSender (qs "NO")).m_fragIndex = 2 :=
  (blank_slot_stalls.2.2.2.2.2.2 (qs "NO") (by decide)).1

theorem dropWhile_spaces_append (a x : QString) (ha : ∀ c ∈ a, isSpace c = true) :
    (a ++ x).dropWhile isSpace = x.dropWhile isSpace := by
  induction a with
  | nil => rfl
  | cons c a ih =>
    have hc := ha c (by simp)
    rw [List.cons_append, List.dropWhile_cons, if_pos hc]
    exact ih (fun d hd => ha d (by simp [hd]))

theorem dropWhile_spaces (a : QString) (ha : ∀ c ∈ a, isSpace c = true) :
    a.dropWhile isSpace = [] := by
  have := dropWhile_spaces_append a [] ha
  simpa using this

theorem dropWhile_of_head (x : QString) (h : ∀ c, x.head? = some c → isSpace c = false) :
    x.dropWhile isSpace = x := by
  cases x with
  | nil => rfl
  | cons c t =>
    have := h c rfl
    simp [List.dropWhile_cons, this]

/-- The trimmed form of a text that has spaces around a core with no space at
either end is the core. -/
theorem trimmed_sandwich_eq (a w b : QString) (ha : ∀ c ∈ a, isSpace c = true)
    (hb : ∀ c ∈ b, isSpace c = true)
    (hh : ∀ c, w.head? = some c → isSpace c = false)
    (hl : ∀ c, w.getLast? = some c → isSpace c = false) :
    trimmed (a ++ w ++ b) = w := by
  unfold trimmed
  rw [List.append_assoc, dropWhile_spaces_append a _ ha]
  by_cases hw : w = []
  · subst hw
    rw [List.nil_append, dropWhile_spaces b hb]
    rfl
  · have h1 : (w ++ b).dropWhile isSpace = w ++ b := by
      apply dropWhile_of_head
      intro c hc
      rw [List.head?_append_of_ne_nil _ hw] at hc
      exact hh c hc
    rw [h1, List.rdropWhile, List.reverse_append,
      dropWhile_spaces_append b.reverse _ (fun c hc => hb c (List.mem_reverse.mp hc)),
      dropWhile_of_head, List.reverse_reverse]
    intro c hc
    rw [List.head?_reverse] at hc
    exact hl c hc

/-- Every text is its trimmed form with spaces on both sides. -/
theorem trimmed_sandwich (x : QString) :
    ∃ a b, (∀ c ∈ a, isSpace c = true) ∧ (∀ c ∈ b, isSpace c = true)
      ∧ x = a ++ trimmed x ++ b := by
  refine ⟨x.takeWhile isSpace,
    (((x.dropWhile isSpace).reverse).takeWhile isSpace).reverse, ?_, ?_, ?_⟩
  · intro c hc
    exact List.mem_takeWhile_imp hc
  · intro c hc
    exact List.mem_takeWhile_imp (List.mem_reverse.mp hc)
  · unfold trimmed
    rw [List.rdropWhile, List.append_assoc, ← List.reverse_append,
      List.takeWhile_append_dropWhile, List.reverse_reverse, List.takeWhile_append_dropWhile]

/-- Spaces added on either side do not change the trimmed form. -/
theorem trimmed_pad (a x b : QString) (ha : ∀ c ∈ a, isSpace c = true)
    (hb : ∀ c ∈ b, isSpace c = true) : trimmed (a ++ x ++ b) = trimmed x := by
  obtain ⟨a', b', ha', hb', hx⟩ := trimmed_sandwich x
  have e : a ++ x ++ b = (a ++ a') ++ trimmed x ++ (b' ++ b) := by
    conv_lhs => rw [hx]
    simp only [List.append_assoc]
  rw [e]
  apply trimmed_sandwich_eq
  · intro c hc
    rcases List.mem_append.mp hc with h | h
    · exact ha c h
    · exact ha' c h
  · intro c hc
    rcases List.mem_append.mp hc with h | h
    · exact hb' c h
    · exact hb c h
  · exact trimmed_head x
  · exact trimmed_last x

theorem trimmed_pad_right (x b : QString) (hb : ∀ c ∈ b, isSpace c = true) :
    trimmed (x ++ b) = trimmed x := by
  have := trimmed_pad [] x b (by simp) hb
  simpa using this

theorem trimmed_pad_left (a x : QString) (ha : ∀ c ∈ a, isSpace c = true) :
    trimmed (a ++ x) = trimmed x := by
  have := trimmed_pad a x [] ha (by simp)
  simpa using this

theorem replicate_spaces (k : Nat) : ∀ c ∈ List.replicate k ' '.toNat, isSpace c = true := by
  intro c hc
  rw [List.eq_of_mem_replicate hc]
  decide

theorem trimmed_leftJustified (x : QString) (k : Nat) :
    trimmed (leftJustified x k ' '.toNat) = trimmed x :=
  trimmed_pad_right x _ (replicate_spaces _)

/-- The text before a final `/AR`, trimmed, is what `stripAR` returns. -/
theorem stripAR_append_AR (x : QString) : stripAR (x ++ qs "/AR") = trimmed x := by
  obtain ⟨a, b, ha, hb, hx⟩ := trimmed_sandwich x
  have hAR : qs "/AR" = [47, 65, 82] := by decide
  by_cases hw : trimmed x = []
  · have hxs : ∀ c ∈ x, isSpace c = true := by
      intro c hc
      rw [hx, hw, List.append_nil] at hc
      rcases List.mem_append.mp hc with h | h
      · exact ha c h
      · exact hb c h
    have ht : trimmed (x ++ qs "/AR") = qs "/AR" := by
      have := trimmed_sandwich_eq x (qs "/AR") [] hxs (by simp) (by decide) (by decide)
      rwa [List.append_nil] at this
    unfold stripAR
    simp only []
    rw [ht, hw]
    decide
  · have ht : trimmed (x ++ qs "/AR") = trimmed x ++ b ++ qs "/AR" := by
      have e : x ++ qs "/AR" = a ++ (trimmed x ++ b ++ qs "/AR") ++ [] := by
        conv_lhs => rw [hx]
        simp only [List.append_assoc, List.append_nil]
      rw [e]
      apply trimmed_sandwich_eq _ _ _ ha (by simp)
      · intro c hc
        rw [List.append_assoc, List.head?_append_of_ne_nil _ hw] at hc
        exact trimmed_head x c hc
      · intro c hc
        rw [hAR, List.getLast?_append_of_ne_nil _ (by simp)] at hc
        simp at hc
        rw [← hc]
        decide
    unfold stripAR
    simp only []
    rw [ht, endsWith_append, if_pos rfl]
    have hchop : chop (trimmed x ++ b ++ qs "/AR") 3 = trimmed x ++ b := by
      unfold chop
      have : (trimmed x ++ b ++ qs "/AR").length - 3 = (trimmed x ++ b).length := by
        simp [hAR]
        omega
      rw [this, List.take_left']
      rfl
    rw [hchop, trimmed_pad_right _ _ hb, trimmed_trimmed]

theorem spaceJoin_append_one (ws : QStringList) (hne : ws ≠ []) (z : QString) :
    spaceJoin (ws ++ [z]) = spaceJoin ws ++ qs " " ++ z := by
  induction ws with
  | nil => exact absurd rfl hne
  | cons w rest ih =>
    cases rest with
    | nil => rfl
    | cons v rest' =>
      have := ih (by simp)
      simp only [List.cons_append, spaceJoin, List.append_eq] at this ⊢
      rw [this]
      simp only [List.append_assoc]

theorem word_ends (w : QString) (h : trimmed w = w) :
    endsWithChar w ' '.toNat = false ∧ startsWithChar w ' '.toNat = false := by
  have hs : isSpace ' '.toNat = true := by decide
  constructor
  · by_contra hc
    simp only [endsWithChar, Bool.not_eq_false, beq_iff_eq] at hc
    rw [← h] at hc
    have := trimmed_last w _ hc
    rw [hs] at this
    exact absurd this (by decide)
  · by_contra hc
    simp only [startsWithChar, Bool.not_eq_false, beq_iff_eq] at hc
    rw [← h] at hc
    have := trimmed_head w _ hc
    rw [hs] at this
    exact absurd this (by decide)

/-- Between payloads that carry no space where they meet, the reassembly of the
specification puts exactly one space. -/
theorem spacedConcat_eq_spaceJoin (l : QStringList) :
    (∀ p ∈ l.dropLast, endsWithChar p ' '.toNat = false) →
    (∀ q ∈ l.tail, startsWithChar q ' '.toNat = false) →
    spacedConcat l = spaceJoin l := by
  induction l with
  | nil => intro _ _; rfl
  | cons p rest ih =>
    intro h1 h2
    cases rest with
    | nil => rfl
    | cons q rest' =>
      have hp : endsWithChar p ' '.toNat = false := h1 p (by simp [List.dropLast])
      have hq : startsWithChar q ' '.toNat = false := h2 q (by simp)
      have hrec := ih (fun x hx => h1 x (by
          rw [List.dropLast_cons_of_ne_nil (by simp)]
          exact List.mem_cons_of_mem _ hx))
        (fun x hx => h2 x (by
          simp only [List.tail_cons] at hx ⊢
          exact List.mem_cons_of_mem _ hx))
      simp only [spacedConcat, spaceJoin, hp, hq, Bool.not_false, Bool.and_self, if_true]
      rw [hrec]

theorem spaceJoin_ne_nil (ws : QStringList) (hne : ws ≠ []) (hw : ∀ w ∈ ws, w ≠ []) :
    spaceJoin ws ≠ [] := by
  match ws, hne, hw with
  | [w], _, hw => exact hw w (by simp)
  | w :: v :: rest, _, hw =>
    simp only [spaceJoin]
    intro h0
    have := congrArg List.length h0
    simp [qs] at this

theorem spaceJoin_head (ws : QStringList) (hw : ∀ w ∈ ws, w ≠ [] ∧ trimmed w = w) :
    ∀ c, (spaceJoin ws).head? = some c → isSpace c = false := by
  intro c hc
  match ws, hw, hc with
  | [], _, hc => simp [spaceJoin] at hc
  | [w], hw, hc =>
    have := (hw w (by simp)).2
    rw [spaceJoin, ← this] at hc
    exact trimmed_head w c hc
  | w :: v :: rest, hw, hc =>
    obtain ⟨h1, h2⟩ := hw w (by simp)
    rw [spaceJoin, List.append_assoc, List.head?_append_of_ne_nil _ h1, ← h2] at hc
    exact trimmed_head w c hc

theorem spaceJoin_last (ws : QStringList) (hw : ∀ w ∈ ws, w ≠ [] ∧ trimmed w = w) :
    ∀ c, (spaceJoin ws).getLast? = some c → isSpace c = false := by
  induction ws with
  | nil => intro c hc; simp [spaceJoin] at hc
  | cons w rest ih =>
    intro c hc
    cases rest with
    | nil =>
      have := (hw w (by simp)).2
      rw [spaceJoin, ← this] at hc
      exact trimmed_last w c hc
    | cons v rest' =>
      have hrest : ∀ x ∈ v :: rest', x ≠ [] ∧ trimmed x = x :=
        fun x hx => hw x (List.mem_cons_of_mem _ hx)
      have hne := spaceJoin_ne_nil (v :: rest') (by simp) (fun x hx => (hrest x hx).1)
      rw [spaceJoin, List.getLast?_append_of_ne_nil _ hne] at hc
      exact ih hrest c hc

theorem trimmed_spaceJoin (ws : QStringList) (hw : ∀ w ∈ ws, w ≠ [] ∧ trimmed w = w) :
    trimmed (spaceJoin ws) = spaceJoin ws :=
  trimmed_eq_self _ (spaceJoin_head ws hw) (spaceJoin_last ws hw)

theorem filter_words (ws : QStringList) (hw : ∀ w ∈ ws, w ≠ [] ∧ trimmed w = w) :
    ws.filter (fun w => !w.isEmpty) = ws := by
  rw [List.filter_eq_self]
  intro w hw'
  have := (hw w hw').1
  cases w with
  | nil => exact absurd rfl this
  | cons _ _ => rfl

/-- The text delivered for a first payload `a ++ w0` (spaces, then a word),
further payloads that are words and a last payload that is trimmed, possibly
empty: the words joined by single spaces. -/
theorem trimmed_joinPayloads_words (a w0 z : QString) (ps : QStringList)
    (ha : ∀ c ∈ a, isSpace c = true) (hw0 : w0 ≠ [] ∧ trimmed w0 = w0)
    (hps : ∀ w ∈ ps, w ≠ [] ∧ trimmed w = w) (hz : trimmed z = z) :
    trimmed (joinPayloads ((a ++ w0) :: (ps ++ [z])) [])
      = spaceJoin ((w0 :: (ps ++ [z])).filter (fun w => !w.isEmpty)) := by
  have hj : joinPayloads ((a ++ w0) :: (ps ++ [z])) []
      = a ++ spacedConcat (w0 :: (ps ++ [z])) := by
    have := joinPayloads_spaced ps a w0 z hw0.1 (fun y hy => (hps y hy).1)
    rw [← this]
    simp [joinPayloads]
  have hall : ∀ w ∈ w0 :: ps, w ≠ [] ∧ trimmed w = w := by
    intro w hw
    rcases List.mem_cons.mp hw with rfl | h
    · exact hw0
    · exact hps w h
  have hsc : spacedConcat (w0 :: (ps ++ [z])) = spaceJoin (w0 :: (ps ++ [z])) := by
    apply spacedConcat_eq_spaceJoin
    · intro p hp
      rw [← List.cons_append, List.dropLast_concat] at hp
      exact (word_ends p (hall p hp).2).1
    · intro q hq
      simp only [List.tail_cons] at hq
      rcases List.mem_append.mp hq with h | h
      · exact (word_ends q (hps q h).2).2
      · rw [List.mem_singleton] at h
        rw [h]
        exact (word_ends z hz).2
  rw [hj, hsc, ← List.cons_append]
  by_cases hz0 : z = []
  · subst hz0
    rw [spaceJoin_append_one _ (by simp), List.filter_append, filter_words _ hall]
    simp only [List.isEmpty_nil, Bool.not_true, List.filter_cons, Bool.false_eq_true, if_false,
      List.filter_nil, List.append_nil]
    have hsp : ∀ c ∈ qs " ", isSpace c = true := by decide
    rw [← List.append_assoc, trimmed_pad a _ (qs " ") ha hsp, trimmed_spaceJoin _ hall]
  · have hall2 : ∀ w ∈ (w0 :: ps) ++ [z], w ≠ [] ∧ trimmed w = w := by
      intro w hw
      rcases List.mem_append.mp hw with h | h
      · exact hall w h
      · rw [List.mem_singleton] at h
        rw [h]
        exact ⟨hz0, hz⟩
    rw [filter_words _ hall2, trimmed_pad_left a _ ha, trimmed_spaceJoin _ hall2]

/-- The payloads buffered by the frames between the header and the terminator:
the trimmed frames, the blank ones left out. -/
theorem middle_frames_payloads (mids : List QString) :
    ∀ q : ChatProtocol, q.m_state = State.EchoReady → q.m_rxSenderId ≠ [] →
      (∀ f ∈ mids, isHeader (trimmed f) = false ∧ endsWithAR f = false) →
      (mids.foldl processIncoming q).m_rxPayloads
        = q.m_rxPayloads ++ (mids.map trimmed).filter (fun t => !t.isEmpty) := by
  induction mids with
  | nil =>
    intro q _ _ _
    simp
  | cons f fs ih =>
    intro q hs hne hall
    obtain ⟨hh, har⟩ := hall f (by simp)
    have hrest : ∀ g ∈ fs, isHeader (trimmed g) = false ∧ endsWithAR g = false :=
      fun g hg => hall g (by simp [hg])
    rw [List.foldl_cons, List.map_cons, List.filter_cons]
    by_cases hb : trimmed f = []
    · rw [processIncoming_blank q f hb, ih q hs hne hrest, hb]
      rfl
    · have hq := processIncoming_continue q f hs hne hb hh har
      have e1 : (processIncoming q f).m_state = State.EchoReady := by rw [hq]; exact hs
      have e2 : (processIncoming q f).m_rxSenderId = q.m_rxSenderId := by rw [hq]
      have e3 : (processIncoming q f).m_rxPayloads = q.m_rxPayloads ++ [trimmed f] := by rw [hq]
      have hne' : (!(trimmed f).isEmpty) = true := by
        cases ht : trimmed f with
        | nil => exact absurd ht hb
        | cons _ _ => rfl
      rw [ih (processIncoming q f) e1 (by rw [e2]; exact hne) hrest, e3, if_pos hne',
        List.append_assoc]
      rfl

/-- Reception of a broadcast, with the text delivered: the payload of the header
frame, the trimmed frames that follow (the blank ones left out) and the
`stripAR` of the last frame, reassembled. -/
theorem receive_frames_exact (p : ChatProtocol) (f0 : QString) (rest : List QString)
    (hs : p.m_state = State.Idle)
    (hh : isHeader (trimmed f0) = true) (ht : headerTarget (trimmed f0) = p.m_myId)
    (hb : ∀ f ∈ rest, isHeader (trimmed f) = false)
    (hc : ∀ f ∈ (f0 :: rest).dropLast, endsWithAR f = false)
    (hl : ∀ l, (f0 :: rest).getLast? = some l → endsWithAR l = true) :
    (rest = [] →
      (emittedSince p ((f0 :: rest).foldl processIncoming p)).filter isMessageReceived
        = [Signal.messageReceived (headerSender (trimmed f0))
            (stripAR (headerPayload (trimmed f0)))])
    ∧ (∀ mids last, rest = mids ++ [last] →
      (emittedSince p ((f0 :: rest).foldl processIncoming p)).filter isMessageReceived
        = [Signal.messageReceived (headerSender (trimmed f0))
            (trimmed (joinPayloads (headerPayload (trimmed f0) ::
              ((mids.map trimmed).filter (fun t => !t.isEmpty) ++ [stripAR last])) []))]) := by
  have hne : p.m_state ≠ State.WaitingEcho := by rw [hs]; decide
  have hpay : endsWithAR (headerPayload (trimmed f0)) = endsWithAR f0 := by
    rw [endsWithAR_headerPayload hh (trimmed_trimmed f0), endsWithAR_trimmed]
  constructor
  · intro hr
    subst hr
    have har : endsWithAR (headerPayload (trimmed f0)) = true := by
      rw [hpay]; exact hl f0 rfl
    rw [List.foldl_cons, List.foldl_nil]
    have hq := processIncoming_header_single p f0 hne hh ht har
    rw [emittedSince_append p _ _ (by rw [hq])]
    simp [hs, isMessageReceived, joinPayloads_single, stripAR_trimmed_self]
  · intro mids last hr
    subst hr
    have hd : (f0 :: (mids ++ [last])).dropLast = f0 :: mids := by
      rw [← List.cons_append, List.dropLast_concat]
    rw [hd] at hc
    have hlast : endsWithAR last = true := by
      apply hl
      rw [← List.cons_append, List.getLast?_concat]
    have har : endsWithAR (headerPayload (trimmed f0)) = false := by
      rw [hpay]; exact hc f0 (by simp)
    have hq1 := processIncoming_header_start p f0 hne hh ht har
    have a1 : (processIncoming p f0).m_state = State.EchoReady := by rw [hq1]
    have a2 : (processIncoming p f0).m_rxSenderId = headerSender (trimmed f0) := by rw [hq1]
    have a3 : (processIncoming p f0).m_rxPayloads = [headerPayload (trimmed f0)] := by rw [hq1]
    have a4 : (processIncoming p f0).emitted = p.emitted ++
        [Signal.stateChanged State.EchoReady,
         Signal.statusMessage (Status.recuDe (headerSender (trimmed f0)))] := by
      rw [hq1]; simp [hs]
    have hsn : (processIncoming p f0).m_rxSenderId ≠ [] := by
      rw [a2]; exact headerSender_ne_nil hh
    have hmid : ∀ f ∈ mids, isHeader (trimmed f) = false ∧ endsWithAR f = false :=
      fun f hf => ⟨hb f (by simp [hf]), hc f (by simp [hf])⟩
    obtain ⟨b1, b2, _, evs, b4, b5⟩ := middle_frames mids (processIncoming p f0) a1 hsn hmid
    have b3 := middle_frames_payloads mids (processIncoming p f0) a1 hsn hmid
    have hsn2 : (mids.foldl processIncoming (processIncoming p f0)).m_rxSenderId ≠ [] := by
      rw [b2]; exact hsn
    have hq3 := processIncoming_final (mids.foldl processIncoming (processIncoming p f0)) last
      b1 hsn2 (hb last (by simp)) hlast
    rw [List.foldl_cons, List.foldl_append, List.foldl_cons, List.foldl_nil]
    rw [emittedSince_append p _
        ([Signal.stateChanged State.EchoReady,
          Signal.statusMessage (Status.recuDe (headerSender (trimmed f0)))] ++ evs ++
         [Signal.stateChanged State.Idle,
          Signal.messageReceived (headerSender (trimmed f0))
            (trimmed (joinPayloads
              ((mids.foldl processIncoming (processIncoming p f0)).m_rxPayloads
                ++ [stripAR last]) [])),
          Signal.statusMessage (Status.messageComplet (headerSender (trimmed f0)))])
        (by rw [hq3, b4, a4, b2, a2]; simp only [List.append_assoc])]
    rw [b3, a3]
    simp [List.filter_append, b5, isMessageReceived]

/-- The four shapes the `/AR` step gives to a non-empty fragment list. -/
theorem appendAR_cases (g0 : QString) (sl : QStringList) :
    (sl = [] ∧ g0.length + 3 ≤ 13
        ∧ appendAR (g0 :: sl) = [leftJustified g0 10 ' '.toNat ++ qs "/AR"])
      ∨ (sl = [] ∧ ¬ g0.length + 3 ≤ 13
        ∧ appendAR (g0 :: sl) = g0 :: ([] ++ [qs "          /AR"]))
      ∨ (∃ mids last, sl = mids ++ [last] ∧ last.length + 3 ≤ 13
        ∧ appendAR (g0 :: sl)
            = g0 :: (mids ++ [leftJustified last 10 ' '.toNat ++ qs "/AR"]))
      ∨ (∃ mids last, sl = mids ++ [last] ∧ ¬ last.length + 3 ≤ 13
        ∧ appendAR (g0 :: sl) = g0 :: ((mids ++ [last]) ++ [qs "          /AR"])) := by
  rcases List.eq_nil_or_concat sl with hsl | ⟨mids, last, hsl⟩
  · subst hsl
    by_cases hlen : g0.length + 3 ≤ 13
    · left
      refine ⟨rfl, hlen, ?_⟩
      unfold appendAR
      simp only [List.getLast?_singleton, SLOT_SIZE, List.dropLast_single, List.nil_append]
      rw [if_pos hlen]
    · right; left
      refine ⟨rfl, hlen, ?_⟩
      unfold appendAR
      simp only [List.getLast?_singleton, SLOT_SIZE]
      rw [if_neg hlen]
      rfl
  · rw [List.concat_eq_append] at hsl
    subst hsl
    have hg : (g0 :: (mids ++ [last])).getLast? = some last := by
      rw [← List.cons_append, List.getLast?_concat]
    have hd : (g0 :: (mids ++ [last])).dropLast = g0 :: mids := by
      rw [← List.cons_append, List.dropLast_concat]
    by_cases hlen : last.length + 3 ≤ 13
    · right; right; left
      refine ⟨mids, last, rfl, hlen, ?_⟩
      unfold appendAR
      rw [hg]
      simp only [SLOT_SIZE, hd]
      rw [if_pos hlen]
      rfl
    · right; right; right
      refine ⟨mids, last, rfl, hlen, ?_⟩
      unfold appendAR
      rw [hg]
      simp only [SLOT_SIZE]
      rw [if_neg hlen]
      rfl

theorem digits_word (S : QString) (hSd : ∀ c ∈ S, isDigit c = true) :
    (∀ c, S.head? = some c → isSpace c = false)
      ∧ (∀ c, S.getLast? = some c → isSpace c = false) := by
  constructor
  · intro c hc
    exact isDigit_not_isSpace (hSd c (List.mem_of_mem_head? hc))
  · intro c hc
    exact isDigit_not_isSpace (hSd c (List.mem_of_mem_getLast? hc))

/-- The payload of the header frame `S ++ R ++ " " ++ c0` once trimmed: `c0`
without its trailing spaces, which is not blank. -/
theorem headerPayload_first_slot (S R c0 : QString) (hS : S.length = 2) (hR : R.length = 2)
    (hSd : ∀ c ∈ S, isDigit c = true) (hRd : ∀ c ∈ R, isDigit c = true)
    (hh : isHeader (trimmed (S ++ R ++ qs " " ++ c0)) = true) :
    ∃ a, (∀ c ∈ a, isSpace c = true)
      ∧ headerPayload (trimmed (S ++ R ++ qs " " ++ c0)) = a ++ trimmed c0
      ∧ trimmed c0 ≠ [] := by
  obtain ⟨a, b, ha, hb, hx⟩ := trimmed_sandwich c0
  have hSne : S ≠ [] := by intro h0; rw [h0] at hS; simp at hS
  have hRne : R ≠ [] := by intro h0; rw [h0] at hR; simp at hR
  have hsp : ∀ c ∈ qs " ", isSpace c = true := by decide
  by_cases hw : trimmed c0 = []
  · exfalso
    have hall : ∀ c ∈ qs " " ++ c0, isSpace c = true := by
      intro c hc
      rw [hx, hw, List.append_nil] at hc
      rcases List.mem_append.mp hc with h | h
      · exact hsp c h
      · rcases List.mem_append.mp h with h | h
        · exact ha c h
        · exact hb c h
    have ht : trimmed (S ++ R ++ qs " " ++ c0) = S ++ R := by
      have := trimmed_sandwich_eq [] (S ++ R) (qs " " ++ c0) (by simp) hall
        (by
          intro c hc
          rw [List.head?_append_of_ne_nil _ hSne] at hc
          exact (digits_word S hSd).1 c hc)
        (by
          intro c hc
          rw [List.getLast?_append_of_ne_nil _ hRne] at hc
          exact (digits_word R hRd).2 c hc)
      simpa [List.append_assoc] using this
    rw [ht] at hh
    simp [isHeader, HEADER_SIZE, hS, hR] at hh
  · refine ⟨a, ha, ?_, hw⟩
    have ht : trimmed (S ++ R ++ qs " " ++ c0) = S ++ R ++ qs " " ++ (a ++ trimmed c0) := by
      have e : S ++ R ++ qs " " ++ c0
          = [] ++ (S ++ R ++ qs " " ++ (a ++ trimmed c0)) ++ b := by
        conv_lhs => rw [hx]
        simp only [List.append_assoc, List.nil_append]
      rw [e]
      apply trimmed_sandwich_eq _ _ _ (by simp) hb
      · intro c hc
        rw [List.append_assoc, List.append_assoc, List.head?_append_of_ne_nil _ hSne] at hc
        exact (digits_word S hSd).1 c hc
      · intro c hc
        rw [← List.append_assoc, List.getLast?_append_of_ne_nil _ hw] at hc
        exact trimmed_last c0 c hc
    rw [ht] at hh ⊢
    unfold headerPayload
    rw [hh]
    simp only [Bool.not_true, Bool.false_eq_true, if_false, midFrom, HEADER_SIZE]
    have h5 : (S ++ R ++ qs " ").length = 5 := by simp [hS, hR, qs]
    rw [List.drop_left' h5]

/-- The delivered payload of a message that fits one slot: the trimmed text. -/
theorem stripAR_single_slot (S R c0 : QString) (hS : S.length = 2) (hR : R.length = 2)
    (hSd : ∀ c ∈ S, isDigit c = true)
    (hh : isHeader (trimmed (leftJustified (S ++ R ++ qs " " ++ c0) 10 ' '.toNat ++ qs "/AR"))
      = true) :
    stripAR (headerPayload
      (trimmed (leftJustified (S ++ R ++ qs " " ++ c0) 10 ' '.toNat ++ qs "/AR")))
      = trimmed c0 := by
  have hSne : S ≠ [] := by intro h0; rw [h0] at hS; simp at hS
  have hAR : qs "/AR" = [47, 65, 82] := by decide
  have e : leftJustified (S ++ R ++ qs " " ++ c0) 10 ' '.toNat ++ qs "/AR"
      = S ++ R ++ qs " " ++ ((c0 ++ List.replicate
          (10 - (S ++ R ++ qs " " ++ c0).length) ' '.toNat) ++ qs "/AR") := by
    unfold leftJustified
    simp only [List.append_assoc]
  rw [e] at hh ⊢
  have ht : trimmed (S ++ R ++ qs " " ++ ((c0 ++ List.replicate
      (10 - (S ++ R ++ qs " " ++ c0).length) ' '.toNat) ++ qs "/AR"))
      = S ++ R ++ qs " " ++ ((c0 ++ List.replicate
          (10 - (S ++ R ++ qs " " ++ c0).length) ' '.toNat) ++ qs "/AR") := by
    apply trimmed_eq_self
    · intro c hc
      rw [List.append_assoc, List.append_assoc, List.head?_append_of_ne_nil _ hSne] at hc
      exact (digits_word S hSd).1 c hc
    · intro c hc
      rw [← List.append_assoc, hAR, List.getLast?_append_of_ne_nil _ (by simp)] at hc
      simp at hc
      rw [← hc]
      decide
  rw [ht] at hh ⊢
  unfold headerPayload
  rw [hh]
  simp only [Bool.not_true, Bool.false_eq_true, if_false, midFrom, HEADER_SIZE]
  have h5 : (S ++ R ++ qs " ").length = 5 := by simp [hS, hR, qs]
  rw [List.drop_left' h5, stripAR_append_AR, trimmed_pad_right _ _ (replicate_spaces _)]

theorem trimmed_words (X : QStringList) :
    ∀ w ∈ (X.map trimmed).filter (fun t => !t.isEmpty), w ≠ [] ∧ trimmed w = w := by
  intro w hw
  rw [List.mem_filter, List.mem_map] at hw
  obtain ⟨⟨x, _, rfl⟩, hne⟩ := hw
  refine ⟨?_, trimmed_trimmed x⟩
  intro h0
  rw [h0] at hne
  simp at hne

/-- Reception of the slots `S ++ R ++ " " ++ c0`, `mids`, `last`, the last one
ending with `/AR`: the words of the payloads joined by single spaces. -/
theorem delivered_multi (p : ChatProtocol) (S R c0 : QString) (mids : QStringList)
    (last z : QString)
    (hS : S.length = 2) (hSd : ∀ c ∈ S, isDigit c = true)
    (hR : R.length = 2) (hRd : ∀ c ∈ R, isDigit c = true)
    (hp : p.m_state = State.Idle) (hid : p.m_myId = R)
    (h0 : isHeader (trimmed (S ++ R ++ qs " " ++ c0)) = true)
    (hb : ∀ f ∈ mids ++ [last], isHeader (trimmed f) = false)
    (hc : ∀ f ∈ (S ++ R ++ qs " " ++ c0) :: mids, endsWithAR f = false)
    (hlast : endsWithAR last = true) (hz : stripAR last = z) :
    (emittedSince p (((S ++ R ++ qs " " ++ c0) :: (mids ++ [last])).foldl
        processIncoming p)).filter isMessageReceived
      = [Signal.messageReceived S
          (spaceJoin ((trimmed c0 :: (mids.map trimmed ++ [z])).filter
            (fun w => !w.isEmpty)))] := by
  obtain ⟨f1, f2⟩ := header_fields_of_trimmed S R c0 hS hR hSd h0
  have hd : ((S ++ R ++ qs " " ++ c0) :: (mids ++ [last])).dropLast
      = (S ++ R ++ qs " " ++ c0) :: mids := by
    rw [← List.cons_append, List.dropLast_concat]
  have hx := (receive_frames_exact p (S ++ R ++ qs " " ++ c0) (mids ++ [last]) hp h0
    (by rw [f2, hid]) hb (by rw [hd]; exact hc)
    (by
      intro l hl
      rw [← List.cons_append, List.getLast?_concat] at hl
      injection hl with e
      rw [← e]
      exact hlast)).2 mids last rfl
  rw [hx, f1, hz]
  obtain ⟨a, ha, hpay, hw⟩ := headerPayload_first_slot S R c0 hS hR hSd hRd h0
  have hzt : trimmed z = z := by rw [← hz]; exact stripAR_trimmed_self last
  rw [hpay, trimmed_joinPayloads_words a (trimmed c0) z _ ha ⟨hw, trimmed_trimmed c0⟩
    (trimmed_words mids) hzt]
  congr 2
  simp only [List.filter_cons, List.filter_append, List.filter_filter, Bool.and_self]

theorem spaceJoin_single_word (c0 : QString) :
    spaceJoin (slotWords [c0]) = trimmed c0 := by
  unfold slotWords
  cases h : trimmed c0 with
  | nil => simp [h, spaceJoin]
  | cons x xs => simp [h, spaceJoin]

/-- Reception of the slots that the `/AR` step builds from the header slot
`S ++ R ++ " " ++ c0` and the continuation slots `sl`. -/
theorem delivered_of_slots (p : ChatProtocol) (S R c0 : QString) (sl : QStringList)
    (hS : S.length = 2) (hSd : ∀ c ∈ S, isDigit c = true)
    (hR : R.length = 2) (hRd : ∀ c ∈ R, isDigit c = true)
    (hp : p.m_state = State.Idle) (hid : p.m_myId = R)
    (h0 : ∀ f ∈ (appendAR ((S ++ R ++ qs " " ++ c0) :: sl)).take 1,
      isHeader (trimmed f) = true)
    (hb : ∀ f ∈ (appendAR ((S ++ R ++ qs " " ++ c0) :: sl)).drop 1,
      isHeader (trimmed f) = false)
    (hc : ∀ f ∈ (appendAR ((S ++ R ++ qs " " ++ c0) :: sl)).dropLast,
      endsWithAR f = false) :
    (emittedSince p ((appendAR ((S ++ R ++ qs " " ++ c0) :: sl)).foldl
        processIncoming p)).filter isMessageReceived
      = [Signal.messageReceived S (spaceJoin (slotWords (c0 :: sl)))] := by
  have hAR10 : endsWithAR (qs "          /AR") = true := by decide
  have hs10 : stripAR (qs "          /AR") = [] := by decide
  rcases appendAR_cases (S ++ R ++ qs " " ++ c0) sl with
    ⟨hsl, _, hF⟩ | ⟨hsl, _, hF⟩ | ⟨mids, last, hsl, _, hF⟩ | ⟨mids, last, hsl, _, hF⟩
  · rw [hF] at h0 hb hc ⊢
    subst hsl
    have hh := h0 (leftJustified (S ++ R ++ qs " " ++ c0) 10 ' '.toNat ++ qs "/AR")
      (List.mem_singleton.mpr rfl)
    have e : leftJustified (S ++ R ++ qs " " ++ c0) 10 ' '.toNat ++ qs "/AR"
        = S ++ R ++ qs " " ++ ((c0 ++ List.replicate
            (10 - (S ++ R ++ qs " " ++ c0).length) ' '.toNat) ++ qs "/AR") := by
      unfold leftJustified
      simp only [List.append_assoc]
    have hh2 := hh
    rw [e] at hh2
    obtain ⟨f1, f2⟩ := header_fields_of_trimmed S R _ hS hR hSd hh2
    rw [← e] at f1 f2
    have hx := (receive_frames_exact p _ [] hp hh (by rw [f2, hid]) (by simp) (by simp)
      (by
        intro l hl
        simp only [List.getLast?_singleton, Option.some.injEq] at hl
        rw [← hl]
        exact endsWithAR_append _)).1 rfl
    rw [hx, f1, stripAR_single_slot S R c0 hS hR hSd hh, spaceJoin_single_word]
  · rw [hF] at h0 hb hc ⊢
    subst hsl
    have hx := delivered_multi p S R c0 [] (qs "          /AR") [] hS hSd hR hRd hp hid
      (h0 _ (by simp)) (fun f hf => hb f (by simpa using hf))
      (fun f hf => hc f (by simpa using hf)) hAR10 hs10
    rw [hx]
    congr 2
  · rw [hF] at h0 hb hc ⊢
    subst hsl
    have hd : ((S ++ R ++ qs " " ++ c0) ::
        (mids ++ [leftJustified last 10 ' '.toNat ++ qs "/AR"])).dropLast
        = (S ++ R ++ qs " " ++ c0) :: mids := by
      rw [← List.cons_append, List.dropLast_concat]
    rw [hd] at hc
    have hx := delivered_multi p S R c0 mids (leftJustified last 10 ' '.toNat ++ qs "/AR")
      (trimmed last) hS hSd hR hRd hp hid
      (h0 _ (by simp)) (fun f hf => hb f (by simpa using hf)) hc (endsWithAR_append _)
      (by rw [stripAR_append_AR, trimmed_leftJustified])
    rw [hx]
    congr 2
    simp [slotWords]
  · rw [hF] at h0 hb hc ⊢
    subst hsl
    have hd : ((S ++ R ++ qs " " ++ c0) ::
        ((mids ++ [last]) ++ [qs "          /AR"])).dropLast
        = (S ++ R ++ qs " " ++ c0) :: (mids ++ [last]) := by
      rw [← List.cons_append, List.dropLast_concat]
    rw [hd] at hc
    have hx := delivered_multi p S R c0 (mids ++ [last]) (qs "          /AR") []
      hS hSd hR hRd hp hid
      (h0 _ (by simp)) (fun f hf => hb f (by simpa using hf)) hc hAR10 hs10
    rw [hx]
    congr 2
    simp [slotWords, List.filter_append, List.filter_cons]

/-- The text a broadcast delivers: the payloads of the slots, each trimmed, the
blank ones left out, joined by single spaces. -/
theorem broadcast_delivered_text (p : ChatProtocol) (S R T : QString)
    (hS : S.length = 2) (hSd : ∀ c ∈ S, isDigit c = true)
    (hR : R.length = 2) (hRd : ∀ c ∈ R, isDigit c = true)
    (hT : filterFT8Text T MAX_MESSAGE_LEN ≠ [])
    (hp : p.m_state = State.Idle) (hid : p.m_myId = R)
    (h0 : ∀ f ∈ (fragmentBroadcast S R T).take 1, isHeader (trimmed f) = true)
    (hb : ∀ f ∈ (fragmentBroadcast S R T).drop 1, isHeader (trimmed f) = false)
    (hc : ∀ f ∈ (fragmentBroadcast S R T).dropLast, endsWithAR f = false) :
    (emittedSince p ((fragmentBroadcast S R T).foldl processIncoming p)).filter
        isMessageReceived
      = [Signal.messageReceived S
          (spaceJoin (slotWords (slotPayloads (filterFT8Text T MAX_MESSAGE_LEN))))] := by
  have hFB : fragmentBroadcast S R T
      = appendAR ((S ++ R ++ qs " " ++ left (filterFT8Text T MAX_MESSAGE_LEN) 8)
          :: slotsFrom (filterFT8Text T MAX_MESSAGE_LEN) 8) := by
    rw [fragmentBroadcast_eq_appendAR, fragmentMessage_eq S R T hT]
  rw [hFB] at h0 hb hc ⊢
  exact delivered_of_slots p S R _ _ hS hSd hR hRd hp hid h0 hb hc

/-- C3, counterexample: the broadcast of `"HELLO WORLD"` from `"01"` to `"02"` is
received as `"HELLO WO RLD"`, which is not the trimmed filtered text that was
sent: the reassembly puts a space at the slot boundary. -/
theorem broadcast_reassembly_counterexample :
    filterFT8Text (qs "HELLO WORLD") 99 ≠ []
    ∧ (setMyId init (qs "02")).m_state = State.Idle
    ∧ (setMyId init (qs "02")).m_myId = qs "02"
    ∧ (emittedSince (setMyId init (qs "02"))
        ((fragmentBroadcast (qs "01") (qs "02") (qs "HELLO WORLD")).foldl processIncoming
          (setMyId init (qs "02")))).filter isMessageReceived
        = [Signal.messageReceived (qs "01") (qs "HELLO WO RLD")]
    ∧ qs "HELLO WO RLD" ≠ trimmed (filterFT8Text (qs "HELLO WORLD") 99) := by
  decide

/-- C3, amended: for two-digit `S` and `R` and a text with non-empty filtered
form, let the slots of `fragmentBroadcast(S, R, T)` be fed in order to
`processIncoming` of an engine that is `Idle` with `myId = R`.  If, after
trimming, the first slot is a header frame, no later slot is a header frame, and
no slot before the last ends with `/AR`, the engine emits `messageReceived`
exactly once, with sender `S`, and is left in `Idle`.  The full text `M` is
made of the payloads of the slots (the first 8 characters of
`filterFT8Text(T, 99)`, then 13 characters at a time), each trimmed, the blank
ones left out, joined by single spaces: the characters inside a payload are
kept as they are, spaces included, and two payloads that follow each other are
separated by exactly one space.  Hence `M` is trimmed and has the same
non-space characters, in the same order, as `filterFT8Text(T, 99)`. -/
theorem broadcast_reassembly (p : ChatProtocol) (S R T : QString)
    (hS : S.length = 2) (hSd : ∀ c ∈ S, isDigit c = true)
    (hR : R.length = 2) (hRd : ∀ c ∈ R, isDigit c = true)
    (hT : filterFT8Text T 99 ≠ [])
    (hp : p.m_state = State.Idle) (hid : p.m_myId = R)
    (h0 : ∀ f ∈ (fragmentBroadcast S R T).take 1, isHeader (trimmed f) = true)
    (hb : ∀ f ∈ (fragmentBroadcast S R T).drop 1, isHeader (trimmed f) = false)
    (hc : ∀ f ∈ (fragmentBroadcast S R T).dropLast, endsWithAR f = false) :
    ∃ M, (emittedSince p ((fragmentBroadcast S R T).foldl processIncoming p)).filter
            isMessageReceived = [Signal.messageReceived S M]
      ∧ M = spaceJoin (slotWords (slotPayloads (filterFT8Text T 99)))
      ∧ nonSpace M = nonSpace (filterFT8Text T 99)
      ∧ trimmed M = M
      ∧ ((fragmentBroadcast S R T).foldl processIncoming p).m_state = State.Idle := by
  have h99 : filterFT8Text T 99 = filterFT8Text T MAX_MESSAGE_LEN := by
    simp [MAX_MESSAGE_LEN]
  rw [h99] at hT ⊢
  have hx := broadcast_delivered_text p S R T hS hSd hR hRd hT hp hid h0 hb hc
  have hG := fragmentMessage_eq S R T hT
  obtain ⟨y, rest, hF, ⟨l, hl1, hl2⟩, hns⟩ := appendAR_cons
    (S ++ R ++ qs " " ++ left (filterFT8Text T MAX_MESSAGE_LEN) 8)
    (slotsFrom (filterFT8Text T MAX_MESSAGE_LEN) 8)
  rw [← hG, ← fragmentBroadcast_eq_appendAR] at hF
  have e : S ++ R ++ qs " " ++ left (filterFT8Text T MAX_MESSAGE_LEN) 8 ++ y
      = S ++ R ++ qs " " ++ (left (filterFT8Text T MAX_MESSAGE_LEN) 8 ++ y) := by
    simp only [List.append_assoc]
  rw [e] at hF hl1 hns
  rw [hF] at h0 hb hc hx ⊢
  have hh : isHeader (trimmed
      (S ++ R ++ qs " " ++ (left (filterFT8Text T MAX_MESSAGE_LEN) 8 ++ y))) = true :=
    h0 (S ++ R ++ qs " " ++ (left (filterFT8Text T MAX_MESSAGE_LEN) 8 ++ y)) (by simp)
  obtain ⟨f1, f2⟩ := header_fields_of_trimmed S R _ hS hR hSd hh
  obtain ⟨M, m1, m2, m3, m4⟩ := receive_frames p
    (S ++ R ++ qs " " ++ (left (filterFT8Text T MAX_MESSAGE_LEN) 8 ++ y)) rest hp hh
    (by rw [f2, hid])
    (fun f hf => hb f (by simpa using hf)) hc
    (fun l' hl' => by rw [hl1] at hl'; injection hl' with e'; rw [← e']; exact hl2)
  rw [f1] at m1
  have hM : M = spaceJoin (slotWords (slotPayloads (filterFT8Text T MAX_MESSAGE_LEN))) := by
    rw [m1] at hx
    simp only [List.cons.injEq, Signal.messageReceived.injEq, and_true, true_and] at hx
    exact hx
  refine ⟨M, m1, hM, ?_, m3, m4⟩
  rw [hns] at m2
  simp only [List.flatten_cons, nonSpace_append, slotsFrom_flatten, nonSpace_digits S hSd,
    nonSpace_digits R hRd] at m2
  have hsp : nonSpace (qs " ") = [] := by decide
  rw [hsp, List.append_nil] at m2
  have hC : nonSpace (left (filterFT8Text T MAX_MESSAGE_LEN) 8)
      ++ nonSpace (List.drop 8 (filterFT8Text T MAX_MESSAGE_LEN))
      = nonSpace (filterFT8Text T MAX_MESSAGE_LEN) := by
    rw [← nonSpace_append]
    unfold left
    rw [List.take_append_drop]
  have h4 : (S ++ R).length = 4 := by simp [hS, hR]
  have e2 : S ++ R ++ nonSpace (left (filterFT8Text T MAX_MESSAGE_LEN) 8)
      ++ nonSpace (List.drop 8 (filterFT8Text T MAX_MESSAGE_LEN)) ++ qs "/AR"
      = (S ++ R) ++ (nonSpace (filterFT8Text T MAX_MESSAGE_LEN) ++ qs "/AR") := by
    rw [← hC]
    simp only [List.append_assoc]
  rw [e2, List.drop_left' h4] at m2
  exact List.append_cancel_right m2

theorem broadcast_reassembly_witness :
    ∃ M, (emittedSince (setMyId init (qs "02"))
          ((fragmentBroadcast (qs "01") (qs "02") (qs "HELLO WORLD")).foldl processIncoming
            (setMyId init (qs "02")))).filter isMessageReceived
          = [Signal.messageReceived (qs "01") M]
      ∧ M = spaceJoin (slotWords (slotPayloads (filterFT8Text (qs "HELLO WORLD") 99)))
      ∧ nonSpace M = nonSpace (filterFT8Text (qs "HELLO WORLD") 99)
      ∧ trimmed M = M
      ∧ ((fragmentBroadcast (qs "01") (qs "02") (qs "HELLO WORLD")).foldl processIncoming
            (setMyId init (qs "02"))).m_state = State.Idle :=
  broadcast_reassembly (setMyId init (qs "02")) (qs "01") (qs "02") (qs "HELLO WORLD")
    (by decide) (by decide) (by decide) (by decide) (by decide) (by decide) (by decide)
    (by decide) (by decide) (by decide)

end ChatProtocol
